import Mathlib

/-! LionCloud client: register codec, block cache and filesystem layer.

A shallow embedding of `lcloud_filesys.c` and `lcloud_cache.c`, followed by theorems about it.

Conventions of the embedding

* C `int` variables are `Int`; unsigned variables are `Nat`.  Every conversion between the two
  and every unsigned operation that can wrap is written out with the helpers `toU64`, `toU32`,
  `toU16`, `toI32`.  Signed `int` arithmetic (`file_size - cur_pos`, `cur_block++`) is exact:
  signed overflow is undefined in C and is excluded by range hypotheses where it matters.
* Global variables become fields of explicit state records.
* Loops become structurally recursive functions on a fuel argument that bounds the number of
  passes; running out of fuel is the result `none`.
* Everything outside the two files (the bus request of `lcloud_client.c`, header constants,
  indeterminate memory) is collected in the record `Env`.
-/

set_option linter.dupNamespace false
set_option linter.unusedVariables false

namespace LCloud

/-! ## Machine integer conversions -/

/-- Conversion of a C `int` to a 64-bit unsigned value (`uint64_t`, `size_t`). -/
def toU64 (x : Int) : Nat := (x % 2 ^ 64).toNat

/-- Conversion of a C `int` to `unsigned int`. -/
def toU32 (x : Int) : Nat := (x % 2 ^ 32).toNat

/-- Conversion of a C `int` to `uint16_t`. -/
def toU16 (x : Int) : Nat := (x % 2 ^ 16).toNat

/-- Conversion of an unsigned value to a C `int` (two's complement wrap). -/
def toI32 (n : Nat) : Int :=
  if n % 2 ^ 32 < 2 ^ 31 then ((n % 2 ^ 32 : Nat) : Int) else ((n % 2 ^ 32 : Nat) : Int) - 2 ^ 32

/-! ## Register codec (`lcloud_filesys.c`, lines 81-137) -/

/-- The seven register fields written by `extract_lcloud_registers`. -/
structure Registers where
  b0 : Int
  b1 : Int
  c0 : Int
  c1 : Int
  c2 : Int
  d0 : Int
  d1 : Int
  deriving DecidableEq, Repr

/-- Embedding of `create_lcloud_registers`: every argument is cast to the 64-bit frame type,
shifted (in 64 bits) to its position and OR-ed into the frame. -/
def create_lcloud_registers (b0 b1 c0 c1 c2 d0 d1 : Int) : Nat :=
  let lcloud_reg := 0
  let lcloud_reg := lcloud_reg ||| (toU64 b0 <<< 60) % 2 ^ 64
  let lcloud_reg := lcloud_reg ||| (toU64 b1 <<< 56) % 2 ^ 64
  let lcloud_reg := lcloud_reg ||| (toU64 c0 <<< 48) % 2 ^ 64
  let lcloud_reg := lcloud_reg ||| (toU64 c1 <<< 40) % 2 ^ 64
  let lcloud_reg := lcloud_reg ||| (toU64 c2 <<< 32) % 2 ^ 64
  let lcloud_reg := lcloud_reg ||| (toU64 d0 <<< 16) % 2 ^ 64
  let lcloud_reg := lcloud_reg ||| toU64 d1
  lcloud_reg

/-- Embedding of `extract_lcloud_registers` with every output pointer non-null. -/
def extract_lcloud_registers (lcloud_reg : Nat) : Registers :=
  { b0 := (((lcloud_reg >>> 60) &&& 0xf : Nat) : Int)
    b1 := (((lcloud_reg >>> 56) &&& 0xf : Nat) : Int)
    c0 := (((lcloud_reg >>> 48) &&& 0xff : Nat) : Int)
    c1 := (((lcloud_reg >>> 40) &&& 0xff : Nat) : Int)
    c2 := (((lcloud_reg >>> 32) &&& 0xff : Nat) : Int)
    d0 := (((lcloud_reg >>> 16) &&& 0xffff : Nat) : Int)
    d1 := ((lcloud_reg &&& 0xffff : Nat) : Int) }

/-- Embedding of `lcloud_io_succeed`: `b0 == 1 && b1 == 1`. -/
def lcloud_io_succeed (lcloud_reg : Nat) : Bool :=
  let r := extract_lcloud_registers lcloud_reg
  decide (r.b0 = 1) && decide (r.b1 = 1)

/-- Embedding of `lcloud_io_device`: the `d0` field of the frame. -/
def lcloud_io_device (lcloud_reg : Nat) : Int :=
  (extract_lcloud_registers lcloud_reg).d0

/-! ## Block cache (`lcloud_cache.c`) -/

/-- Modelled from the spec: the macro `LC_DEVICE_BLOCK_SIZE` of the absent header
`lcloud_controller.h`, the block payload size, which the spec fixes at 256 bytes. -/
def LC_DEVICE_BLOCK_SIZE : Nat := 256

/-- Modelled from the spec: `LcDeviceId`, whose typedef is in the absent header
`lcloud_controller.h`.  The cache marks an unused slot by an out-of-range device id, the value
`-1` that `memset(cache, -1, ...)` leaves behind and that `lcloud_putcache` tests with
`cache[i].did == -1`; device ids are therefore integers in which `-1` is representable. -/
abbrev LcDeviceId := Int

/-- One cache line (`storage`).  Bytes of `data` are only copied, never computed with. -/
structure storage where
  did : LcDeviceId
  sec : Nat
  blk : Nat
  lru : Nat
  data : List Nat
  deriving DecidableEq, Repr

/-- The globals of `lcloud_cache.c`.  `cache = none` is the `NULL` pointer; an allocated cache
is the list of its `max_blocks` lines, so `max_blocks` is the length of that list. -/
structure CacheState where
  cache : Option (List storage)
  lru : Nat
  hit_count : Int
  miss_count : Int
  deriving DecidableEq, Repr

/-- The cache globals at program start: `cache = NULL`, counters zero. -/
def CacheState.start : CacheState :=
  { cache := none, lru := 0, hit_count := 0, miss_count := 0 }

/-- A cache line after `memset(cache, -1, ...)`: every byte is `0xff`. -/
def storage.unused : storage :=
  { did := -1, sec := 0xffff, blk := 0xffff, lru := 0xffff,
    data := List.replicate LC_DEVICE_BLOCK_SIZE 0xff }

/-- The search loop of `lcloud_getcache` over the lines from index `i` on: the first index whose
line carries the key. -/
def getcache_scan (did : LcDeviceId) (sec blk : Nat) : List storage → Nat → Option Nat
  | [], _ => none
  | e :: rest, i =>
    if e.did = did ∧ e.sec = sec ∧ e.blk = blk then some i
    else getcache_scan did sec blk rest (i + 1)

/-- Embedding of `lcloud_getcache`.  The returned pointer `cache[i].data` is represented by the
line index `i`; `none` is `NULL`. -/
def lcloud_getcache (s : CacheState) (did : LcDeviceId) (sec blk : Nat) :
    CacheState × Option Nat :=
  match s.cache with
  | none => (s, none)
  | some cache =>
    match getcache_scan did sec blk cache 0 with
    | some i =>
      ({ s with
          cache := some (cache.set i { cache.getD i storage.unused with lru := s.lru })
          lru := (s.lru + 1) % 2 ^ 16
          hit_count := s.hit_count + 1 }, some i)
    | none => ({ s with miss_count := s.miss_count + 1 }, none)

/-- The victim selection loop of `lcloud_putcache` over the lines from index `i` on, `v` being
the candidate so far (`-1` for none).  The two `uint16_t` recency values are promoted to `int`
before the subtraction. -/
def putcache_scan (cache : List storage) (lru : Nat) : List storage → Nat → Int → Int
  | [], _, v => v
  | e :: rest, i, v =>
    if e.did = -1 then (i : Int)
    else if v = -1 then putcache_scan cache lru rest (i + 1) (i : Int)
    else if (lru : Int) - (e.lru : Int) < (lru : Int) - ((cache.getD v.toNat e).lru : Int) then
      putcache_scan cache lru rest (i + 1) (i : Int)
    else putcache_scan cache lru rest (i + 1) v

/-- Embedding of `lcloud_putcache`; the second component is the returned status.  With
`max_blocks = 0` the C code writes `cache[-1]`, which is undefined; the embedding then leaves
the (empty) line list as it is. -/
def lcloud_putcache (s : CacheState) (did : LcDeviceId) (sec blk : Nat) (block : List Nat) :
    CacheState × Int :=
  match s.cache with
  | none => (s, -1)
  | some cache =>
    let v := putcache_scan cache s.lru cache 0 (-1)
    ({ s with
        cache := some (cache.set v.toNat
          { did := did, sec := sec, blk := blk, lru := s.lru,
            data := block.take LC_DEVICE_BLOCK_SIZE })
        lru := (s.lru + 1) % 2 ^ 16 }, 0)

/-- Embedding of `lcloud_initcache`. -/
def lcloud_initcache (maxblocks : Nat) : CacheState :=
  { cache := some (List.replicate maxblocks storage.unused)
    lru := 0, hit_count := 0, miss_count := 0 }

/-- The payload a pointer returned by `lcloud_getcache` points to. -/
def CacheState.data (s : CacheState) (i : Nat) : List Nat :=
  match s.cache with
  | none => []
  | some cache => (cache.getD i storage.unused).data

/-- Overwrite the payload a pointer returned by `lcloud_getcache` points to. -/
def CacheState.setData (s : CacheState) (i : Nat) (data : List Nat) : CacheState :=
  match s.cache with
  | none => s
  | some cache =>
    { s with cache := some (cache.set i { cache.getD i storage.unused with data := data }) }

/-- The lines of the cache (none when the cache is not allocated). -/
def CacheState.lines (s : CacheState) : List storage :=
  s.cache.getD []

/-- Two lines carry the same key, the first of them being occupied (device id other than the
empty mark `-1`). -/
def storage.clash (a b : storage) : Prop :=
  a.did ≠ -1 ∧ a.did = b.did ∧ a.sec = b.sec ∧ a.blk = b.blk

instance (a b : storage) : Decidable (storage.clash a b) := by
  unfold storage.clash; infer_instance

/-- A key is resident when some line carries it, that is when the search loop of
`lcloud_getcache` finds it. -/
def CacheState.resident (s : CacheState) (did : LcDeviceId) (sec blk : Nat) : Prop :=
  ∃ e ∈ s.lines, e.did = did ∧ e.sec = sec ∧ e.blk = blk

instance (s : CacheState) (did : LcDeviceId) (sec blk : Nat) :
    Decidable (s.resident did sec blk) := by
  unfold CacheState.resident; infer_instance

/-- No two occupied lines hold the same (device, sector, block) tuple. -/
def CacheState.uniqueKeys (s : CacheState) : Prop :=
  s.lines.Pairwise fun a b => ¬ storage.clash a b

instance (s : CacheState) : Decidable s.uniqueKeys := by
  unfold CacheState.uniqueKeys; infer_instance

/-- A call of the cache interface. -/
inductive CacheOp where
  | get (did : LcDeviceId) (sec blk : Nat)
  | put (did : LcDeviceId) (sec blk : Nat) (block : List Nat)
  deriving DecidableEq, Repr

/-- The cache state after one call. -/
def CacheOp.run (s : CacheState) : CacheOp → CacheState
  | .get did sec blk => (lcloud_getcache s did sec blk).1
  | .put did sec blk block => (lcloud_putcache s did sec blk block).1

/-- The cache state after a sequence of calls. -/
def runCacheOps (s : CacheState) (ops : List CacheOp) : CacheState :=
  ops.foldl CacheOp.run s

/-- Every `lcloud_putcache` of the sequence is called with a key that is not resident at that
moment, which is how `lcread` and `lcwrite` call it (only after `lcloud_getcache` found
nothing). -/
def putsOnMiss : CacheState → List CacheOp → Bool
  | _, [] => true
  | s, .get did sec blk :: ops => putsOnMiss (CacheOp.run s (.get did sec blk)) ops
  | s, .put did sec blk block :: ops =>
    decide (¬ s.resident did sec blk) && putsOnMiss (CacheOp.run s (.put did sec blk block)) ops

/-- A 256-byte payload of the given byte. -/
def payloadOf (b : Nat) : List Nat := List.replicate LC_DEVICE_BLOCK_SIZE b

/-! ## Filesystem layer (`lcloud_filesys.c`) -/

/-- A block locator (`struct block`). -/
structure block where
  sector : Int
  block : Int
  device_id : Int
  deriving DecidableEq, Repr

/-- A file record (`struct file`).  `blocks_count` is the length of `blocks`: the C code grows
the array by `realloc` to exactly `blocks_count` entries. -/
structure file where
  is_open : Bool
  file_name : String
  file_size : Int
  cur_pos : Int
  blocks : List block
  deriving DecidableEq, Repr

/-- A device record (`struct device`). -/
structure device where
  lcloud : Int
  cur_sector : Int
  cur_block : Int
  sectors_count : Int
  blocks_count : Int
  deriving DecidableEq, Repr

/-- A zeroed device record. -/
def device.zero : device :=
  { lcloud := 0, cur_sector := 0, cur_block := 0, sectors_count := 0, blocks_count := 0 }

/-- The globals of `lcloud_filesys.c` and `lcloud_cache.c`, together with the state `ctl` of
everything behind `client_lcloud_bus_request` (socket and controller).  `files_count` is the
length of `files`. -/
structure FsState (σ : Type) where
  lcloud : Int
  devices : List device
  cur_device : Int
  files : List file
  cache : CacheState
  ctl : σ

/-- The state at program start: zero-initialised globals. -/
def FsState.start {σ : Type} (ctl : σ) : FsState σ :=
  { lcloud := 0, devices := List.replicate 16 device.zero, cur_device := 0, files := [],
    cache := CacheState.start, ctl := ctl }

/-- What the filesystem code takes from outside `lcloud_filesys.c` and `lcloud_cache.c`.

* `request` stands for `client_lcloud_bus_request(reg, buf)`: from the state behind the bus, the
  request frame and the buffer passed in, it gives the new state, the response frame and the
  contents of the buffer afterwards (`[]` is passed for a `NULL` buffer).
* `LC_POWER_ON` ... `LC_CACHE_MAXBLOCKS` are the constants of the absent header
  `lcloud_controller.h` and `lcloud_cache.h`.
* `tmp` is the indeterminate initial content of the scratch array `char tmp[256]` of `lcread`
  and `lcwrite`; `junk` is the indeterminate content of a block locator that `realloc` has just
  added or that lies outside the array. -/
structure Env (σ : Type) where
  request : σ → Nat → List Nat → σ × Nat × List Nat
  LC_POWER_ON : Int
  LC_POWER_OFF : Int
  LC_DEVPROBE : Int
  LC_DEVINIT : Int
  LC_BLOCK_XFER : Int
  LC_XFER_READ : Int
  LC_XFER_WRITE : Int
  LC_CACHE_MAXBLOCKS : Nat
  tmp : List Nat
  junk : block

/-- The C call `memcpy(dst + off, src + soff, n)` on byte lists. -/
def memcpy (dst : List Nat) (off : Nat) (src : List Nat) (soff n : Nat) : List Nat :=
  dst.take off ++ (src.drop soff).take n ++ dst.drop (off + n)

/-- Embedding of `lcloud_io_power_on`. -/
def lcloud_io_power_on {σ : Type} (env : Env σ) (s : FsState σ) : FsState σ × Bool :=
  let lcloud_reg := create_lcloud_registers 0 0 env.LC_POWER_ON 0 0 0 0
  let r := env.request s.ctl lcloud_reg []
  ({ s with ctl := r.1 }, lcloud_io_succeed r.2.1)

/-- Embedding of `lcloud_io_power_off`. -/
def lcloud_io_power_off {σ : Type} (env : Env σ) (s : FsState σ) : FsState σ × Bool :=
  let lcloud_reg := create_lcloud_registers 0 0 env.LC_POWER_OFF 0 0 0 0
  let r := env.request s.ctl lcloud_reg []
  ({ s with ctl := r.1 }, lcloud_io_succeed r.2.1)

/-- Embedding of `lcloud_io_devices_probe`: `some device_ids` when it returns 1, `none` when it
returns 0. -/
def lcloud_io_devices_probe {σ : Type} (env : Env σ) (s : FsState σ) :
    FsState σ × Option Int :=
  let lcloud_reg := create_lcloud_registers 0 0 env.LC_DEVPROBE 0 0 0 0
  let r := env.request s.ctl lcloud_reg []
  let lcloud_reg := r.2.1
  if lcloud_io_succeed lcloud_reg then ({ s with ctl := r.1 }, some (lcloud_io_device lcloud_reg))
  else ({ s with ctl := r.1 }, none)

/-- Embedding of `lcloud_io_read`: the status and the contents of `buf` afterwards. -/
def lcloud_io_read {σ : Type} (env : Env σ) (s : FsState σ) (device sector block : Int)
    (buf : List Nat) : FsState σ × Bool × List Nat :=
  let lcloud_reg :=
    create_lcloud_registers 0 0 env.LC_BLOCK_XFER device env.LC_XFER_READ sector block
  let r := env.request s.ctl lcloud_reg buf
  ({ s with ctl := r.1 }, lcloud_io_succeed r.2.1, r.2.2)

/-- Embedding of `lcloud_io_write`. -/
def lcloud_io_write {σ : Type} (env : Env σ) (s : FsState σ) (device sector block : Int)
    (buf : List Nat) : FsState σ × Bool :=
  let lcloud_reg :=
    create_lcloud_registers 0 0 env.LC_BLOCK_XFER device env.LC_XFER_WRITE sector block
  let r := env.request s.ctl lcloud_reg buf
  ({ s with ctl := r.1 }, lcloud_io_succeed r.2.1)

/-- Embedding of `lcloud_io_device_init`. -/
def lcloud_io_device_init {σ : Type} (env : Env σ) (s : FsState σ) (device_id : Int) :
    FsState σ × Bool :=
  let lcloud_reg := create_lcloud_registers 0 0 env.LC_DEVINIT device_id 0 0 0
  let r := env.request s.ctl lcloud_reg []
  let lcloud_reg := r.2.1
  if lcloud_io_succeed lcloud_reg then
    let regs := extract_lcloud_registers lcloud_reg
    ({ s with
        ctl := r.1
        devices := s.devices.set device_id.toNat
          { lcloud := 1, cur_sector := 0, cur_block := 0,
            sectors_count := regs.d0, blocks_count := regs.d1 } }, true)
  else ({ s with ctl := r.1 }, false)

/-- The loop of `lcloud_init_devices`, `fuel` bounding the number of iterations.
`none`: out of fuel. -/
def lcloud_init_devices_loop {σ : Type} (env : Env σ) :
    Nat → FsState σ → Int → Int → Option (FsState σ × Bool)
  | fuel, s, device_ids, dev =>
    if device_ids ≠ 0 then
      match fuel with
      | 0 => none
      | fuel + 1 =>
        if toU32 device_ids &&& 0x1 ≠ 0 then
          let r := lcloud_io_device_init env s dev
          if !r.2 then some (r.1, false)
          else lcloud_init_devices_loop env fuel r.1 (device_ids / 2) (dev + 1)
        else lcloud_init_devices_loop env fuel s (device_ids / 2) (dev + 1)
    else some (s, true)

/-- Embedding of `lcloud_init_devices`. -/
def lcloud_init_devices {σ : Type} (env : Env σ) (fuel : Nat) (s : FsState σ)
    (device_ids : Int) : Option (FsState σ × Bool) :=
  lcloud_init_devices_loop env fuel s device_ids 0

/-- Embedding of `lcloud_initialization`. -/
def lcloud_initialization {σ : Type} (env : Env σ) (fuel : Nat) (s : FsState σ) :
    Option (FsState σ × Bool) :=
  let r := lcloud_io_power_on env s
  if !r.2 then some (r.1, false)
  else
    let s := { r.1 with
      cache := lcloud_initcache env.LC_CACHE_MAXBLOCKS
      devices := List.replicate 16 device.zero
      cur_device := 0 }
    let p := lcloud_io_devices_probe env s
    match p.2 with
    | none => some (p.1, false)
    | some device_ids =>
      match lcloud_init_devices env fuel p.1 device_ids with
      | none => none
      | some d =>
        if !d.2 then some (d.1, false)
        else some ({ d.1 with lcloud := 1 }, true)

/-- The loop of `lcloud_get_free_block`; `some (device_id, sector, block)` when it returns 1,
`none` in the result when it returns 0.  The outer `none` is out of fuel. -/
def lcloud_get_free_block_loop {σ : Type} :
    Nat → FsState σ → Option (FsState σ × Option (Int × Int × Int))
  | fuel, s =>
    if s.cur_device < 16 then
      match fuel with
      | 0 => none
      | fuel + 1 =>
        let d := s.devices.getD s.cur_device.toNat device.zero
        if d.cur_sector < d.sectors_count then
          let device_id := s.cur_device
          let sector := d.cur_sector
          let block := d.cur_block
          let d := { d with cur_block := d.cur_block + 1 }
          let d := if d.cur_block = d.blocks_count then
              { d with cur_sector := d.cur_sector + 1, cur_block := 0 }
            else d
          some ({ s with devices := s.devices.set s.cur_device.toNat d },
            some (device_id, sector, block))
        else lcloud_get_free_block_loop fuel { s with cur_device := s.cur_device + 1 }
    else some (s, none)

/-- Embedding of `lcloud_get_free_block`. -/
def lcloud_get_free_block {σ : Type} (fuel : Nat) (s : FsState σ) :
    Option (FsState σ × Option (Int × Int × Int)) :=
  lcloud_get_free_block_loop fuel s

/-- The search loop of `lcopen` over the records from index `i` on: the first index whose name
equals `path`. -/
def lcopen_scan (path : String) : List file → Nat → Option Nat
  | [], _ => none
  | f :: rest, i => if path = f.file_name then some i else lcopen_scan path rest (i + 1)

/-- The record `files[i]`; `i` is in range wherever the C code reads it. -/
def FsState.fileAt {σ : Type} (s : FsState σ) (i : Nat) : file :=
  s.files.getD i
    { is_open := false, file_name := "", file_size := 0, cur_pos := 0, blocks := [] }

/-- Replace the record `files[i]`. -/
def FsState.setFile {σ : Type} (s : FsState σ) (i : Nat) (f : file) : FsState σ :=
  { s with files := s.files.set i f }

/-- Embedding of `lcopen`; the second component is the returned handle or `-1`.  The value
returned by `lcloud_initialization` is not looked at. -/
def lcopen {σ : Type} (env : Env σ) (fuel : Nat) (s : FsState σ) (path : String) :
    Option (FsState σ × Int) :=
  let init := if s.lcloud = 0 then (lcloud_initialization env fuel s).map Prod.fst else some s
  match init with
  | none => none
  | some s =>
    match lcopen_scan path s.files 0 with
    | some i =>
      if (s.fileAt i).is_open then some (s, -1)
      else some (s.setFile i { s.fileAt i with cur_pos := 0 }, (i : Int))
    | none =>
      some ({ s with files := s.files ++
          [{ file_name := path, is_open := true, file_size := 0, cur_pos := 0, blocks := [] }] },
        (s.files.length : Int))

/-- The block locator `blocks[i]` of a file; outside the array the content is indeterminate. -/
def file.blockAt {σ : Type} (env : Env σ) (f : file) (i : Int) : block :=
  if 0 ≤ i then f.blocks.getD i.toNat env.junk else env.junk

/-- The number of bytes `n` of one chunk of `lcread` and `lcwrite`, from the offset `begin` in
the block and the bytes `rest = len - n_read` still to go; all arithmetic is unsigned. -/
def chunk_len (begin rest : Nat) : Nat :=
  let n := toU32 ((LC_DEVICE_BLOCK_SIZE : Int) - (begin : Int))
  if n > rest then rest % 2 ^ 32 else n

/-- The local variables of the loops of `lcread` and `lcwrite` next to the global state: the
byte count `n` so far (`n_read`, `n_write`), the scratch array `tmp` and, for `lcread`, the
caller's `buf`. -/
structure Locals where
  n : Nat
  tmp : List Nat
  buf : List Nat
  deriving DecidableEq, Repr

/-- One pass through the body of the `while` loop of `lcread`. -/
def lcread_body {σ : Type} (env : Env σ) (fh : Nat) (len : Nat) (s : FsState σ) (l : Locals) :
    FsState σ × Locals :=
  let f := s.fileAt fh
  let begin := toU32 (f.cur_pos.tmod (LC_DEVICE_BLOCK_SIZE : Int))
  let n := chunk_len begin (len - l.n)
  let i := f.cur_pos.tdiv (LC_DEVICE_BLOCK_SIZE : Int)
  let dev := (f.blockAt env i).device_id
  let sec := (f.blockAt env i).sector
  let blk := (f.blockAt env i).block
  let g := lcloud_getcache s.cache dev (toU16 sec) (toU16 blk)
  let s := { s with cache := g.1 }
  let r : FsState σ × List Nat × List Nat :=
    match g.2 with
    | some j => (s, s.cache.data j, l.tmp)
    | none =>
      let rd := lcloud_io_read env s dev sec blk l.tmp
      let tmp := rd.2.2
      let s := rd.1
      let s := { s with cache := (lcloud_putcache s.cache dev (toU16 sec) (toU16 blk) tmp).1 }
      (s, tmp, tmp)
  let s := r.1
  let cache := r.2.1
  let tmp := r.2.2
  let buf := memcpy l.buf l.n cache begin n
  let f := s.fileAt fh
  let s := s.setFile fh { f with cur_pos := toI32 (toU32 f.cur_pos + n) }
  (s, { n := (l.n + n) % 2 ^ 32, tmp := tmp, buf := buf })

/-- The `while (n_read < len)` loop of `lcread`, `fuel` bounding the number of passes.
`none`: out of fuel. -/
def lcread_loop {σ : Type} (env : Env σ) (fh : Nat) (len : Nat) :
    Nat → FsState σ → Locals → Option (FsState σ × Locals)
  | fuel, s, l =>
    if l.n < len then
      match fuel with
      | 0 => none
      | fuel + 1 =>
        let r := lcread_body env fh len s l
        lcread_loop env fh len fuel r.1 r.2
    else some (s, l)

/-- Embedding of `lcread`: the returned value and the contents of `buf` afterwards. -/
def lcread {σ : Type} (env : Env σ) (fuel : Nat) (s : FsState σ) (fh : Int) (buf : List Nat)
    (len : Nat) : Option (FsState σ × Int × List Nat) :=
  if fh < 0 ∨ fh ≥ (s.files.length : Int) then some (s, -1, buf)
  else if !(s.fileAt fh.toNat).is_open then some (s, -1, buf)
  else
    let left := toU64 ((s.fileAt fh.toNat).file_size - (s.fileAt fh.toNat).cur_pos)
    let len := if len > left then left else len
    match lcread_loop env fh.toNat len fuel s { n := 0, tmp := env.tmp, buf := buf } with
    | none => none
    | some r => some (r.1, toI32 r.2.n, r.2.buf)

/-- The allocation step of `lcwrite` for block index `i`: when `i` equals `blocks_count` the
block array grows by one entry and `lcloud_get_free_block` fills it.  The flag is `false` when
no free block was found (the loop then breaks).  `none`: out of fuel. -/
def lcwrite_alloc {σ : Type} (env : Env σ) (fuel : Nat) (fh : Nat) (s : FsState σ) (i : Int) :
    Option (FsState σ × Bool) :=
  let f := s.fileAt fh
  if i = (f.blocks.length : Int) then
    let s := s.setFile fh { f with blocks := f.blocks ++ [env.junk] }
    match lcloud_get_free_block fuel s with
    | none => none
    | some (s, none) => some (s, false)
    | some (s, some (device_id, sector, blk)) =>
      let f := s.fileAt fh
      let b : block := { sector := sector, block := blk, device_id := device_id }
      some (s.setFile fh { f with blocks := f.blocks.set i.toNat b }, true)
  else some (s, true)

/-- The transfer part of the body of the loop of `lcwrite`, after the allocation step. -/
def lcwrite_xfer {σ : Type} (env : Env σ) (fh : Nat) (begin n : Nat) (i : Int)
    (s : FsState σ) (l : Locals) : FsState σ × Locals :=
  let f := s.fileAt fh
  let dev := (f.blockAt env i).device_id
  let sec := (f.blockAt env i).sector
  let blk := (f.blockAt env i).block
  let g := lcloud_getcache s.cache dev (toU16 sec) (toU16 blk)
  let s := { s with cache := g.1 }
  let r : FsState σ × List Nat :=
    match g.2 with
    | some j =>
      let data := memcpy (s.cache.data j) begin l.buf l.n n
      let s := { s with cache := s.cache.setData j data }
      ((lcloud_io_write env s dev sec blk data).1, l.tmp)
    | none =>
      let rd := lcloud_io_read env s dev sec blk l.tmp
      let tmp := memcpy rd.2.2 begin l.buf l.n n
      let s := rd.1
      let s := { s with cache := (lcloud_putcache s.cache dev (toU16 sec) (toU16 blk) tmp).1 }
      ((lcloud_io_write env s dev sec blk tmp).1, tmp)
  let s := r.1
  let tmp := r.2
  let f : file := s.fileAt fh
  let f : file := { f with cur_pos := toI32 (toU32 f.cur_pos + n) }
  let f : file := if f.cur_pos > f.file_size then { f with file_size := f.cur_pos } else f
  (s.setFile fh f, { l with n := (l.n + n) % 2 ^ 32, tmp := tmp })

/-- One pass through the body of the `while` loop of `lcwrite`; the flag is `false` when the
pass left the loop by `break`.  `none`: out of fuel. -/
def lcwrite_body {σ : Type} (env : Env σ) (fuel : Nat) (fh : Nat) (len : Nat) (s : FsState σ)
    (l : Locals) : Option (FsState σ × Locals × Bool) :=
  let f := s.fileAt fh
  let begin := toU32 (f.cur_pos.tmod (LC_DEVICE_BLOCK_SIZE : Int))
  let n := chunk_len begin (len - l.n)
  let i := f.cur_pos.tdiv (LC_DEVICE_BLOCK_SIZE : Int)
  match lcwrite_alloc env fuel fh s i with
  | none => none
  | some (s, false) => some (s, l, false)
  | some (s, true) =>
    let r := lcwrite_xfer env fh begin n i s l
    some (r.1, r.2, true)

/-- The `while (n_write < len)` loop of `lcwrite`, `fuel` bounding the number of passes and the
passes of the allocator loop.  In `Locals`, `buf` is the caller's data.  `none`: out of fuel. -/
def lcwrite_loop {σ : Type} (env : Env σ) (fh : Nat) (len : Nat) :
    Nat → FsState σ → Locals → Option (FsState σ × Locals)
  | fuel, s, l =>
    if l.n < len then
      match fuel with
      | 0 => none
      | fuel + 1 =>
        match lcwrite_body env fuel fh len s l with
        | none => none
        | some (s, l, false) => some (s, l)
        | some (s, l, true) => lcwrite_loop env fh len fuel s l
    else some (s, l)

/-- Embedding of `lcwrite`; `buf` is the caller's data, `len` the requested length. -/
def lcwrite {σ : Type} (env : Env σ) (fuel : Nat) (s : FsState σ) (fh : Int) (buf : List Nat)
    (len : Nat) : Option (FsState σ × Int) :=
  if fh < 0 ∨ fh ≥ (s.files.length : Int) then some (s, -1)
  else if !(s.fileAt fh.toNat).is_open then some (s, -1)
  else
    match lcwrite_loop env fh.toNat len fuel s { n := 0, tmp := env.tmp, buf := buf } with
    | none => none
    | some r => some (r.1, toI32 r.2.n)

/-- Embedding of `lcseek`; `off` is a `size_t`. -/
def lcseek {σ : Type} (s : FsState σ) (fh : Int) (off : Nat) : FsState σ × Int :=
  if fh < 0 ∨ fh ≥ (s.files.length : Int) then (s, -1)
  else if !(s.fileAt fh.toNat).is_open then (s, -1)
  else if toU64 (s.fileAt fh.toNat).file_size < off then (s, -1)
  else (s.setFile fh.toNat { s.fileAt fh.toNat with cur_pos := toI32 off }, toI32 off)

/-- Embedding of `lcclose`. -/
def lcclose {σ : Type} (s : FsState σ) (fh : Int) : FsState σ × Int :=
  if fh < 0 ∨ fh ≥ (s.files.length : Int) then (s, -1)
  else if !(s.fileAt fh.toNat).is_open then (s, -1)
  else (s.setFile fh.toNat { s.fileAt fh.toNat with cur_pos := 0, is_open := false }, 0)

/-! ## Concrete controllers and states used to evaluate the code -/

/-- A controller that accepts every request: it answers the frame with `b0 = b1 = 1`, `d0 = 1`
and `d1 = 2` (the probe then reports device 0, and a device reports one sector of two blocks)
and leaves the buffer as it is.  The opcode values are arbitrary distinct numbers. -/
def acceptAll : Env Unit :=
  { request := fun _ _ buf => ((), create_lcloud_registers 1 1 0 0 0 1 2, buf)
    LC_POWER_ON := 0, LC_DEVPROBE := 1, LC_DEVINIT := 2, LC_BLOCK_XFER := 3, LC_POWER_OFF := 4
    LC_XFER_WRITE := 0, LC_XFER_READ := 1
    LC_CACHE_MAXBLOCKS := 2
    tmp := List.replicate LC_DEVICE_BLOCK_SIZE 0
    junk := { sector := 0, block := 0, device_id := 0 } }

/-- A controller that answers the all-zero frame (not a success) to every request whose opcode
field `c0` is `op`, and behaves like `acceptAll` otherwise. -/
def rejecting (op : Int) : Env Unit :=
  { acceptAll with
    request := fun _ reg buf =>
      if (extract_lcloud_registers reg).c0 = op then ((), 0, buf)
      else acceptAll.request () reg buf }

/-- An initialised state with an open file `a` of 300 bytes at position 10 and a closed
file `b`. -/
def demoState : FsState Unit :=
  { lcloud := 1
    devices := (List.replicate 16 device.zero).set 0
      { lcloud := 1, cur_sector := 1, cur_block := 0, sectors_count := 1, blocks_count := 2 }
    cur_device := 0
    files :=
      [{ is_open := true, file_name := "a", file_size := 300, cur_pos := 10,
          blocks := [{ sector := 0, block := 0, device_id := 0 },
            { sector := 0, block := 1, device_id := 0 }] },
        { is_open := false, file_name := "b", file_size := 0, cur_pos := 0, blocks := [] }]
    cache := lcloud_initcache 2
    ctl := () }

/-- Open a fresh name, close it, open it again, then seek, read and write on the handle: the
three handles or statuses, the open flag after the second `lcopen`, and the results of
`lcseek`, `lcread` and `lcwrite`. -/
def reopenTrace : Option (Int × Int × Int × Bool × Int × Option Int × Option Int) := do
  let o1 ← lcopen acceptAll 16 (FsState.start ()) "a"
  let c := lcclose o1.1 o1.2
  let o2 ← lcopen acceptAll 16 c.1 "a"
  let sk := lcseek o2.1 o2.2 0
  let rd := lcread acceptAll 16 o2.1 o2.2 [] 1
  let wr := lcwrite acceptAll 16 o2.1 o2.2 [7] 1
  pure (o1.2, c.2, o2.2, (o2.1.fileAt 0).is_open, sk.2, rd.map (fun r => r.2.1),
    wr.map (fun r => r.2))

/-- First `lcopen` of a program against a controller that rejects opcode `op`: the status of
`lcloud_initialization`, the value `lcopen` returns, the `lcloud` flag and the open flag of
record 0 afterwards. -/
def initFailTrace (op : Int) : Option (Bool × Int × Int × Bool) := do
  let i ← lcloud_initialization (rejecting op) 16 (FsState.start ())
  let o ← lcopen (rejecting op) 16 (FsState.start ()) "a"
  pure (i.2, o.2, o.1.lcloud, (o.1.fileAt 0).is_open)

/-- A controller that answers the device probe with a success frame whose device-id field `c1`
is 5 and whose `d0` field is 3, and behaves like `acceptAll` otherwise. -/
def probeEnv : Env Unit :=
  { acceptAll with
    request := fun _ reg buf =>
      if (extract_lcloud_registers reg).c0 = acceptAll.LC_DEVPROBE then
        ((), create_lcloud_registers 1 1 0 5 0 3 0, buf)
      else acceptAll.request () reg buf }

/-- The locators handed out by `k` calls of `lcloud_get_free_block` in a row, with the state
afterwards; `none` when one of the calls finds no free block or runs out of fuel. -/
def allocMany {σ : Type} (fuel : Nat) : Nat → FsState σ → Option (FsState σ × List block)
  | 0, s => some (s, [])
  | k + 1, s =>
    match lcloud_get_free_block fuel s with
    | some (s1, some (device_id, sector, blk)) =>
      match allocMany fuel k s1 with
      | some (s2, rest) =>
        some (s2, { sector := sector, block := blk, device_id := device_id } :: rest)
      | none => none
    | _ => none

/-- Locator `a` comes before locator `b` in allocation order: its device id is not larger, and
on the same device its (sector, block) pair is strictly smaller in sector-then-block order. -/
def allocatedBefore (a b : block) : Prop :=
  a.device_id ≤ b.device_id ∧
    (a.device_id = b.device_id →
      a.sector < b.sector ∨ (a.sector = b.sector ∧ a.block < b.block))

instance (a b : block) : Decidable (allocatedBefore a b) := by
  unfold allocatedBefore; infer_instance

/-- A state as `lcloud_initialization` leaves it when the controller reports devices 0 and 1
with two sectors of two blocks each. -/
def twoDevices : FsState Unit :=
  { lcloud := 1
    devices := ((List.replicate 16 device.zero).set 0
      { lcloud := 1, cur_sector := 0, cur_block := 0, sectors_count := 2, blocks_count := 2 }).set
        1 { lcloud := 1, cur_sector := 0, cur_block := 0, sectors_count := 2, blocks_count := 2 }
    cur_device := 0
    files := []
    cache := lcloud_initcache 2
    ctl := () }

/-- Open a fresh name against `acceptAll` (one device of two blocks), write 600 bytes, then
write 10 more: the value returned by the first `lcwrite`, then `file_size`, `cur_pos` and the
length of the block list, and the same four values for the second `lcwrite`. -/
def shortWriteTrace : Option ((Int × Int × Int × Nat) × (Int × Int × Int × Nat)) := do
  let o ← lcopen acceptAll 16 (FsState.start ()) "a"
  let w ← lcwrite acceptAll 40 o.1 o.2 (List.replicate 600 7) 600
  let v ← lcwrite acceptAll 40 w.1 o.2 (List.replicate 10 8) 10
  pure ((w.2, (w.1.fileAt 0).file_size, (w.1.fileAt 0).cur_pos, (w.1.fileAt 0).blocks.length),
    (v.2, (v.1.fileAt 0).file_size, (v.1.fileAt 0).cur_pos, (v.1.fileAt 0).blocks.length))

/-- A transport that is down: every request returns the error frame `-1` (all 64 bits set) of
`client_lcloud_bus_request` and leaves the buffer as it is. -/
def transportDown : Env Unit :=
  { acceptAll with request := fun _ _ buf => ((), 2 ^ 64 - 1, buf) }

/-- On `demoState` (nothing cached), against the controller `env`: the statuses of one
`lcloud_io_read` and one `lcloud_io_write`, then the values returned by `lcread` of 5 bytes
and by `lcwrite` of 3 bytes on handle 0. -/
def ioFailureTrace (env : Env Unit) : Option (Bool × Bool × Int × Int) := do
  let rd := lcloud_io_read env demoState 0 0 0 env.tmp
  let wr := lcloud_io_write env demoState 0 0 0 env.tmp
  let r ← lcread env 16 demoState 0 (List.replicate 5 0) 5
  let w ← lcwrite env 16 demoState 0 [1, 2, 3] 3
  pure (rd.2.1, wr.2, r.2.1, w.2)

/-! ## The controller as a faithful block store -/

/-- The state of a faithful block store: the 256 bytes held at every (device, sector, block)
address. -/
structure Store where
  data : Int → Int → Int → List Nat
  wf : ∀ d s b : Int, (data d s b).length = LC_DEVICE_BLOCK_SIZE

/-- A store in which every block is zero. -/
def Store.zero : Store :=
  { data := fun _ _ _ => List.replicate LC_DEVICE_BLOCK_SIZE 0
    wf := fun _ _ _ => List.length_replicate _ _ }

/-- The 256 bytes the store takes from a buffer sent to it (a shorter buffer is padded with
zeros). -/
def blockOf (buf : List Nat) : List Nat :=
  (buf ++ List.replicate LC_DEVICE_BLOCK_SIZE 0).take LC_DEVICE_BLOCK_SIZE

/-- The store after a block write. -/
def Store.write (st : Store) (d s b : Int) (buf : List Nat) : Store :=
  { data := fun d1 s1 b1 => if d1 = d ∧ s1 = s ∧ b1 = b then blockOf buf else st.data d1 s1 b1
    wf := by
      intro d1 s1 b1
      by_cases h : d1 = d ∧ s1 = s ∧ b1 = b
      · simp only [h, and_self, if_true, blockOf, List.length_take, List.length_append,
          List.length_replicate]
        omega
      · simp only [h, if_false]; exact st.wf d1 s1 b1 }

/-- The bus with a faithful block store behind it.  Every request is answered with a success
frame (`b0 = b1 = 1`).  The probe reports the device bitmask `mask` in `d0`; a device
initialisation reports `sectors` and `blocks` in `d0` and `d1`; a block read returns the 256
bytes stored at the address (`c1`, `d0`, `d1`) of the request frame; a block write stores the
buffer there.  The opcode values are those of `acceptAll`; the cache holds `maxblocks`
lines. -/
def blockStore (mask sectors blocks : Int) (maxblocks : Nat) : Env Store :=
  { request := fun st reg buf =>
      let r := extract_lcloud_registers reg
      if r.c0 = 3 then
        if r.c2 = 1 then
          (st, create_lcloud_registers 1 1 r.c0 r.c1 r.c2 r.d0 r.d1, st.data r.c1 r.d0 r.d1)
        else
          (st.write r.c1 r.d0 r.d1 buf, create_lcloud_registers 1 1 r.c0 r.c1 r.c2 r.d0 r.d1,
            buf)
      else if r.c0 = 1 then (st, create_lcloud_registers 1 1 r.c0 0 0 mask 0, buf)
      else if r.c0 = 2 then (st, create_lcloud_registers 1 1 r.c0 r.c1 0 sectors blocks, buf)
      else (st, create_lcloud_registers 1 1 r.c0 0 0 0 0, buf)
    LC_POWER_ON := 0, LC_DEVPROBE := 1, LC_DEVINIT := 2, LC_BLOCK_XFER := 3, LC_POWER_OFF := 4
    LC_XFER_WRITE := 0, LC_XFER_READ := 1
    LC_CACHE_MAXBLOCKS := maxblocks
    tmp := List.replicate LC_DEVICE_BLOCK_SIZE 0
    junk := { sector := 0, block := 0, device_id := 0 } }

/-- The bytes `1, 2, ..., k` (modulo 251). -/
def sampleBytes (k : Nat) : List Nat :=
  (List.range k).map fun i => (i + 1) % 251

/-- Against a faithful block store with one device of 4 x 4 blocks: open a fresh name, write
`sampleBytes k`, close, open the same name, seek to 0 and read `k` bytes into a zeroed buffer.
The values returned by `lcwrite`, `lcclose`, the second `lcopen`, `lcseek` and `lcread`, and
whether the buffer read equals the bytes written. -/
def roundTripTrace (k : Nat) : Option (Int × Int × Int × Int × Int × Bool) := do
  let env := blockStore 1 4 4 2
  let o ← lcopen env 17 (FsState.start Store.zero) "a"
  let w ← lcwrite env (k + 17) o.1 o.2 (sampleBytes k) k
  let c := lcclose w.1 o.2
  let o2 ← lcopen env 17 c.1 "a"
  let sk := lcseek o2.1 o2.2 0
  let rd ← lcread env (k + 17) sk.1 o2.2 (List.replicate k 0) k
  pure (w.2, c.2, o2.2, sk.2, rd.2.1, decide (rd.2.2 = sampleBytes k))

/-- The same without closing: open a fresh name, write `sampleBytes k`, seek to 0 and read `k`
bytes.  The values returned by `lcwrite`, `lcseek` and `lcread`, and whether the buffer read
equals the bytes written. -/
def directTrace (k : Nat) : Option (Int × Int × Int × Bool) := do
  let env := blockStore 1 4 4 2
  let o ← lcopen env 17 (FsState.start Store.zero) "a"
  let w ← lcwrite env (k + 17) o.1 o.2 (sampleBytes k) k
  let sk := lcseek w.1 o.2 0
  let rd ← lcread env (k + 17) sk.1 o.2 (List.replicate k 0) k
  pure (w.2, sk.2, rd.2.1, decide (rd.2.2 = sampleBytes k))

/-- The number of new blocks a write of `r` bytes at position `p` needs when the block list of
the file has `B` entries: the blocks up to the one holding the last byte written, less the
`B` present. -/
def blocksNeeded (p r B : Nat) : Nat :=
  (p + r + 255) / 256 - B

/-- After `m` successful allocations the allocator reports no free block. -/
def exhaustedAfter {σ : Type} (fuel m : Nat) (s : FsState σ) : Bool :=
  match allocMany fuel m s with
  | some (sA, _) =>
    match lcloud_get_free_block fuel sA with
    | some (_, none) => true
    | _ => false
  | none => false

/-- An initialised state with one device of two sectors of two blocks, of which the open file
`a` (300 bytes, position at its end) holds the first two. -/
def roomyState : FsState Unit :=
  { lcloud := 1
    devices := (List.replicate 16 device.zero).set 0
      { lcloud := 1, cur_sector := 1, cur_block := 0, sectors_count := 2, blocks_count := 2 }
    cur_device := 0
    files :=
      [{ is_open := true, file_name := "a", file_size := 300, cur_pos := 300,
          blocks := [{ sector := 0, block := 0, device_id := 0 },
            { sector := 0, block := 1, device_id := 0 }] }]
    cache := lcloud_initcache 2
    ctl := () }

/-- A block locator whose parts fit the frame fields that carry them: device id in 8 bits,
sector and block in 16 bits. -/
def locatorInRange (b : block) : Prop :=
  0 ≤ b.device_id ∧ b.device_id ≤ 255 ∧ 0 ≤ b.sector ∧ b.sector ≤ 65535 ∧
    0 ≤ b.block ∧ b.block ≤ 65535

instance (b : block) : Decidable (locatorInRange b) := by
  unfold locatorInRange; infer_instance

/-- The cache agrees with the store: every occupied line holds the bytes the store has at the
address of the line. -/
def coherent (c : CacheState) (st : Store) : Prop :=
  ∀ e ∈ c.lines, e.did ≠ -1 → e.data = st.data e.did (e.sec : Int) (e.blk : Int)

/-- The bytes of a block after `n` bytes of `buf` were written at offset `o`. -/
def patched (old : List Nat) (o : Nat) (buf : List Nat) : List Nat :=
  old.take o ++ buf ++ old.drop (o + buf.length)


instance (c : CacheState) (st : Store) : Decidable (coherent c st) := by
  unfold coherent; infer_instance

/-- A state with one open file of 300 bytes in two blocks of device 0, an empty cache of two
lines and a zeroed store. -/
def writtenState : FsState Store :=
  { lcloud := 1
    devices := (List.replicate 16 device.zero).set 0
      { lcloud := 1, cur_sector := 1, cur_block := 0, sectors_count := 2, blocks_count := 2 }
    cur_device := 0
    files :=
      [{ is_open := true, file_name := "a", file_size := 300, cur_pos := 300,
          blocks := [{ sector := 0, block := 0, device_id := 0 },
            { sector := 0, block := 1, device_id := 0 }] }]
    cache := lcloud_initcache 2
    ctl := Store.zero }

/-- The same state after block (0, 0, 0) has been put into the cache. -/
def residentState : FsState Store :=
  { writtenState with
    cache := (lcloud_putcache (lcloud_initcache 2) 0 0 0 (List.replicate 256 0)).1 }

/-- A sequence of `lcloud_getcache` calls, one per key: the cache state afterwards and the
values returned, in order. -/
def lookups (s : CacheState) : List (LcDeviceId × Nat × Nat) → CacheState × List (Option Nat)
  | [] => (s, [])
  | k :: ks =>
    let g := lcloud_getcache s k.1 k.2.1 k.2.2
    let r := lookups g.1 ks
    (r.1, g.2 :: r.2)

/-- The key that `memset(cache, -1, ...)` leaves in every line: device id `-1`, sector and block
`0xffff`. -/
def isFillKey (k : LcDeviceId × Nat × Nat) : Prop :=
  k.1 = -1 ∧ k.2.1 = 0xffff ∧ k.2.2 = 0xffff

instance (k : LcDeviceId × Nat × Nat) : Decidable (isFillKey k) := by
  unfold isFillKey; infer_instance

/-- A device record as it is before the first allocation: cursor at sector 0, block 0, a
non-negative sector count and, when it has sectors at all, at least one block per sector.  The
zeroed record of a device that was never initialised is of this kind. -/
def freshDevice (d : device) : Prop :=
  d.cur_sector = 0 ∧ d.cur_block = 0 ∧ 0 ≤ d.sectors_count ∧
    (0 < d.sectors_count → 0 < d.blocks_count)

instance (d : device) : Decidable (freshDevice d) := by
  unfold freshDevice; infer_instance

/-- The number of blocks of a device table: the sum over the devices of
`sectors_count * blocks_count`. -/
def capacity (devs : List device) : Nat :=
  (devs.map fun d => (d.sectors_count * d.blocks_count).toNat).sum

/-- The blocks of a device that lie at or after its cursor. -/
def device.remaining (d : device) : Nat :=
  ((d.sectors_count - d.cur_sector) * d.blocks_count - d.cur_block).toNat

/-- The cursor of a device is inside the device, or exactly at its end. -/
def cursorOk (d : device) : Prop :=
  0 ≤ d.cur_sector ∧ d.cur_sector ≤ d.sectors_count ∧ 0 ≤ d.cur_block ∧
    (d.cur_sector < d.sectors_count → d.cur_block < d.blocks_count) ∧
    (d.cur_sector = d.sectors_count → d.cur_block = 0)

/-- The blocks the allocator can still hand out. -/
def remainingBlocks {σ : Type} (s : FsState σ) : Nat :=
  (s.devices.map device.remaining).sum

/-- The invariant of the allocator: sixteen devices, every cursor inside its device or at its
end, and no block left on the devices before the device cursor. -/
def allocInv {σ : Type} (s : FsState σ) : Prop :=
  0 ≤ s.cur_device ∧ s.devices.length = 16 ∧ (∀ d ∈ s.devices, cursorOk d) ∧
    ∀ i : Nat, (i : Int) < s.cur_device → (s.devices.getD i device.zero).remaining = 0

/-- The locator names a block of the device table: a device below 16, a sector below the
sector count of that device and a block below its block count. -/
def inDevice (devs : List device) (b : block) : Prop :=
  0 ≤ b.device_id ∧ b.device_id < 16 ∧
    0 ≤ b.sector ∧ b.sector < (devs.getD b.device_id.toNat device.zero).sectors_count ∧
    0 ≤ b.block ∧ b.block < (devs.getD b.device_id.toNat device.zero).blocks_count

/-- Two device tables report the same sector and block counts. -/
def sameGeometry (a b : List device) : Prop :=
  ∀ i : Nat, (a.getD i device.zero).sectors_count = (b.getD i device.zero).sectors_count ∧
    (a.getD i device.zero).blocks_count = (b.getD i device.zero).blocks_count

/-- The position invariant of a file record, `0 ≤ cur_pos ≤ file_size`, together with the range
of the `int` field `file_size`. -/
def file.posOk (f : file) : Prop :=
  0 ≤ f.cur_pos ∧ f.cur_pos ≤ f.file_size ∧ f.file_size < 2 ^ 31

instance (f : file) : Decidable f.posOk := by
  unfold file.posOk; infer_instance

/-- A call of the file interface, with its arguments. -/
inductive FsCall where
  | openCall (path : String)
  | readCall (fh : Int) (buf : List Nat) (len : Nat)
  | writeCall (fh : Int) (buf : List Nat) (len : Nat)
  | seekCall (fh : Int) (off : Nat)
  | closeCall (fh : Int)

/-- The state after a call of the file interface, whatever the call returned.  `none`: out of
fuel. -/
def FsCall.run {σ : Type} (env : Env σ) (fuel : Nat) (s : FsState σ) : FsCall → Option (FsState σ)
  | .openCall path => (lcopen env fuel s path).map Prod.fst
  | .readCall fh buf len => (lcread env fuel s fh buf len).map Prod.fst
  | .writeCall fh buf len => (lcwrite env fuel s fh buf len).map Prod.fst
  | .seekCall fh off => some (lcseek s fh off).1
  | .closeCall fh => some (lcclose s fh).1

/-- A write through a valid handle of an open file does not take the position past the largest
`int`; nothing is asked of the other calls. -/
def FsCall.fits {σ : Type} (s : FsState σ) : FsCall → Prop
  | .writeCall fh _ len =>
    0 ≤ fh → fh < (s.files.length : Int) → (s.fileAt fh.toNat).is_open = true →
      (s.fileAt fh.toNat).cur_pos + (len : Int) < 2 ^ 31
  | _ => True

/-- Fuel that is enough for a call: 16 passes of the device loop for `lcopen`, one pass per
byte for `lcread` and `lcwrite`, and for `lcwrite` the passes of the allocator loop over the
devices from the device cursor on. -/
def FsCall.passes {σ : Type} (s : FsState σ) : FsCall → Nat
  | .openCall _ => 16
  | .readCall fh _ len =>
    min len (toU64 ((s.fileAt fh.toNat).file_size - (s.fileAt fh.toNat).cur_pos))
  | .writeCall _ _ len => len + ((16 - s.cur_device).toNat + 1)
  | _ => 0

/-- The device table `lcloud_initialization` builds against `blockStore mask sectors blocks`:
device `i` is initialised with the reported sector and block counts when bit `i` of the probe
mask is set, and is left zeroed otherwise. -/
def deviceTable (mask sectors blocks : Int) : List device :=
  (List.range 16).map fun i =>
    if mask.toNat / 2 ^ i % 2 = 1 then
      { lcloud := 1, cur_sector := 0, cur_block := 0, sectors_count := sectors,
        blocks_count := blocks }
    else device.zero

/-- The first `n` bytes of a file with block list `bs` are on the store and equal the first `n`
bytes of `bytes`: block `j` of the list holds bytes `256 j, 256 j + 1, ...` of `bytes`, as far
as `n` reaches. -/
def storedPrefix (st : Store) (bs : List block) (bytes : List Nat) (n : Nat) : Prop :=
  ∀ (j : Nat) (b : block), bs[j]? = some b → 256 * j < n →
    (st.data b.device_id b.sector b.block).take (min 256 (n - 256 * j)) =
      (bytes.drop (256 * j)).take (min 256 (n - 256 * j))

/-- A file of `2 ^ 31 - 1` bytes with the position at its end; its 8388608 blocks are those of
one device of 32768 sectors of 256 blocks, in allocation order. -/
def fullFile : file :=
  { is_open := true, file_name := "a", file_size := 2147483647, cur_pos := 2147483647
    blocks := (List.range 8388608).map fun i =>
      { device_id := 0, sector := ((i / 256 : Nat) : Int), block := ((i % 256 : Nat) : Int) } }

/-- An initialised state whose only file is `fullFile`; device 0 (32768 sectors of 256 blocks)
is used up. -/
def fullState : FsState Store :=
  { lcloud := 1
    devices := (List.replicate 16 device.zero).set 0
      { lcloud := 1, cur_sector := 32768, cur_block := 0, sectors_count := 32768,
        blocks_count := 256 }
    cur_device := 0
    files := [fullFile]
    cache := lcloud_initcache 2
    ctl := Store.zero }

/-! # Theorems -/

/-! ## Codec lemmas -/

theorem toU64_natCast (n : Nat) (h : n < 2 ^ 64) : toU64 (n : Int) = n := by
  unfold toU64
  have e : ((n : Int) % 2 ^ 64) = n := Int.emod_eq_of_lt (by omega) (by exact_mod_cast h)
  rw [e]; simp

/-- Bit `i` of a frame built from non-negative arguments. -/
theorem create_testBit (b0 b1 c0 c1 c2 d0 d1 : Nat)
    (h0 : b0 < 2 ^ 64) (h1 : b1 < 2 ^ 64) (h2 : c0 < 2 ^ 64) (h3 : c1 < 2 ^ 64)
    (h4 : c2 < 2 ^ 64) (h5 : d0 < 2 ^ 64) (h6 : d1 < 2 ^ 64) (i : Nat) :
    (create_lcloud_registers b0 b1 c0 c1 c2 d0 d1).testBit i =
      (decide (i < 64) && (decide (60 ≤ i) && b0.testBit (i - 60)) ||
        decide (i < 64) && (decide (56 ≤ i) && b1.testBit (i - 56)) ||
        decide (i < 64) && (decide (48 ≤ i) && c0.testBit (i - 48)) ||
        decide (i < 64) && (decide (40 ≤ i) && c1.testBit (i - 40)) ||
        decide (i < 64) && (decide (32 ≤ i) && c2.testBit (i - 32)) ||
        decide (i < 64) && (decide (16 ≤ i) && d0.testBit (i - 16)) ||
        d1.testBit i) := by
  unfold create_lcloud_registers
  simp only [toU64_natCast, h0, h1, h2, h3, h4, h5, h6]
  simp only [Nat.testBit_or, Nat.testBit_shiftLeft, Nat.testBit_mod_two_pow, Nat.zero_testBit,
    Bool.false_or, ge_iff_le]

theorem mask4 : (0xf : Nat) = 2 ^ 4 - 1 := by norm_num
theorem mask8 : (0xff : Nat) = 2 ^ 8 - 1 := by norm_num
theorem mask16 : (0xffff : Nat) = 2 ^ 16 - 1 := by norm_num

/-- Decoded `b0` of a frame built from non-negative arguments: the argument OR-ed with the
excess bits of every argument placed below it. -/
theorem field_b0 (b0 b1 c0 c1 c2 d0 d1 : Nat)
    (h0 : b0 < 2 ^ 64) (h1 : b1 < 2 ^ 64) (h2 : c0 < 2 ^ 64) (h3 : c1 < 2 ^ 64)
    (h4 : c2 < 2 ^ 64) (h5 : d0 < 2 ^ 64) (h6 : d1 < 2 ^ 64) :
    (create_lcloud_registers b0 b1 c0 c1 c2 d0 d1 >>> 60) &&& 0xf =
      (b0 ||| b1 >>> 4 ||| c0 >>> 12 ||| c1 >>> 20 ||| c2 >>> 28 ||| d0 >>> 44 ||| d1 >>> 60) % 2 ^ 4 := by
  apply Nat.eq_of_testBit_eq
  intro i
  rw [mask4]
  simp only [Nat.testBit_and, Nat.testBit_shiftRight, Nat.testBit_two_pow_sub_one,
    Nat.testBit_mod_two_pow, Nat.testBit_or, create_testBit, h0, h1, h2, h3, h4, h5, h6]
  by_cases hi : i < 4
  · interval_cases i <;> simp
  · simp [hi]

/-- Decoded `b1` of a frame built from non-negative arguments: the argument OR-ed with the
excess bits of every argument placed below it. -/
theorem field_b1 (b0 b1 c0 c1 c2 d0 d1 : Nat)
    (h0 : b0 < 2 ^ 64) (h1 : b1 < 2 ^ 64) (h2 : c0 < 2 ^ 64) (h3 : c1 < 2 ^ 64)
    (h4 : c2 < 2 ^ 64) (h5 : d0 < 2 ^ 64) (h6 : d1 < 2 ^ 64) :
    (create_lcloud_registers b0 b1 c0 c1 c2 d0 d1 >>> 56) &&& 0xf =
      (b1 ||| c0 >>> 8 ||| c1 >>> 16 ||| c2 >>> 24 ||| d0 >>> 40 ||| d1 >>> 56) % 2 ^ 4 := by
  apply Nat.eq_of_testBit_eq
  intro i
  rw [mask4]
  simp only [Nat.testBit_and, Nat.testBit_shiftRight, Nat.testBit_two_pow_sub_one,
    Nat.testBit_mod_two_pow, Nat.testBit_or, create_testBit, h0, h1, h2, h3, h4, h5, h6]
  by_cases hi : i < 4
  · interval_cases i <;> simp
  · simp [hi]

/-- Decoded `c0` of a frame built from non-negative arguments: the argument OR-ed with the
excess bits of every argument placed below it. -/
theorem field_c0 (b0 b1 c0 c1 c2 d0 d1 : Nat)
    (h0 : b0 < 2 ^ 64) (h1 : b1 < 2 ^ 64) (h2 : c0 < 2 ^ 64) (h3 : c1 < 2 ^ 64)
    (h4 : c2 < 2 ^ 64) (h5 : d0 < 2 ^ 64) (h6 : d1 < 2 ^ 64) :
    (create_lcloud_registers b0 b1 c0 c1 c2 d0 d1 >>> 48) &&& 0xff =
      (c0 ||| c1 >>> 8 ||| c2 >>> 16 ||| d0 >>> 32 ||| d1 >>> 48) % 2 ^ 8 := by
  apply Nat.eq_of_testBit_eq
  intro i
  rw [mask8]
  simp only [Nat.testBit_and, Nat.testBit_shiftRight, Nat.testBit_two_pow_sub_one,
    Nat.testBit_mod_two_pow, Nat.testBit_or, create_testBit, h0, h1, h2, h3, h4, h5, h6]
  by_cases hi : i < 8
  · interval_cases i <;> simp
  · simp [hi]

/-- Decoded `c1` of a frame built from non-negative arguments: the argument OR-ed with the
excess bits of every argument placed below it. -/
theorem field_c1 (b0 b1 c0 c1 c2 d0 d1 : Nat)
    (h0 : b0 < 2 ^ 64) (h1 : b1 < 2 ^ 64) (h2 : c0 < 2 ^ 64) (h3 : c1 < 2 ^ 64)
    (h4 : c2 < 2 ^ 64) (h5 : d0 < 2 ^ 64) (h6 : d1 < 2 ^ 64) :
    (create_lcloud_registers b0 b1 c0 c1 c2 d0 d1 >>> 40) &&& 0xff =
      (c1 ||| c2 >>> 8 ||| d0 >>> 24 ||| d1 >>> 40) % 2 ^ 8 := by
  apply Nat.eq_of_testBit_eq
  intro i
  rw [mask8]
  simp only [Nat.testBit_and, Nat.testBit_shiftRight, Nat.testBit_two_pow_sub_one,
    Nat.testBit_mod_two_pow, Nat.testBit_or, create_testBit, h0, h1, h2, h3, h4, h5, h6]
  by_cases hi : i < 8
  · interval_cases i <;> simp
  · simp [hi]

/-- Decoded `c2` of a frame built from non-negative arguments: the argument OR-ed with the
excess bits of every argument placed below it. -/
theorem field_c2 (b0 b1 c0 c1 c2 d0 d1 : Nat)
    (h0 : b0 < 2 ^ 64) (h1 : b1 < 2 ^ 64) (h2 : c0 < 2 ^ 64) (h3 : c1 < 2 ^ 64)
    (h4 : c2 < 2 ^ 64) (h5 : d0 < 2 ^ 64) (h6 : d1 < 2 ^ 64) :
    (create_lcloud_registers b0 b1 c0 c1 c2 d0 d1 >>> 32) &&& 0xff =
      (c2 ||| d0 >>> 16 ||| d1 >>> 32) % 2 ^ 8 := by
  apply Nat.eq_of_testBit_eq
  intro i
  rw [mask8]
  simp only [Nat.testBit_and, Nat.testBit_shiftRight, Nat.testBit_two_pow_sub_one,
    Nat.testBit_mod_two_pow, Nat.testBit_or, create_testBit, h0, h1, h2, h3, h4, h5, h6]
  by_cases hi : i < 8
  · interval_cases i <;> simp
  · simp [hi]

/-- Decoded `d0` of a frame built from non-negative arguments: the argument OR-ed with the
excess bits of every argument placed below it. -/
theorem field_d0 (b0 b1 c0 c1 c2 d0 d1 : Nat)
    (h0 : b0 < 2 ^ 64) (h1 : b1 < 2 ^ 64) (h2 : c0 < 2 ^ 64) (h3 : c1 < 2 ^ 64)
    (h4 : c2 < 2 ^ 64) (h5 : d0 < 2 ^ 64) (h6 : d1 < 2 ^ 64) :
    (create_lcloud_registers b0 b1 c0 c1 c2 d0 d1 >>> 16) &&& 0xffff =
      (d0 ||| d1 >>> 16) % 2 ^ 16 := by
  apply Nat.eq_of_testBit_eq
  intro i
  rw [mask16]
  simp only [Nat.testBit_and, Nat.testBit_shiftRight, Nat.testBit_two_pow_sub_one,
    Nat.testBit_mod_two_pow, Nat.testBit_or, create_testBit, h0, h1, h2, h3, h4, h5, h6]
  by_cases hi : i < 16
  · interval_cases i <;> simp
  · simp [hi]

/-- Decoded `d1` of a frame built from non-negative arguments: the argument OR-ed with the
excess bits of every argument placed below it. -/
theorem field_d1 (b0 b1 c0 c1 c2 d0 d1 : Nat)
    (h0 : b0 < 2 ^ 64) (h1 : b1 < 2 ^ 64) (h2 : c0 < 2 ^ 64) (h3 : c1 < 2 ^ 64)
    (h4 : c2 < 2 ^ 64) (h5 : d0 < 2 ^ 64) (h6 : d1 < 2 ^ 64) :
    create_lcloud_registers b0 b1 c0 c1 c2 d0 d1 &&& 0xffff =
      (d1) % 2 ^ 16 := by
  apply Nat.eq_of_testBit_eq
  intro i
  rw [mask16]
  simp only [Nat.testBit_and, Nat.testBit_shiftRight, Nat.testBit_two_pow_sub_one,
    Nat.testBit_mod_two_pow, Nat.testBit_or, create_testBit, h0, h1, h2, h3, h4, h5, h6]
  by_cases hi : i < 16
  · interval_cases i <;> simp
  · simp [hi]
/-- Decoding a frame built from non-negative arguments, field by field. -/
theorem extract_create_nat (b0 b1 c0 c1 c2 d0 d1 : Nat)
    (h0 : b0 < 2 ^ 64) (h1 : b1 < 2 ^ 64) (h2 : c0 < 2 ^ 64) (h3 : c1 < 2 ^ 64)
    (h4 : c2 < 2 ^ 64) (h5 : d0 < 2 ^ 64) (h6 : d1 < 2 ^ 64) :
    extract_lcloud_registers (create_lcloud_registers b0 b1 c0 c1 c2 d0 d1) =
      { b0 := (((b0 ||| b1 >>> 4 ||| c0 >>> 12 ||| c1 >>> 20 ||| c2 >>> 28 ||| d0 >>> 44
                ||| d1 >>> 60) % 2 ^ 4 : Nat) : Int)
        b1 := (((b1 ||| c0 >>> 8 ||| c1 >>> 16 ||| c2 >>> 24 ||| d0 >>> 40 ||| d1 >>> 56)
                % 2 ^ 4 : Nat) : Int)
        c0 := (((c0 ||| c1 >>> 8 ||| c2 >>> 16 ||| d0 >>> 32 ||| d1 >>> 48) % 2 ^ 8 : Nat) : Int)
        c1 := (((c1 ||| c2 >>> 8 ||| d0 >>> 24 ||| d1 >>> 40) % 2 ^ 8 : Nat) : Int)
        c2 := (((c2 ||| d0 >>> 16 ||| d1 >>> 32) % 2 ^ 8 : Nat) : Int)
        d0 := (((d0 ||| d1 >>> 16) % 2 ^ 16 : Nat) : Int)
        d1 := ((d1 % 2 ^ 16 : Nat) : Int) } := by
  unfold extract_lcloud_registers
  rw [field_b0 _ _ _ _ _ _ _ h0 h1 h2 h3 h4 h5 h6, field_b1 _ _ _ _ _ _ _ h0 h1 h2 h3 h4 h5 h6,
    field_c0 _ _ _ _ _ _ _ h0 h1 h2 h3 h4 h5 h6, field_c1 _ _ _ _ _ _ _ h0 h1 h2 h3 h4 h5 h6,
    field_c2 _ _ _ _ _ _ _ h0 h1 h2 h3 h4 h5 h6, field_d0 _ _ _ _ _ _ _ h0 h1 h2 h3 h4 h5 h6,
    field_d1 _ _ _ _ _ _ _ h0 h1 h2 h3 h4 h5 h6]

theorem shr_zero_of_lt (x k : Nat) (h : x < 2 ^ k) : x >>> k = 0 := by
  rw [Nat.shiftRight_eq_div_pow]; exact Nat.div_eq_of_lt h

/-- Claim C1 (codec round trip): for every field tuple with `b0`, `b1` in 0..15, `c0`, `c1`,
`c2` in 0..255 and `d0`, `d1` in 0..65535, decoding the encoded frame returns exactly the
tuple. -/
theorem codec_round_trip (b0 b1 c0 c1 c2 d0 d1 : Int)
    (hb0 : 0 ≤ b0 ∧ b0 ≤ 15) (hb1 : 0 ≤ b1 ∧ b1 ≤ 15)
    (hc0 : 0 ≤ c0 ∧ c0 ≤ 255) (hc1 : 0 ≤ c1 ∧ c1 ≤ 255) (hc2 : 0 ≤ c2 ∧ c2 ≤ 255)
    (hd0 : 0 ≤ d0 ∧ d0 ≤ 65535) (hd1 : 0 ≤ d1 ∧ d1 ≤ 65535) :
    extract_lcloud_registers (create_lcloud_registers b0 b1 c0 c1 c2 d0 d1) =
      { b0 := b0, b1 := b1, c0 := c0, c1 := c1, c2 := c2, d0 := d0, d1 := d1 } := by
  obtain ⟨n0, rfl⟩ := Int.eq_ofNat_of_zero_le hb0.1
  obtain ⟨n1, rfl⟩ := Int.eq_ofNat_of_zero_le hb1.1
  obtain ⟨n2, rfl⟩ := Int.eq_ofNat_of_zero_le hc0.1
  obtain ⟨n3, rfl⟩ := Int.eq_ofNat_of_zero_le hc1.1
  obtain ⟨n4, rfl⟩ := Int.eq_ofNat_of_zero_le hc2.1
  obtain ⟨n5, rfl⟩ := Int.eq_ofNat_of_zero_le hd0.1
  obtain ⟨n6, rfl⟩ := Int.eq_ofNat_of_zero_le hd1.1
  have k0 : n0 < 2 ^ 4 := by omega
  have k1 : n1 < 2 ^ 4 := by omega
  have k2 : n2 < 2 ^ 8 := by omega
  have k3 : n3 < 2 ^ 8 := by omega
  have k4 : n4 < 2 ^ 8 := by omega
  have k5 : n5 < 2 ^ 16 := by omega
  have k6 : n6 < 2 ^ 16 := by omega
  rw [extract_create_nat n0 n1 n2 n3 n4 n5 n6 (by omega) (by omega) (by omega) (by omega)
    (by omega) (by omega) (by omega)]
  have z : ∀ (x k j : Nat), x < 2 ^ k → k ≤ j → x >>> j = 0 := by
    intro x k j hx hkj
    exact shr_zero_of_lt x j (lt_of_lt_of_le hx (Nat.pow_le_pow_right (by norm_num) hkj))
  simp only [z n1 4 4 k1 (by norm_num), z n2 8 12 k2 (by norm_num), z n2 8 8 k2 (by norm_num),
    z n3 8 20 k3 (by norm_num), z n3 8 16 k3 (by norm_num), z n3 8 8 k3 (by norm_num),
    z n4 8 28 k4 (by norm_num), z n4 8 24 k4 (by norm_num), z n4 8 16 k4 (by norm_num),
    z n4 8 8 k4 (by norm_num),
    z n5 16 44 k5 (by norm_num), z n5 16 40 k5 (by norm_num), z n5 16 32 k5 (by norm_num),
    z n5 16 24 k5 (by norm_num), z n5 16 16 k5 (by norm_num),
    z n6 16 60 k6 (by norm_num), z n6 16 56 k6 (by norm_num), z n6 16 48 k6 (by norm_num),
    z n6 16 40 k6 (by norm_num), z n6 16 32 k6 (by norm_num), z n6 16 16 k6 (by norm_num),
    Nat.or_zero, Nat.mod_eq_of_lt k0, Nat.mod_eq_of_lt k1, Nat.mod_eq_of_lt k2,
    Nat.mod_eq_of_lt k3, Nat.mod_eq_of_lt k4, Nat.mod_eq_of_lt k5, Nat.mod_eq_of_lt k6]

theorem codec_round_trip_witness :
    extract_lcloud_registers (create_lcloud_registers 15 1 255 7 1 65535 12345) =
      { b0 := 15, b1 := 1, c0 := 255, c1 := 7, c2 := 1, d0 := 65535, d1 := 12345 } :=
  codec_round_trip 15 1 255 7 1 65535 12345 (by decide) (by decide) (by decide) (by decide)
    (by decide) (by decide) (by decide)

/-- Claim C2, as stated, fails: encoding `b1 = 16` (one bit wider than its field) with every
other argument zero does not decode to the arguments reduced modulo their widths, because the
excess bit of `b1` lands in `b0`, which decodes to 1. -/
theorem codec_truncation_counterexample :
    extract_lcloud_registers (create_lcloud_registers 0 16 0 0 0 0 0) ≠
        { b0 := 0 % 2 ^ 4, b1 := 16 % 2 ^ 4, c0 := 0 % 2 ^ 8, c1 := 0 % 2 ^ 8, c2 := 0 % 2 ^ 8,
          d0 := 0 % 2 ^ 16, d1 := 0 % 2 ^ 16 } ∧
      (extract_lcloud_registers (create_lcloud_registers 0 16 0 0 0 0 0)).b0 = 1 ∧
      (extract_lcloud_registers (create_lcloud_registers 0 0 0 0 0 0 0)).b0 = 0 := by
  decide

/-- Claim C2, amended: `create_lcloud_registers` does not mask its arguments.  For non-negative
`int` arguments each one is shifted to its position and OR-ed into the frame, only the bits
shifted beyond bit 63 being dropped; so every field decodes to its own argument OR-ed with the
excess bits of all arguments placed below it, reduced modulo `2 ^ width` (first part).  Hence
the decoded value of a field does not depend on the arguments placed above it: replacing these
by any other values leaves it unchanged (second part; `d1` always decodes to
`d1 mod 2 ^ 16`), while the excess bits of an over-wide argument are OR-ed into the fields
above it. -/
theorem codec_overflow_spills_upward (b0 b1 c0 c1 c2 d0 d1 : Nat)
    (h0 : b0 < 2 ^ 31) (h1 : b1 < 2 ^ 31) (h2 : c0 < 2 ^ 31) (h3 : c1 < 2 ^ 31)
    (h4 : c2 < 2 ^ 31) (h5 : d0 < 2 ^ 31) (h6 : d1 < 2 ^ 31) :
    extract_lcloud_registers (create_lcloud_registers b0 b1 c0 c1 c2 d0 d1) =
      { b0 := (((b0 ||| b1 >>> 4 ||| c0 >>> 12 ||| c1 >>> 20 ||| c2 >>> 28 ||| d0 >>> 44
                ||| d1 >>> 60) % 2 ^ 4 : Nat) : Int)
        b1 := (((b1 ||| c0 >>> 8 ||| c1 >>> 16 ||| c2 >>> 24 ||| d0 >>> 40 ||| d1 >>> 56)
                % 2 ^ 4 : Nat) : Int)
        c0 := (((c0 ||| c1 >>> 8 ||| c2 >>> 16 ||| d0 >>> 32 ||| d1 >>> 48) % 2 ^ 8 : Nat) : Int)
        c1 := (((c1 ||| c2 >>> 8 ||| d0 >>> 24 ||| d1 >>> 40) % 2 ^ 8 : Nat) : Int)
        c2 := (((c2 ||| d0 >>> 16 ||| d1 >>> 32) % 2 ^ 8 : Nat) : Int)
        d0 := (((d0 ||| d1 >>> 16) % 2 ^ 16 : Nat) : Int)
        d1 := ((d1 % 2 ^ 16 : Nat) : Int) } ∧
      ∀ x0 x1 x2 x3 x4 x5 : Nat, x0 < 2 ^ 31 → x1 < 2 ^ 31 → x2 < 2 ^ 31 → x3 < 2 ^ 31 →
        x4 < 2 ^ 31 → x5 < 2 ^ 31 →
        (extract_lcloud_registers (create_lcloud_registers x0 b1 c0 c1 c2 d0 d1)).b1 =
            (extract_lcloud_registers (create_lcloud_registers b0 b1 c0 c1 c2 d0 d1)).b1 ∧
          (extract_lcloud_registers (create_lcloud_registers x0 x1 c0 c1 c2 d0 d1)).c0 =
            (extract_lcloud_registers (create_lcloud_registers b0 b1 c0 c1 c2 d0 d1)).c0 ∧
          (extract_lcloud_registers (create_lcloud_registers x0 x1 x2 c1 c2 d0 d1)).c1 =
            (extract_lcloud_registers (create_lcloud_registers b0 b1 c0 c1 c2 d0 d1)).c1 ∧
          (extract_lcloud_registers (create_lcloud_registers x0 x1 x2 x3 c2 d0 d1)).c2 =
            (extract_lcloud_registers (create_lcloud_registers b0 b1 c0 c1 c2 d0 d1)).c2 ∧
          (extract_lcloud_registers (create_lcloud_registers x0 x1 x2 x3 x4 d0 d1)).d0 =
            (extract_lcloud_registers (create_lcloud_registers b0 b1 c0 c1 c2 d0 d1)).d0 ∧
          (extract_lcloud_registers (create_lcloud_registers x0 x1 x2 x3 x4 x5 d1)).d1 =
            (extract_lcloud_registers (create_lcloud_registers b0 b1 c0 c1 c2 d0 d1)).d1 := by
  have e := fun (a0 a1 a2 a3 a4 a5 a6 : Nat) (k0 : a0 < 2 ^ 31) (k1 : a1 < 2 ^ 31)
      (k2 : a2 < 2 ^ 31) (k3 : a3 < 2 ^ 31) (k4 : a4 < 2 ^ 31) (k5 : a5 < 2 ^ 31)
      (k6 : a6 < 2 ^ 31) =>
    extract_create_nat a0 a1 a2 a3 a4 a5 a6 (by omega) (by omega) (by omega) (by omega)
      (by omega) (by omega) (by omega)
  refine ⟨e _ _ _ _ _ _ _ h0 h1 h2 h3 h4 h5 h6, ?_⟩
  intro x0 x1 x2 x3 x4 x5 k0 k1 k2 k3 k4 k5
  rw [e _ _ _ _ _ _ _ h0 h1 h2 h3 h4 h5 h6, e _ _ _ _ _ _ _ k0 h1 h2 h3 h4 h5 h6,
    e _ _ _ _ _ _ _ k0 k1 h2 h3 h4 h5 h6, e _ _ _ _ _ _ _ k0 k1 k2 h3 h4 h5 h6,
    e _ _ _ _ _ _ _ k0 k1 k2 k3 h4 h5 h6, e _ _ _ _ _ _ _ k0 k1 k2 k3 k4 h5 h6,
    e _ _ _ _ _ _ _ k0 k1 k2 k3 k4 k5 h6]
  exact ⟨rfl, rfl, rfl, rfl, rfl, rfl⟩

theorem codec_overflow_spills_upward_witness :
    extract_lcloud_registers (create_lcloud_registers
        ((3 : Nat) : Int) ((16 : Nat) : Int) ((256 : Nat) : Int) ((5 : Nat) : Int)
        ((1 : Nat) : Int) ((65536 : Nat) : Int) ((70000 : Nat) : Int)) =
      { b0 := (((3 ||| 16 >>> 4 ||| 256 >>> 12 ||| 5 >>> 20 ||| 1 >>> 28 ||| 65536 >>> 44
                ||| 70000 >>> 60) % 2 ^ 4 : Nat) : Int)
        b1 := (((16 ||| 256 >>> 8 ||| 5 >>> 16 ||| 1 >>> 24 ||| 65536 >>> 40 ||| 70000 >>> 56)
                % 2 ^ 4 : Nat) : Int)
        c0 := (((256 ||| 5 >>> 8 ||| 1 >>> 16 ||| 65536 >>> 32 ||| 70000 >>> 48) % 2 ^ 8 : Nat)
                : Int)
        c1 := (((5 ||| 1 >>> 8 ||| 65536 >>> 24 ||| 70000 >>> 40) % 2 ^ 8 : Nat) : Int)
        c2 := (((1 ||| 65536 >>> 16 ||| 70000 >>> 32) % 2 ^ 8 : Nat) : Int)
        d0 := (((65536 ||| 70000 >>> 16) % 2 ^ 16 : Nat) : Int)
        d1 := ((70000 % 2 ^ 16 : Nat) : Int) } :=
  (codec_overflow_spills_upward 3 16 256 5 1 65536 70000 (by decide) (by decide) (by decide)
    (by decide) (by decide) (by decide) (by decide)).1

/-- Claim C3: for every frame, `lcloud_io_succeed` is true if and only if the `b0` field
(bits 60-63) and the `b1` field (bits 56-59) both hold exactly 1. -/
theorem io_succeed_iff (frame : Nat) :
    lcloud_io_succeed frame = true ↔ frame / 2 ^ 60 % 2 ^ 4 = 1 ∧ frame / 2 ^ 56 % 2 ^ 4 = 1 := by
  unfold lcloud_io_succeed extract_lcloud_registers
  simp only [mask4, Nat.and_pow_two_sub_one_eq_mod, Nat.shiftRight_eq_div_pow, Bool.and_eq_true,
    decide_eq_true_eq]
  constructor
  · rintro ⟨h1, h2⟩; exact ⟨by exact_mod_cast h1, by exact_mod_cast h2⟩
  · rintro ⟨h1, h2⟩; exact ⟨by exact_mod_cast h1, by exact_mod_cast h2⟩

/-! ## Cache lemmas -/

theorem getcache_scan_none (did : LcDeviceId) (sec blk : Nat) :
    ∀ (l : List storage) (i : Nat),
      (∀ e ∈ l, ¬ (e.did = did ∧ e.sec = sec ∧ e.blk = blk)) →
      getcache_scan did sec blk l i = none := by
  intro l
  induction l with
  | nil => intro i _; rfl
  | cons e rest ih =>
    intro i h
    have he := h e (List.mem_cons_self _ _)
    simp only [getcache_scan, he, if_false]
    exact ih (i + 1) (fun x hx => h x (List.mem_cons_of_mem _ hx))

theorem getcache_scan_set (did : LcDeviceId) (sec blk : Nat) (n : storage)
    (hn : n.did = did ∧ n.sec = sec ∧ n.blk = blk) :
    ∀ (l : List storage) (v i : Nat), v < l.length →
      (∀ e ∈ l, ¬ (e.did = did ∧ e.sec = sec ∧ e.blk = blk)) →
      getcache_scan did sec blk (l.set v n) i = some (i + v) := by
  intro l
  induction l with
  | nil => intro v i hv; simp at hv
  | cons e rest ih =>
    intro v i hv h
    cases v with
    | zero => simp [getcache_scan, hn]
    | succ v =>
      have he := h e (List.mem_cons_self _ _)
      simp only [List.set_cons_succ, getcache_scan, he, if_false]
      rw [ih v (i + 1) (by simpa using hv) (fun x hx => h x (List.mem_cons_of_mem _ hx))]
      have e : i + 1 + v = i + (v + 1) := by omega
      rw [e]

theorem putcache_scan_range (cache : List storage) (lru : Nat) :
    ∀ (l : List storage) (i : Nat) (v : Int), 0 ≤ v → v < i →
      0 ≤ putcache_scan cache lru l i v ∧ putcache_scan cache lru l i v < i + l.length := by
  intro l
  induction l with
  | nil => intro i v h0 h1; simp [putcache_scan]; omega
  | cons e rest ih =>
    intro i v h0 h1
    simp only [putcache_scan, List.length_cons]
    have hv : v ≠ -1 := by omega
    split_ifs with a b
    · push_cast; omega
    · have := ih (i + 1) (i : Int) (by omega) (by push_cast; omega)
      push_cast at this ⊢; omega
    · have := ih (i + 1) v h0 (by push_cast; omega)
      push_cast at this ⊢; omega

/-- The victim chosen by `lcloud_putcache` in a cache of at least one line is a valid index. -/
theorem putcache_victim_lt (cache : List storage) (lru : Nat) (h : cache ≠ []) :
    0 ≤ putcache_scan cache lru cache 0 (-1) ∧
      (putcache_scan cache lru cache 0 (-1)).toNat < cache.length := by
  cases hc : cache with
  | nil => exact absurd hc h
  | cons e rest =>
    rw [← hc]
    have key : 0 ≤ putcache_scan cache lru (e :: rest) 0 (-1) ∧
        putcache_scan cache lru (e :: rest) 0 (-1) < ((e :: rest).length : Int) := by
      simp only [putcache_scan, List.length_cons]
      split_ifs with a
      · refine ⟨by simp, ?_⟩
        exact_mod_cast Nat.succ_pos _
      · have := putcache_scan_range cache lru rest (0 + 1) ((0 : Nat) : Int) (by simp) (by simp)
        push_cast at this ⊢; omega
    rw [← hc] at key
    constructor
    · exact key.1
    · omega

/-- Claim C4 (insert then lookup): in an allocated cache of at least one line, for a key that
is not resident and a 256-byte payload, `lcloud_getcache` after `lcloud_putcache` returns a
line holding the payload and raises the hit counter by exactly one (misses unchanged); and
`lcloud_getcache` of the non-resident key returns nothing and raises the miss counter by exactly
one (hits unchanged). -/
theorem cache_put_then_get (s : CacheState) (cache : List storage) (did : LcDeviceId)
    (sec blk : Nat) (payload : List Nat)
    (hinit : s.cache = some cache) (hcap : cache ≠ [])
    (hlen : payload.length = LC_DEVICE_BLOCK_SIZE)
    (hnot : ¬ s.resident did sec blk) :
    (∃ j, (lcloud_getcache (lcloud_putcache s did sec blk payload).1 did sec blk).2 = some j ∧
        (lcloud_getcache (lcloud_putcache s did sec blk payload).1 did sec blk).1.data j = payload ∧
        (lcloud_getcache (lcloud_putcache s did sec blk payload).1 did sec blk).1.hit_count =
          (lcloud_putcache s did sec blk payload).1.hit_count + 1 ∧
        (lcloud_getcache (lcloud_putcache s did sec blk payload).1 did sec blk).1.miss_count =
          (lcloud_putcache s did sec blk payload).1.miss_count) ∧
      (lcloud_getcache s did sec blk).2 = none ∧
      (lcloud_getcache s did sec blk).1.miss_count = s.miss_count + 1 ∧
      (lcloud_getcache s did sec blk).1.hit_count = s.hit_count := by
  have hno : ∀ e ∈ cache, ¬ (e.did = did ∧ e.sec = sec ∧ e.blk = blk) := by
    intro e he hk
    exact hnot ⟨e, by simpa [CacheState.lines, hinit] using he, hk⟩
  have hv := putcache_victim_lt cache s.lru hcap
  constructor
  · refine ⟨(putcache_scan cache s.lru cache 0 (-1)).toNat, ?_⟩
    have hscan := getcache_scan_set did sec blk
      { did := did, sec := sec, blk := blk, lru := s.lru,
        data := payload.take LC_DEVICE_BLOCK_SIZE } ⟨rfl, rfl, rfl⟩ cache
      (putcache_scan cache s.lru cache 0 (-1)).toNat 0 hv.2 hno
    simp only [Nat.zero_add] at hscan
    simp only [lcloud_putcache, hinit, lcloud_getcache, hscan, CacheState.data]
    refine ⟨trivial, ?_, trivial, trivial⟩
    simp [List.getD_eq_getElem?_getD, hv.2, ← hlen]
  · simp only [lcloud_getcache, hinit, getcache_scan_none did sec blk cache 0 hno]
    exact ⟨trivial, trivial, trivial⟩

theorem uniqueKeys_iff (s : CacheState) :
    s.uniqueKeys ↔ ∀ (i j : Nat) (a b : storage), s.lines[i]? = some a → s.lines[j]? = some b →
      i ≠ j → ¬ storage.clash a b := by
  unfold CacheState.uniqueKeys
  rw [List.pairwise_iff_getElem]
  constructor
  · intro h i j a b ha hb hne
    obtain ⟨hi, rfl⟩ := List.getElem?_eq_some_iff.mp ha
    obtain ⟨hj, rfl⟩ := List.getElem?_eq_some_iff.mp hb
    rcases Nat.lt_or_gt_of_ne hne with hlt | hgt
    · exact h i j hi hj hlt
    · intro hc
      apply h j i hj hi hgt
      obtain ⟨c1, c2, c3, c4⟩ := hc
      exact ⟨by rw [← c2]; exact c1, c2.symm, c3.symm, c4.symm⟩
  · intro h i j hi hj hlt
    exact h i j _ _ (List.getElem?_eq_getElem hi) (List.getElem?_eq_getElem hj) (by omega)

theorem lines_getcache (s : CacheState) (did : LcDeviceId) (sec blk : Nat) (i : Nat)
    (a : storage) (h : (lcloud_getcache s did sec blk).1.lines[i]? = some a) :
    ∃ a0, s.lines[i]? = some a0 ∧ a0.did = a.did ∧ a0.sec = a.sec ∧ a0.blk = a.blk := by
  unfold lcloud_getcache at h
  cases hc : s.cache with
  | none => simp [hc, CacheState.lines] at h
  | some cache =>
    simp only [hc] at h
    cases hs : getcache_scan did sec blk cache 0 with
    | none =>
      simp only [hs, CacheState.lines, Option.getD_some] at h
      exact ⟨a, by simpa [CacheState.lines, hc] using h, rfl, rfl, rfl⟩
    | some j =>
      simp only [hs, CacheState.lines, Option.getD_some, List.getElem?_set] at h
      simp only [CacheState.lines, hc, Option.getD_some]
      by_cases hji : j = i
      · subst hji
        by_cases hl : j < cache.length
        · simp only [if_true, hl, Option.some.injEq] at h
          refine ⟨cache[j], List.getElem?_eq_getElem hl, ?_⟩
          subst h
          simp [List.getD_eq_getElem?_getD, List.getElem?_eq_getElem hl]
        · simp [hl] at h
      · simp only [hji, if_false] at h
        exact ⟨a, h, rfl, rfl, rfl⟩

theorem uniqueKeys_getcache (s : CacheState) (did : LcDeviceId) (sec blk : Nat)
    (h : s.uniqueKeys) : (lcloud_getcache s did sec blk).1.uniqueKeys := by
  rw [uniqueKeys_iff] at h ⊢
  intro i j a b ha hb hne hc
  obtain ⟨a0, ha0, a1, a2, a3⟩ := lines_getcache s did sec blk i a ha
  obtain ⟨b0, hb0, b1, b2, b3⟩ := lines_getcache s did sec blk j b hb
  apply h i j a0 b0 ha0 hb0 hne
  obtain ⟨c1, c2, c3, c4⟩ := hc
  exact ⟨by rw [a1]; exact c1, by rw [a1, b1]; exact c2, by rw [a2, b2]; exact c3,
    by rw [a3, b3]; exact c4⟩

theorem uniqueKeys_putcache (s : CacheState) (did : LcDeviceId) (sec blk : Nat)
    (block : List Nat) (h : s.uniqueKeys) (hnot : ¬ s.resident did sec blk) :
    (lcloud_putcache s did sec blk block).1.uniqueKeys := by
  rw [uniqueKeys_iff] at h ⊢
  have hno : ∀ (k : Nat) (e : storage), s.lines[k]? = some e →
      ¬ (e.did = did ∧ e.sec = sec ∧ e.blk = blk) := by
    intro k e he hk
    exact hnot ⟨e, List.getElem?_mem he, hk⟩
  unfold lcloud_putcache
  cases hc : s.cache with
  | none => simpa [hc] using h
  | some cache =>
    simp only [hc, CacheState.lines, Option.getD_some] at h hno ⊢
    intro i j a b ha hb hne hcl
    rw [List.getElem?_set] at ha hb
    obtain ⟨c1, c2, c3, c4⟩ := hcl
    by_cases hvi : (putcache_scan cache s.lru cache 0 (-1)).toNat = i
    · have hvj : ¬ (putcache_scan cache s.lru cache 0 (-1)).toNat = j := by omega
      simp only [hvj, if_false] at hb
      simp only [hvi, if_true] at ha
      split_ifs at ha
      · simp only [Option.some.injEq] at ha
        subst ha
        exact hno j b hb ⟨c2.symm, c3.symm, c4.symm⟩
    · simp only [hvi, if_false] at ha
      by_cases hvj : (putcache_scan cache s.lru cache 0 (-1)).toNat = j
      · simp only [hvj, if_true] at hb
        split_ifs at hb
        · simp only [Option.some.injEq] at hb
          subst hb
          exact hno i a ha ⟨c2, c3, c4⟩
      · simp only [hvj, if_false] at hb
        exact h i j a b ha hb hne ⟨c1, c2, c3, c4⟩

theorem uniqueKeys_runCacheOps (ops : List CacheOp) :
    ∀ s : CacheState, s.uniqueKeys → putsOnMiss s ops = true → (runCacheOps s ops).uniqueKeys := by
  induction ops with
  | nil => intro s h _; exact h
  | cons op ops ih =>
    intro s h hp
    cases op with
    | get did sec blk =>
      simp only [putsOnMiss] at hp
      exact ih _ (uniqueKeys_getcache s did sec blk h) hp
    | put did sec blk block =>
      simp only [putsOnMiss, Bool.and_eq_true, decide_eq_true_eq] at hp
      exact ih _ (uniqueKeys_putcache s did sec blk block h hp.1) hp.2

theorem uniqueKeys_initcache (n : Nat) : (lcloud_initcache n).uniqueKeys := by
  rw [uniqueKeys_iff]
  intro i j a b ha hb _ hc
  simp only [lcloud_initcache, CacheState.lines, Option.getD_some, List.getElem?_replicate] at ha
  split_ifs at ha
  simp only [Option.some.injEq] at ha
  subst ha
  exact hc.1 rfl

/-- Claim C6, as stated, fails: in a fresh cache of two lines, two calls of `lcloud_putcache`
with the same key leave two occupied lines holding that key. -/
theorem cache_keys_unique_counterexample :
    ¬ (runCacheOps (lcloud_initcache 2)
        [.put 0 0 0 (payloadOf 1), .put 0 0 0 (payloadOf 1)]).uniqueKeys := by
  decide

/-- Claim C6, amended: starting from a freshly initialised cache, after any sequence of
`lcloud_getcache` and `lcloud_putcache` calls in which every `lcloud_putcache` is given a key
that is not resident at that moment, no two occupied lines hold the same (device, sector,
block) tuple. -/
theorem cache_keys_unique (n : Nat) (ops : List CacheOp)
    (h : putsOnMiss (lcloud_initcache n) ops = true) :
    (runCacheOps (lcloud_initcache n) ops).uniqueKeys :=
  uniqueKeys_runCacheOps ops _ (uniqueKeys_initcache n) h

theorem cache_keys_unique_witness :
    putsOnMiss (lcloud_initcache 2)
        [.put 0 0 0 (payloadOf 1), .get 0 0 0, .put 0 0 1 (payloadOf 2), .get 0 0 7,
          .put 0 0 2 (payloadOf 3)] = true ∧
      (runCacheOps (lcloud_initcache 2)
        [.put 0 0 0 (payloadOf 1), .get 0 0 0, .put 0 0 1 (payloadOf 2), .get 0 0 7,
          .put 0 0 2 (payloadOf 3)]).uniqueKeys :=
  ⟨by decide, cache_keys_unique 2 _ (by decide)⟩

/-- The scan of `lcloud_putcache` over fully occupied lines keeps, as candidate, a line whose
recency value is at least that of every line scanned so far. -/
theorem putcache_scan_largest (cache : List storage) (lru : Nat) :
    ∀ (l pre : List storage) (v : Int), cache = pre ++ l → (∀ e ∈ l, e.did ≠ -1) →
      0 ≤ v → v < (pre.length : Int) →
      (∀ e ∈ pre, e.lru ≤ (cache.getD v.toNat storage.unused).lru) →
      0 ≤ putcache_scan cache lru l pre.length v ∧
        (putcache_scan cache lru l pre.length v).toNat < cache.length ∧
        ∀ e ∈ cache, e.lru ≤
          (cache.getD (putcache_scan cache lru l pre.length v).toNat storage.unused).lru := by
  intro l
  induction l with
  | nil =>
    intro pre v hc _ h0 h1 hmax
    simp only [putcache_scan]
    have hlen : cache.length = pre.length := by rw [hc]; simp
    refine ⟨h0, by omega, ?_⟩
    intro e he
    rw [hc, List.append_nil] at he
    exact hmax e he
  | cons x rest ih =>
    intro pre v hc hfull h0 h1 hmax
    have hx : x.did ≠ -1 := hfull x (List.mem_cons_self _ _)
    have hv : v ≠ -1 := by omega
    have hc2 : cache = (pre ++ [x]) ++ rest := by rw [hc]; simp
    have hvlt : v.toNat < cache.length := by rw [hc]; simp; omega
    have hdef : (cache.getD v.toNat x).lru = (cache.getD v.toNat storage.unused).lru := by
      simp [List.getD_eq_getElem?_getD, List.getElem?_eq_getElem hvlt]
    have hat : cache.getD pre.length storage.unused = x := by
      rw [hc, List.getD_eq_getElem?_getD, List.getElem?_append_right (le_refl _)]
      simp
    simp only [putcache_scan, hx, hv, if_false, hdef]
    have hlen1 : (pre ++ [x]).length = pre.length + 1 := by simp
    by_cases hcmp : (lru : Int) - (x.lru : Int) <
        (lru : Int) - ((cache.getD v.toNat storage.unused).lru : Int)
    · simp only [hcmp, if_true]
      have := ih (pre ++ [x]) (pre.length : Int) hc2 (fun e he => hfull e (List.mem_cons_of_mem _ he))
        (by omega) (by rw [hlen1]; push_cast; omega)
        (by
          intro e he
          rw [Int.toNat_ofNat, hat]
          rcases List.mem_append.mp he with h | h
          · have := hmax e h; omega
          · simp only [List.mem_singleton] at h; rw [h])
      rw [hlen1] at this
      exact this
    · simp only [hcmp, if_false]
      have := ih (pre ++ [x]) v hc2 (fun e he => hfull e (List.mem_cons_of_mem _ he))
        h0 (by rw [hlen1]; push_cast; omega)
        (by
          intro e he
          rcases List.mem_append.mp he with h | h
          · exact hmax e h
          · simp only [List.mem_singleton] at h; rw [h]; omega)
      rw [hlen1] at this
      exact this

/-- In a cache whose lines are all occupied, the line `lcloud_putcache` overwrites carries the
largest recency value of all lines: it is the line touched last, not the one touched first. -/
theorem putcache_victim_largest (cache : List storage) (lru : Nat) (hne : cache ≠ [])
    (hfull : ∀ e ∈ cache, e.did ≠ -1) :
    (putcache_scan cache lru cache 0 (-1)).toNat < cache.length ∧
      ∀ e ∈ cache, e.lru ≤
        (cache.getD (putcache_scan cache lru cache 0 (-1)).toNat storage.unused).lru := by
  obtain ⟨x, rest, rfl⟩ := List.exists_cons_of_ne_nil hne
  have hx : x.did ≠ -1 := hfull x (List.mem_cons_self _ _)
  have hstep : putcache_scan (x :: rest) lru (x :: rest) 0 (-1) =
      putcache_scan (x :: rest) lru rest ([x] : List storage).length ((0 : Nat) : Int) := by
    simp only [putcache_scan, hx, if_false, if_true, List.length_singleton, Nat.zero_add]
  rw [hstep]
  have := putcache_scan_largest (x :: rest) lru rest [x] ((0 : Nat) : Int) rfl
    (fun e he => hfull e (List.mem_cons_of_mem _ he)) (by simp) (by simp)
    (by
      intro e he
      simp only [List.mem_singleton] at he
      rw [he]
      simp)
  exact ⟨this.2.1, this.2.2⟩

/-- Claim C5 at a failing input: in a fresh cache of two lines, inserting the keys (0,0,0),
(0,0,1), (0,0,2) in this order overwrites the line of (0,0,1), the most recently inserted key,
and keeps (0,0,0), the least recently touched one. -/
theorem cache_evicts_most_recent :
    (runCacheOps (lcloud_initcache 2)
        [.put 0 0 0 (payloadOf 1), .put 0 0 1 (payloadOf 2), .put 0 0 2 (payloadOf 3)]).lines.map
      (fun e => (e.did, e.sec, e.blk, e.lru)) = [(0, 0, 0, 0), (0, 0, 2, 2)] ∧
    (lcloud_getcache (runCacheOps (lcloud_initcache 2)
        [.put 0 0 0 (payloadOf 1), .put 0 0 1 (payloadOf 2), .put 0 0 2 (payloadOf 3)])
      0 0 1).2 = none ∧
    (lcloud_getcache (runCacheOps (lcloud_initcache 2)
        [.put 0 0 0 (payloadOf 1), .put 0 0 1 (payloadOf 2), .put 0 0 2 (payloadOf 3)])
      0 0 0).2 = some 0 := by
  decide

theorem cache_put_then_get_witness :
    (∃ j, (lcloud_getcache (lcloud_putcache (lcloud_initcache 2) 0 0 0 (payloadOf 1)).1 0 0 0).2 = some j ∧
        (lcloud_getcache (lcloud_putcache (lcloud_initcache 2) 0 0 0 (payloadOf 1)).1 0 0 0).1.data j = (payloadOf 1) ∧
        (lcloud_getcache (lcloud_putcache (lcloud_initcache 2) 0 0 0 (payloadOf 1)).1 0 0 0).1.hit_count =
          (lcloud_putcache (lcloud_initcache 2) 0 0 0 (payloadOf 1)).1.hit_count + 1 ∧
        (lcloud_getcache (lcloud_putcache (lcloud_initcache 2) 0 0 0 (payloadOf 1)).1 0 0 0).1.miss_count =
          (lcloud_putcache (lcloud_initcache 2) 0 0 0 (payloadOf 1)).1.miss_count) ∧
      (lcloud_getcache (lcloud_initcache 2) 0 0 0).2 = none ∧
      (lcloud_getcache (lcloud_initcache 2) 0 0 0).1.miss_count = (lcloud_initcache 2).miss_count + 1 ∧
      (lcloud_getcache (lcloud_initcache 2) 0 0 0).1.hit_count = (lcloud_initcache 2).hit_count :=
  cache_put_then_get (lcloud_initcache 2) _ 0 0 0 (payloadOf 1) rfl (by decide)
    (List.length_replicate _ _) (by decide)
/-! ## Filesystem lemmas -/

theorem toU32_natCast (n : Nat) (h : n < 2 ^ 32) : toU32 (n : Int) = n := by
  unfold toU32
  have e : ((n : Int) % 2 ^ 32) = n := Int.emod_eq_of_lt (by omega) (by exact_mod_cast h)
  rw [e]; simp

theorem toI32_small (n : Nat) (h : n < 2 ^ 31) : toI32 n = (n : Int) := by
  unfold toI32
  have e : n % 2 ^ 32 = n := Nat.mod_eq_of_lt (by omega)
  rw [e, if_pos h]

theorem set_getD_self {α : Type} (d : α) :
    ∀ (l : List α) (i : Nat), i < l.length → l.set i (l.getD i d) = l := by
  intro l
  induction l with
  | nil => intro i h; simp at h
  | cons a rest ih =>
    intro i h
    cases i with
    | zero => rfl
    | succ i =>
      simp only [List.set_cons_succ, List.getD_cons_succ]
      rw [ih i (by simpa using h)]

theorem fileAt_setFile {σ : Type} (s : FsState σ) (i : Nat) (f : file)
    (h : i < s.files.length) : (s.setFile i f).fileAt i = f := by
  simp [FsState.setFile, FsState.fileAt, List.getD_eq_getElem?_getD, h]

/-- One chunk is at least one byte and at most what is left, and stays inside its block. -/
theorem chunk_len_eq (p rest : Nat) (hrest : rest < 2 ^ 32) :
    chunk_len (p % 256) rest = min (256 - p % 256) rest := by
  unfold chunk_len LC_DEVICE_BLOCK_SIZE
  have hb : p % 256 < 256 := Nat.mod_lt _ (by norm_num)
  have e : ((256 : Nat) : Int) - ((p % 256 : Nat) : Int) = ((256 - p % 256 : Nat) : Int) := by
    omega
  rw [e, toU32_natCast _ (by omega)]
  dsimp only
  split_ifs with h
  · rw [Nat.mod_eq_of_lt hrest]; omega
  · omega

theorem lcread_body_files {σ : Type} (env : Env σ) (fh len : Nat) (s : FsState σ) (l : Locals)
    (p : Nat) (hp : (s.fileAt fh).cur_pos = (p : Int))
    (hn : l.n < len) (hlen : len < 2 ^ 31) (hend : p + (len - l.n) < 2 ^ 31) :
    (lcread_body env fh len s l).1.files =
        s.files.set fh { s.fileAt fh with
          cur_pos := ((p + min (256 - p % 256) (len - l.n) : Nat) : Int) } ∧
      (lcread_body env fh len s l).2.n = l.n + min (256 - p % 256) (len - l.n) := by
  have hb : p % 256 < 256 := Nat.mod_lt _ (by norm_num)
  have hbegin : toU32 ((s.fileAt fh).cur_pos.tmod (LC_DEVICE_BLOCK_SIZE : Int)) = p % 256 := by
    rw [hp]
    show toU32 (((p : Int)).tmod ((256 : Nat) : Int)) = p % 256
    rw [← Int.ofNat_tmod, toU32_natCast _ (by omega)]
  have hchunk := chunk_len_eq p (len - l.n) (by omega)
  unfold lcread_body
  simp only [hbegin, hchunk]
  cases hg : (lcloud_getcache s.cache ((s.fileAt fh).blockAt env
      ((s.fileAt fh).cur_pos.tdiv (LC_DEVICE_BLOCK_SIZE : Int))).device_id
      (toU16 ((s.fileAt fh).blockAt env
        ((s.fileAt fh).cur_pos.tdiv (LC_DEVICE_BLOCK_SIZE : Int))).sector)
      (toU16 ((s.fileAt fh).blockAt env
        ((s.fileAt fh).cur_pos.tdiv (LC_DEVICE_BLOCK_SIZE : Int))).block)).2 with
  | none =>
    simp only [FsState.setFile, FsState.fileAt, lcloud_io_read] at hp ⊢
    rw [hp, toU32_natCast _ (by omega), toI32_small _ (by omega)]
    refine ⟨rfl, ?_⟩
    exact Nat.mod_eq_of_lt (by omega)
  | some j =>
    simp only [FsState.setFile, FsState.fileAt] at hp ⊢
    rw [hp, toU32_natCast _ (by omega), toI32_small _ (by omega)]
    refine ⟨rfl, ?_⟩
    exact Nat.mod_eq_of_lt (by omega)

/-- With enough fuel the loop of `lcread` ends with `n_read = len`, and all it changes in the
file table is the position of the file read. -/
theorem lcread_loop_spec {σ : Type} (env : Env σ) (fh len : Nat) (hlen : len < 2 ^ 31) :
    ∀ (fuel : Nat) (s : FsState σ) (l : Locals) (p : Nat),
      fh < s.files.length → (s.fileAt fh).cur_pos = (p : Int) → l.n ≤ len →
      p + (len - l.n) < 2 ^ 31 → len - l.n ≤ fuel →
      ∃ s1 l1, lcread_loop env fh len fuel s l = some (s1, l1) ∧ l1.n = len ∧
        s1.files = s.files.set fh { s.fileAt fh with cur_pos := ((p + (len - l.n) : Nat) : Int) } := by
  intro fuel
  induction fuel with
  | zero =>
    intro s l p hfh hp hn _ hfuel
    have hnl : ¬ l.n < len := by omega
    refine ⟨s, l, ?_, by omega, ?_⟩
    · rw [lcread_loop, if_neg hnl]
    · have e : len - l.n = 0 := by omega
      rw [e, Nat.add_zero, ← hp]
      exact (set_getD_self _ s.files fh hfh).symm
  | succ fuel ih =>
    intro s l p hfh hp hn hend hfuel
    by_cases hnl : l.n < len
    · obtain ⟨hfiles, hcount⟩ := lcread_body_files env fh len s l p hp hnl hlen hend
      have hfh1 : fh < (lcread_body env fh len s l).1.files.length := by
        rw [hfiles, List.length_set]; exact hfh
      have hp1 : ((lcread_body env fh len s l).1.fileAt fh).cur_pos =
          ((p + min (256 - p % 256) (len - l.n) : Nat) : Int) := by
        simp only [FsState.fileAt, hfiles, List.getD_eq_getElem?_getD, List.getElem?_set,
          if_true, hfh, Option.getD_some]
      have hb : p % 256 < 256 := Nat.mod_lt _ (by norm_num)
      obtain ⟨s1, l1, hrun, hl1, hs1⟩ := ih (lcread_body env fh len s l).1
        (lcread_body env fh len s l).2 (p + min (256 - p % 256) (len - l.n)) hfh1 hp1
        (by rw [hcount]; omega) (by rw [hcount]; omega) (by rw [hcount]; omega)
      refine ⟨s1, l1, ?_, hl1, ?_⟩
      · rw [lcread_loop, if_pos hnl]
        exact hrun
      · rw [hs1, hfiles, List.set_set]
        congr 1
        simp only [FsState.fileAt, hfiles, List.getD_eq_getElem?_getD, List.getElem?_set,
          if_true, hfh, Option.getD_some, hcount]
        congr 2
        omega
    · refine ⟨s, l, ?_, by omega, ?_⟩
      · rw [lcread_loop, if_neg hnl]
      · have e : len - l.n = 0 := by omega
        rw [e, Nat.add_zero, ← hp]
        exact (set_getD_self _ s.files fh hfh).symm

theorem lcloud_io_device_range (frame : Nat) :
    0 ≤ lcloud_io_device frame ∧ lcloud_io_device frame < 2 ^ 16 := by
  unfold lcloud_io_device extract_lcloud_registers
  simp only [mask16, Nat.and_pow_two_sub_one_eq_mod]
  have h : (frame >>> 16) % 2 ^ 16 < 2 ^ 16 := Nat.mod_lt _ (by norm_num)
  constructor
  · exact Int.ofNat_nonneg _
  · have h2 : (((frame >>> 16) % 2 ^ 16 : Nat) : Int) < ((2 ^ 16 : Nat) : Int) :=
      Int.ofNat_lt.mpr h
    simpa using h2

theorem lcloud_io_device_init_files {σ : Type} (env : Env σ) (s : FsState σ) (dev : Int) :
    (lcloud_io_device_init env s dev).1.files = s.files := by
  unfold lcloud_io_device_init
  dsimp only
  split_ifs <;> rfl

/-- The loop of `lcloud_init_devices` ends within `fuel` passes when the bitmask is below
`2 ^ fuel`, and it does not touch the file table. -/
theorem lcloud_init_devices_loop_files {σ : Type} (env : Env σ) :
    ∀ (fuel : Nat) (s : FsState σ) (device_ids dev : Int), 0 ≤ device_ids →
      device_ids < 2 ^ fuel →
      ∃ r, lcloud_init_devices_loop env fuel s device_ids dev = some r ∧ r.1.files = s.files := by
  intro fuel
  induction fuel with
  | zero =>
    intro s ids dev h0 h1
    have e : ids = 0 := by
      have : ids < 1 := by simpa using h1
      omega
    subst e
    exact ⟨(s, true), by simp [lcloud_init_devices_loop], rfl⟩
  | succ fuel ih =>
    intro s ids dev h0 h1
    by_cases hz : ids = 0
    · subst hz
      exact ⟨(s, true), by simp [lcloud_init_devices_loop], rfl⟩
    · have hhalf : ids / 2 < 2 ^ fuel := by
        have : ids < 2 * 2 ^ fuel := by rw [pow_succ] at h1; omega
        omega
      have hhalf0 : 0 ≤ ids / 2 := by omega
      rw [lcloud_init_devices_loop]
      simp only [ne_eq, hz, not_false_eq_true, if_true]
      by_cases hbit : toU32 ids &&& 0x1 ≠ 0
      · simp only [hbit, ne_eq, not_false_eq_true, if_true]
        by_cases hfail : (!(lcloud_io_device_init env s dev).2) = true
        · simp only [hfail, if_true]
          exact ⟨_, rfl, lcloud_io_device_init_files env s dev⟩
        · simp only [hfail, if_false]
          obtain ⟨r, hr, hf⟩ := ih (lcloud_io_device_init env s dev).1 (ids / 2) (dev + 1)
            hhalf0 hhalf
          exact ⟨r, hr, by rw [hf, lcloud_io_device_init_files]⟩
      · simp only [hbit, if_false]
        exact ih s (ids / 2) (dev + 1) hhalf0 hhalf

/-- With fuel for sixteen passes `lcloud_initialization` returns, and it does not touch the
file table. -/
theorem lcloud_initialization_files {σ : Type} (env : Env σ) (fuel : Nat) (hfuel : 16 ≤ fuel)
    (s : FsState σ) :
    ∃ r, lcloud_initialization env fuel s = some r ∧ r.1.files = s.files := by
  unfold lcloud_initialization
  dsimp only
  split_ifs with hpow
  · exact ⟨_, rfl, rfl⟩
  · unfold lcloud_io_devices_probe
    dsimp only
    split_ifs with hprobe
    · dsimp only
      have hr := lcloud_io_device_range
        (env.request (lcloud_io_power_on env s).1.ctl
          (create_lcloud_registers 0 0 env.LC_DEVPROBE 0 0 0 0) []).2.1
      have hlt : lcloud_io_device (env.request (lcloud_io_power_on env s).1.ctl
          (create_lcloud_registers 0 0 env.LC_DEVPROBE 0 0 0 0) []).2.1 < 2 ^ fuel :=
        lt_of_lt_of_le hr.2 (pow_le_pow_right₀ (by norm_num) hfuel)
      obtain ⟨d, hd, hf⟩ := lcloud_init_devices_loop_files env fuel _ _ 0 hr.1 hlt
      unfold lcloud_init_devices
      rw [hd]
      dsimp only
      split_ifs
      · exact ⟨_, rfl, hf⟩
      · exact ⟨_, rfl, hf⟩
    · exact ⟨_, rfl, rfl⟩

theorem lcopen_scan_some (path : String) :
    ∀ (l : List file) (i : Nat) (f : file), f ∈ l → f.file_name = path →
      (l.map file.file_name).Nodup →
      ∃ k, lcopen_scan path l i = some (i + k) ∧ l[k]? = some f := by
  intro l
  induction l with
  | nil => intro i f hf; simp at hf
  | cons g rest ih =>
    intro i f hf hname hnd
    by_cases hg : path = g.file_name
    · have hfg : f = g := by
        apply List.inj_on_of_nodup_map hnd hf (List.mem_cons_self _ _)
        rw [hname, hg]
      subst hfg
      exact ⟨0, by simp [lcopen_scan, hg], by simp⟩
    · have hfr : f ∈ rest := by
        rcases List.mem_cons.mp hf with h | h
        · exact absurd (by rw [← hname, h]) hg
        · exact h
      obtain ⟨k, hk, hget⟩ := ih (i + 1) f hfr hname (List.Nodup.of_cons (by simpa using hnd))
      refine ⟨k + 1, ?_, by simpa using hget⟩
      simp only [lcopen_scan, hg, if_false, hk]
      congr 1; omega

/-! ## Filesystem claims -/

/-- Claim C8 at a failing input: open a fresh name (handle 0), close it (status 0), open the
same name again (handle 0): the record is still marked closed, and `lcseek`, `lcread` and
`lcwrite` on the handle all return -1. -/
theorem reopen_leaves_file_closed :
    reopenTrace = some (0, 0, 0, false, -1, some (-1), some (-1)) := by
  rfl

/-- Claim C9 at failing inputs: against a controller that rejects power-on, or the device
probe, or the device initialisation, `lcloud_initialization` reports failure and the `lcloud`
flag stays 0, yet `lcopen` returns handle 0 with the new record open. -/
theorem open_ignores_failed_initialization :
    initFailTrace acceptAll.LC_POWER_ON = some (false, 0, 0, true) ∧
      initFailTrace acceptAll.LC_DEVPROBE = some (false, 0, 0, true) ∧
      initFailTrace acceptAll.LC_DEVINIT = some (false, 0, 0, true) := by
  decide

/-- Claim C7 (usage errors).  First part: `lcread`, `lcwrite`, `lcseek` and `lcclose` called
with a handle that is negative, not less than the number of file records, or that names a
record that is not open return -1 and leave the whole state, so every file record, unchanged.
Second part: in a file table with distinct names, `lcopen` with the name of an open file
returns -1 (it returns as soon as the fuel covers the sixteen passes of the device loop) and
leaves every file record unchanged. -/
theorem usage_errors {σ : Type} (env : Env σ) (s : FsState σ) :
    (∀ (fh : Int) (buf : List Nat) (len off fuel : Nat),
      (fh < 0 ∨ fh ≥ (s.files.length : Int) ∨ (s.fileAt fh.toNat).is_open = false) →
        lcread env fuel s fh buf len = some (s, -1, buf) ∧
        lcwrite env fuel s fh buf len = some (s, -1) ∧
        lcseek s fh off = (s, -1) ∧
        lcclose s fh = (s, -1)) ∧
    (∀ (path : String) (fuel : Nat), 16 ≤ fuel →
      (s.files.map file.file_name).Nodup →
      (∃ f ∈ s.files, f.file_name = path ∧ f.is_open = true) →
        ∃ s1, lcopen env fuel s path = some (s1, -1) ∧ s1.files = s.files) := by
  constructor
  · intro fh buf len off fuel h
    by_cases hr : fh < 0 ∨ fh ≥ (s.files.length : Int)
    · simp only [lcread, lcwrite, lcseek, lcclose, hr, if_true, and_self]
    · have hc : (s.fileAt fh.toNat).is_open = false := by
        rcases h with h | h | h
        · exact absurd (Or.inl h) hr
        · exact absurd (Or.inr h) hr
        · exact h
      simp only [lcread, lcwrite, lcseek, lcclose, hr, if_false, hc, Bool.not_false, if_true,
        and_self]
  · intro path fuel hfuel hnd hopen
    obtain ⟨f, hf, hname, hisopen⟩ := hopen
    have key : ∀ s0 : FsState σ, s0.files = s.files →
        (match lcopen_scan path s0.files 0 with
          | some i =>
            if (s0.fileAt i).is_open then some (s0, (-1 : Int))
            else some (s0.setFile i { s0.fileAt i with cur_pos := 0 }, (i : Int))
          | none =>
            some ({ s0 with files := s0.files ++
                [{ file_name := path, is_open := true, file_size := 0, cur_pos := 0,
                    blocks := [] }] },
              (s0.files.length : Int))) = some (s0, -1) := by
      intro s0 h0
      obtain ⟨k, hk, hget⟩ := lcopen_scan_some path s.files 0 f hf hname hnd
      rw [Nat.zero_add] at hk
      have hat : s0.fileAt k = f := by
        simp only [FsState.fileAt, h0, List.getD_eq_getElem?_getD, hget, Option.getD_some]
      rw [h0, hk]
      simp only [hat, hisopen, if_true]
    unfold lcopen
    by_cases hl : s.lcloud = 0
    · obtain ⟨r, hr, hfiles⟩ := lcloud_initialization_files env fuel hfuel s
      simp only [hl, if_true, hr, Option.map_some']
      exact ⟨r.1, key r.1 hfiles, hfiles⟩
    · simp only [hl, if_false]
      exact ⟨s, key s rfl, rfl⟩

theorem usage_errors_witness :
    (lcread acceptAll 0 demoState 1 [] 5 = some (demoState, -1, []) ∧
        lcwrite acceptAll 0 demoState 1 [] 5 = some (demoState, -1) ∧
        lcseek demoState 1 0 = (demoState, -1) ∧
        lcclose demoState 1 = (demoState, -1)) ∧
      ∃ s1, lcopen acceptAll 16 demoState "a" = some (s1, -1) ∧ s1.files = demoState.files :=
  ⟨(usage_errors acceptAll demoState).1 1 [] 5 0 0 (Or.inr (Or.inr rfl)),
    (usage_errors acceptAll demoState).2 "a" 16 (by decide) (by decide)
      ⟨_, List.mem_cons_self _ _, rfl, rfl⟩⟩

/-- Claim C10 (read clamps to end of file): for an open file with
`0 ≤ cur_pos ≤ file_size` (`file_size` an `int`) and every `len`, `lcread` returns, as soon as
the fuel covers one pass per byte, `min len (file_size - cur_pos)`; the file table afterwards
is the old one with `cur_pos` of that file advanced by exactly this amount, so `file_size`,
the block list and the open flag are unchanged.  A request past end of file gives a short
count, not -1. -/
theorem lcread_clamps_to_end_of_file {σ : Type} (env : Env σ) (s : FsState σ) (fh : Int)
    (buf : List Nat) (len fuel : Nat)
    (hfh : 0 ≤ fh ∧ fh < (s.files.length : Int))
    (hopen : (s.fileAt fh.toNat).is_open = true)
    (hpos : 0 ≤ (s.fileAt fh.toNat).cur_pos ∧
      (s.fileAt fh.toNat).cur_pos ≤ (s.fileAt fh.toNat).file_size)
    (hsize : (s.fileAt fh.toNat).file_size < 2 ^ 31)
    (hfuel : min (len : Int) ((s.fileAt fh.toNat).file_size - (s.fileAt fh.toNat).cur_pos) ≤ fuel) :
    ∃ s1 buf1,
      lcread env fuel s fh buf len =
        some (s1, min (len : Int) ((s.fileAt fh.toNat).file_size - (s.fileAt fh.toNat).cur_pos),
          buf1) ∧
      s1.files = s.files.set fh.toNat { s.fileAt fh.toNat with
        cur_pos := (s.fileAt fh.toNat).cur_pos +
          min (len : Int) ((s.fileAt fh.toNat).file_size - (s.fileAt fh.toNat).cur_pos) } ∧
      (s1.fileAt fh.toNat).cur_pos = (s.fileAt fh.toNat).cur_pos +
          min (len : Int) ((s.fileAt fh.toNat).file_size - (s.fileAt fh.toNat).cur_pos) ∧
      (s1.fileAt fh.toNat).file_size = (s.fileAt fh.toNat).file_size ∧
      (s1.fileAt fh.toNat).blocks = (s.fileAt fh.toNat).blocks ∧
      (s1.fileAt fh.toNat).is_open = true := by
  obtain ⟨p, hp⟩ := Int.eq_ofNat_of_zero_le hpos.1
  obtain ⟨q, hq⟩ := Int.eq_ofNat_of_zero_le (le_trans hpos.1 hpos.2)
  have hpq : p ≤ q := by have := hpos.2; rw [hp, hq] at this; exact_mod_cast this
  have hq31 : q < 2 ^ 31 := by rw [hq] at hsize; exact_mod_cast hsize
  have hidx : fh.toNat < s.files.length := by omega
  have hguard : ¬ (fh < 0 ∨ fh ≥ (s.files.length : Int)) := by omega
  have hleft : toU64 ((s.fileAt fh.toNat).file_size - (s.fileAt fh.toNat).cur_pos) = q - p := by
    rw [hp, hq]
    have e : (q : Int) - (p : Int) = ((q - p : Nat) : Int) := by omega
    rw [e, toU64_natCast _ (by omega)]
  have hmin : min (len : Int) ((s.fileAt fh.toNat).file_size - (s.fileAt fh.toNat).cur_pos) =
      ((min len (q - p) : Nat) : Int) := by
    rw [hp, hq]; omega
  have hclamp : (if len > q - p then q - p else len) = min len (q - p) := by
    split_ifs <;> omega
  rw [hmin] at hfuel ⊢
  obtain ⟨s1, l1, hrun, hl1, hs1⟩ := lcread_loop_spec env fh.toNat (min len (q - p))
    (by omega) fuel s { n := 0, tmp := env.tmp, buf := buf } p hidx hp (Nat.zero_le _)
    (by simp only [Nat.sub_zero]; omega) (by simp only [Nat.sub_zero]; exact_mod_cast hfuel)
  simp only [Nat.sub_zero] at hs1
  have hfiles : s1.files = s.files.set fh.toNat { s.fileAt fh.toNat with
      cur_pos := (s.fileAt fh.toNat).cur_pos + ((min len (q - p) : Nat) : Int) } := by
    rw [hs1, hp]; push_cast; rfl
  have hat : s1.fileAt fh.toNat = { s.fileAt fh.toNat with
      cur_pos := (s.fileAt fh.toNat).cur_pos + ((min len (q - p) : Nat) : Int) } := by
    simp only [FsState.fileAt, hfiles, List.getD_eq_getElem?_getD, List.getElem?_set, if_true,
      hidx, Option.getD_some]
  refine ⟨s1, l1.buf, ?_, hfiles, ?_, ?_, ?_, ?_⟩
  · simp only [lcread, hguard, if_false, hopen, Bool.not_true, hleft, hclamp, hrun, hl1]
    rw [toI32_small _ (by omega)]
    rfl
  · rw [hat]
  · rw [hat]
  · rw [hat]
  · rw [hat]; exact hopen

theorem lcread_clamps_to_end_of_file_witness :
    ∃ s1 buf1,
      lcread acceptAll 290 demoState 0 [] 400 =
        some (s1, min ((400 : Nat) : Int) ((demoState.fileAt (0 : Int).toNat).file_size -
          (demoState.fileAt (0 : Int).toNat).cur_pos), buf1) ∧
      s1.files = demoState.files.set (0 : Int).toNat { demoState.fileAt (0 : Int).toNat with
        cur_pos := (demoState.fileAt (0 : Int).toNat).cur_pos +
          min ((400 : Nat) : Int) ((demoState.fileAt (0 : Int).toNat).file_size -
            (demoState.fileAt (0 : Int).toNat).cur_pos) } ∧
      (s1.fileAt (0 : Int).toNat).cur_pos = (demoState.fileAt (0 : Int).toNat).cur_pos +
          min ((400 : Nat) : Int) ((demoState.fileAt (0 : Int).toNat).file_size -
            (demoState.fileAt (0 : Int).toNat).cur_pos) ∧
      (s1.fileAt (0 : Int).toNat).file_size = (demoState.fileAt (0 : Int).toNat).file_size ∧
      (s1.fileAt (0 : Int).toNat).blocks = (demoState.fileAt (0 : Int).toNat).blocks ∧
      (s1.fileAt (0 : Int).toNat).is_open = true :=
  lcread_clamps_to_end_of_file acceptAll demoState 0 [] 400 290 (by decide) rfl (by decide)
    (by decide) (by decide)

/-! ## Seek, close and probe -/

theorem toU64_small (x : Int) (h0 : 0 ≤ x) (h1 : x < 2 ^ 31) : toU64 x = x.toNat := by
  obtain ⟨n, rfl⟩ := Int.eq_ofNat_of_zero_le h0
  rw [toU64_natCast _ (by omega)]
  simp

theorem fileAt_setFile_ne {σ : Type} (s : FsState σ) (i j : Nat) (f : file) (h : i ≠ j) :
    (s.setFile i f).fileAt j = s.fileAt j := by
  simp [FsState.setFile, FsState.fileAt, List.getD_eq_getElem?_getD, List.getElem?_set, h]

theorem length_setFile {σ : Type} (s : FsState σ) (i : Nat) (f : file) :
    (s.setFile i f).files.length = s.files.length := by
  simp [FsState.setFile]

/-- Claim C13 (seek boundary): for an open file whose `file_size` is a non-negative `int`,
`lcseek` to `off` succeeds if and only if `off ≤ file_size`; on success it returns `off` and
only sets `cur_pos` to `off`; a failed seek returns -1 and leaves the state unchanged.  Seeking
to exactly `file_size` succeeds and a following `lcread` returns 0 bytes (whatever the fuel);
seeking to `file_size + 1` returns -1. -/
theorem lcseek_boundary {σ : Type} (env : Env σ) (s : FsState σ) (fh : Int) (off : Nat)
    (hfh : 0 ≤ fh ∧ fh < (s.files.length : Int))
    (hopen : (s.fileAt fh.toNat).is_open = true)
    (hsize : 0 ≤ (s.fileAt fh.toNat).file_size ∧ (s.fileAt fh.toNat).file_size < 2 ^ 31) :
    ((lcseek s fh off).2 ≠ -1 ↔ (off : Int) ≤ (s.fileAt fh.toNat).file_size) ∧
    ((off : Int) ≤ (s.fileAt fh.toNat).file_size →
      lcseek s fh off =
        (s.setFile fh.toNat { s.fileAt fh.toNat with cur_pos := (off : Int) }, (off : Int))) ∧
    ((s.fileAt fh.toNat).file_size < (off : Int) → lcseek s fh off = (s, -1)) ∧
    (lcseek s fh (s.fileAt fh.toNat).file_size.toNat).2 = (s.fileAt fh.toNat).file_size ∧
    (∀ (fuel : Nat) (buf : List Nat) (len : Nat),
      lcread env fuel (lcseek s fh (s.fileAt fh.toNat).file_size.toNat).1 fh buf len =
        some ((lcseek s fh (s.fileAt fh.toNat).file_size.toNat).1, 0, buf)) ∧
    lcseek s fh ((s.fileAt fh.toNat).file_size.toNat + 1) = (s, -1) := by
  have hidx : fh.toNat < s.files.length := by omega
  have hguard : ¬ (fh < 0 ∨ fh ≥ (s.files.length : Int)) := by omega
  have hu : toU64 (s.fileAt fh.toNat).file_size = (s.fileAt fh.toNat).file_size.toNat :=
    toU64_small _ hsize.1 hsize.2
  have hok : ∀ o : Nat, (o : Int) ≤ (s.fileAt fh.toNat).file_size →
      lcseek s fh o =
        (s.setFile fh.toNat { s.fileAt fh.toNat with cur_pos := (o : Int) }, (o : Int)) := by
    intro o ho
    have hlt : ¬ (s.fileAt fh.toNat).file_size.toNat < o := by omega
    simp only [lcseek, hguard, if_false, hopen, Bool.not_true, hu, hlt]
    rw [toI32_small o (by omega)]
    rfl
  have hbad : ∀ o : Nat, (s.fileAt fh.toNat).file_size < (o : Int) → lcseek s fh o = (s, -1) := by
    intro o ho
    have hlt : (s.fileAt fh.toNat).file_size.toNat < o := by omega
    simp only [lcseek, hguard, if_false, hopen, Bool.not_true, hu, hlt, if_true]
    rfl
  have hend : ((s.fileAt fh.toNat).file_size.toNat : Int) = (s.fileAt fh.toNat).file_size :=
    Int.toNat_of_nonneg hsize.1
  refine ⟨?_, hok off, hbad off, ?_, ?_, ?_⟩
  · constructor
    · intro h
      by_contra hc
      rw [hbad off (by omega)] at h
      exact h rfl
    · intro h
      rw [hok off h]
      show (off : Int) ≠ -1
      omega
  · rw [hok _ (le_of_eq hend), hend]
  · intro fuel buf len
    rw [hok _ (le_of_eq hend), hend]
    have hz : toU64 ((s.fileAt fh.toNat).file_size - (s.fileAt fh.toNat).file_size) = 0 := by
      rw [sub_self]; rfl
    have hclamp : (if len > 0 then 0 else len) = 0 := by split_ifs <;> omega
    simp only [lcread, length_setFile, hguard, if_false, fileAt_setFile _ _ _ hidx, hopen,
      Bool.not_true, hz, hclamp]
    cases fuel <;> simp [lcread_loop] <;> rfl
  · exact hbad _ (by push_cast; omega)

theorem lcseek_boundary_witness :
    ((lcseek demoState 0 300).2 ≠ -1 ↔
        ((300 : Nat) : Int) ≤ (demoState.fileAt (0 : Int).toNat).file_size) ∧
    (((300 : Nat) : Int) ≤ (demoState.fileAt (0 : Int).toNat).file_size →
      lcseek demoState 0 300 =
        (demoState.setFile (0 : Int).toNat { demoState.fileAt (0 : Int).toNat with
          cur_pos := ((300 : Nat) : Int) }, ((300 : Nat) : Int))) ∧
    ((demoState.fileAt (0 : Int).toNat).file_size < ((300 : Nat) : Int) →
      lcseek demoState 0 300 = (demoState, -1)) ∧
    (lcseek demoState 0 (demoState.fileAt (0 : Int).toNat).file_size.toNat).2 =
      (demoState.fileAt (0 : Int).toNat).file_size ∧
    (∀ (fuel : Nat) (buf : List Nat) (len : Nat),
      lcread acceptAll fuel
          (lcseek demoState 0 (demoState.fileAt (0 : Int).toNat).file_size.toNat).1 0 buf len =
        some ((lcseek demoState 0 (demoState.fileAt (0 : Int).toNat).file_size.toNat).1, 0,
          buf)) ∧
    lcseek demoState 0 ((demoState.fileAt (0 : Int).toNat).file_size.toNat + 1) =
      (demoState, -1) :=
  lcseek_boundary acceptAll demoState 0 300 (by decide) rfl (by decide)

/-- Claim C14 (close effect): for an open file `lcclose` returns 0 and only replaces that
record by itself with `is_open` cleared and `cur_pos` 0: its `file_size`, block list and name,
every other file record and the rest of the state are unchanged. -/
theorem lcclose_effect {σ : Type} (s : FsState σ) (fh : Int)
    (hfh : 0 ≤ fh ∧ fh < (s.files.length : Int))
    (hopen : (s.fileAt fh.toNat).is_open = true) :
    lcclose s fh =
        (s.setFile fh.toNat { s.fileAt fh.toNat with cur_pos := 0, is_open := false }, 0) ∧
    ((lcclose s fh).1.fileAt fh.toNat).is_open = false ∧
    ((lcclose s fh).1.fileAt fh.toNat).cur_pos = 0 ∧
    ((lcclose s fh).1.fileAt fh.toNat).file_size = (s.fileAt fh.toNat).file_size ∧
    ((lcclose s fh).1.fileAt fh.toNat).blocks = (s.fileAt fh.toNat).blocks ∧
    ((lcclose s fh).1.fileAt fh.toNat).file_name = (s.fileAt fh.toNat).file_name ∧
    (lcclose s fh).1.files.length = s.files.length ∧
    (∀ i : Nat, i ≠ fh.toNat → (lcclose s fh).1.fileAt i = s.fileAt i) := by
  have hidx : fh.toNat < s.files.length := by omega
  have hguard : ¬ (fh < 0 ∨ fh ≥ (s.files.length : Int)) := by omega
  have hrun : lcclose s fh =
      (s.setFile fh.toNat { s.fileAt fh.toNat with cur_pos := 0, is_open := false }, 0) := by
    simp only [lcclose, hguard, if_false, hopen, Bool.not_true]
    rfl
  have hat := fileAt_setFile s fh.toNat
    { s.fileAt fh.toNat with cur_pos := 0, is_open := false } hidx
  rw [hrun]
  refine ⟨rfl, ?_, ?_, ?_, ?_, ?_, ?_, ?_⟩
  · rw [hat]
  · rw [hat]
  · rw [hat]
  · rw [hat]
  · rw [hat]
  · simp [FsState.setFile]
  · intro i hi
    exact fileAt_setFile_ne s _ _ _ (Ne.symm hi)

theorem lcclose_effect_witness :
    lcclose demoState 0 =
        (demoState.setFile (0 : Int).toNat
          { demoState.fileAt (0 : Int).toNat with cur_pos := 0, is_open := false }, 0) ∧
    ((lcclose demoState 0).1.fileAt (0 : Int).toNat).is_open = false ∧
    ((lcclose demoState 0).1.fileAt (0 : Int).toNat).cur_pos = 0 ∧
    ((lcclose demoState 0).1.fileAt (0 : Int).toNat).file_size =
      (demoState.fileAt (0 : Int).toNat).file_size ∧
    ((lcclose demoState 0).1.fileAt (0 : Int).toNat).blocks =
      (demoState.fileAt (0 : Int).toNat).blocks ∧
    ((lcclose demoState 0).1.fileAt (0 : Int).toNat).file_name =
      (demoState.fileAt (0 : Int).toNat).file_name ∧
    (lcclose demoState 0).1.files.length = demoState.files.length ∧
    (∀ i : Nat, i ≠ (0 : Int).toNat → (lcclose demoState 0).1.fileAt i = demoState.fileAt i) :=
  lcclose_effect demoState 0 (by decide) rfl

/-- Claim C20, as stated, fails: for a success frame whose device-id field `c1` is 5 and whose
`d0` field is 3, `lcloud_io_devices_probe` reports 3, not the value 5 of `c1`. -/
theorem probe_reports_c1_counterexample :
    lcloud_io_succeed (probeEnv.request () (create_lcloud_registers 0 0 probeEnv.LC_DEVPROBE
        0 0 0 0) []).2.1 = true ∧
      (extract_lcloud_registers (probeEnv.request ()
        (create_lcloud_registers 0 0 probeEnv.LC_DEVPROBE 0 0 0 0) []).2.1).c1 = 5 ∧
      (lcloud_io_devices_probe probeEnv (FsState.start ())).2 = some 3 ∧
      (lcloud_io_devices_probe probeEnv (FsState.start ())).2 ≠
        some (extract_lcloud_registers (probeEnv.request ()
          (create_lcloud_registers 0 0 probeEnv.LC_DEVPROBE 0 0 0 0) []).2.1).c1 := by
  decide

/-- Claim C20, amended: for every response frame that is a success, `lcloud_io_devices_probe`
returns 1 and reports as the present-device bitmask the value of the frame's `d0` field
(bits 16-31), the field `lcloud_io_device` extracts; for any other frame it returns 0. -/
theorem probe_reports_d0 {σ : Type} (env : Env σ) (s : FsState σ) :
    (lcloud_io_succeed (env.request s.ctl
        (create_lcloud_registers 0 0 env.LC_DEVPROBE 0 0 0 0) []).2.1 = true →
      (lcloud_io_devices_probe env s).2 =
        some ((((env.request s.ctl
          (create_lcloud_registers 0 0 env.LC_DEVPROBE 0 0 0 0) []).2.1 / 2 ^ 16 % 2 ^ 16 : Nat))
            : Int)) ∧
    (lcloud_io_succeed (env.request s.ctl
        (create_lcloud_registers 0 0 env.LC_DEVPROBE 0 0 0 0) []).2.1 = false →
      (lcloud_io_devices_probe env s).2 = none) := by
  constructor
  · intro h
    simp only [lcloud_io_devices_probe, h, if_true, lcloud_io_device, extract_lcloud_registers,
      mask16, Nat.and_pow_two_sub_one_eq_mod, Nat.shiftRight_eq_div_pow]
  · intro h
    simp only [lcloud_io_devices_probe, h, Bool.false_eq_true, if_false]

theorem probe_reports_d0_witness :
    (lcloud_io_succeed (probeEnv.request (FsState.start ()).ctl
        (create_lcloud_registers 0 0 probeEnv.LC_DEVPROBE 0 0 0 0) []).2.1 = true →
      (lcloud_io_devices_probe probeEnv (FsState.start ())).2 =
        some ((((probeEnv.request (FsState.start ()).ctl
          (create_lcloud_registers 0 0 probeEnv.LC_DEVPROBE 0 0 0 0) []).2.1
            / 2 ^ 16 % 2 ^ 16 : Nat)) : Int)) ∧
    (lcloud_io_succeed (rejecting 1 |>.request (FsState.start ()).ctl
        (create_lcloud_registers 0 0 (rejecting 1).LC_DEVPROBE 0 0 0 0) []).2.1 = false →
      (lcloud_io_devices_probe (rejecting 1) (FsState.start ())).2 = none) :=
  ⟨(probe_reports_d0 probeEnv (FsState.start ())).1,
    (probe_reports_d0 (rejecting 1) (FsState.start ())).2⟩

/-! ## Allocator order, short writes, controller failures -/

/-- Claim C18 at a failing input: on one device of two blocks a write of 600 bytes ends early
and returns 512; `file_size` is 512 (two blocks) but the block list has three entries.  A
following write of 10 bytes finds block index 2 inside the list, does not allocate, and
returns 10 with `file_size` 522. -/
theorem short_write_leaves_extra_block :
    shortWriteTrace = some ((512, 512, 512, 3), (10, 522, 522, 3)) := by
  decide!

/-- Claim C19 at failing inputs: against a controller that rejects every block transfer, and
against a transport that returns the error frame, `lcloud_io_read` and `lcloud_io_write`
report failure, yet `lcread` returns the byte count 5 and `lcwrite` the byte count 3. -/
theorem io_failure_not_surfaced :
    ioFailureTrace (rejecting acceptAll.LC_BLOCK_XFER) = some (false, false, 5, 3) ∧
      ioFailureTrace transportDown = some (false, false, 5, 3) := by
  constructor <;> decide!

/-- A successful pass of the allocator loop: the device handed out is the cursor device or a
later one, it is the cursor device afterwards, the locator is the (sector, block) cursor of that
device, and that cursor has moved strictly forward afterwards. -/
theorem get_free_block_loop_step {σ : Type} :
    ∀ (fuel : Nat) (s s1 : FsState σ) (d sec blk : Int),
      lcloud_get_free_block_loop fuel s = some (s1, some (d, sec, blk)) →
      s.cur_device ≤ d ∧ s1.cur_device = d ∧
      (d = s.cur_device →
        sec = (s.devices.getD d.toNat device.zero).cur_sector ∧
        blk = (s.devices.getD d.toNat device.zero).cur_block) ∧
      (sec < (s1.devices.getD d.toNat device.zero).cur_sector ∨
        (sec = (s1.devices.getD d.toNat device.zero).cur_sector ∧
          blk < (s1.devices.getD d.toNat device.zero).cur_block)) := by
  intro fuel
  induction fuel with
  | zero =>
    intro s s1 d sec blk h
    rw [lcloud_get_free_block_loop] at h
    split_ifs at h
    simp at h
  | succ fuel ih =>
    intro s s1 d sec blk h
    rw [lcloud_get_free_block_loop] at h
    split_ifs at h with hc
    · dsimp only at h
      split_ifs at h with hfree hwrap
      · simp only [Option.some.injEq, Prod.mk.injEq] at h
        obtain ⟨hs1, hd, hsec, hblk⟩ := h
        subst hs1 hd hsec hblk
        have hin : s.cur_device.toNat < s.devices.length := by
          by_contra hout
          have hz : s.devices.getD s.cur_device.toNat device.zero = device.zero := by
            simp [List.getD_eq_getElem?_getD, List.getElem?_eq_none (by omega : s.devices.length ≤ s.cur_device.toNat)]
          rw [hz] at hfree
          simp [device.zero] at hfree
        refine ⟨le_refl _, rfl, fun _ => ⟨rfl, rfl⟩, ?_⟩
        simp only [List.getD_eq_getElem?_getD, List.getElem?_set, hin, if_true, Option.getD_some]
        left; omega
      · simp only [Option.some.injEq, Prod.mk.injEq] at h
        obtain ⟨hs1, hd, hsec, hblk⟩ := h
        subst hs1 hd hsec hblk
        have hin : s.cur_device.toNat < s.devices.length := by
          by_contra hout
          have hz : s.devices.getD s.cur_device.toNat device.zero = device.zero := by
            simp [List.getD_eq_getElem?_getD, List.getElem?_eq_none (by omega : s.devices.length ≤ s.cur_device.toNat)]
          rw [hz] at hfree
          simp [device.zero] at hfree
        refine ⟨le_refl _, rfl, fun _ => ⟨rfl, rfl⟩, ?_⟩
        simp only [List.getD_eq_getElem?_getD, List.getElem?_set, hin, if_true, Option.getD_some]
        right; constructor
        · trivial
        · omega
      · obtain ⟨h1, h2, _, h4⟩ := ih _ s1 d sec blk h
        dsimp only at h1
        refine ⟨by omega, h2, fun hd => by omega, h4⟩
    · simp at h

/-- Allocator order along successive calls: the locators come out pairwise in allocation order,
and each of them lies on the cursor device or a later one, at or after the cursor. -/
theorem allocMany_ordered {σ : Type} (fuel : Nat) :
    ∀ (k : Nat) (s s1 : FsState σ) (locs : List block),
      allocMany fuel k s = some (s1, locs) →
      locs.Pairwise allocatedBefore ∧
      ∀ b ∈ locs, s.cur_device ≤ b.device_id ∧
        (b.device_id = s.cur_device →
          (s.devices.getD s.cur_device.toNat device.zero).cur_sector < b.sector ∨
          ((s.devices.getD s.cur_device.toNat device.zero).cur_sector = b.sector ∧
            (s.devices.getD s.cur_device.toNat device.zero).cur_block ≤ b.block)) := by
  intro k
  induction k with
  | zero =>
    intro s s1 locs h
    simp only [allocMany, Option.some.injEq, Prod.mk.injEq] at h
    rw [← h.2]
    exact ⟨List.Pairwise.nil, by simp⟩
  | succ k ih =>
    intro s s1 locs h
    rw [allocMany] at h
    cases hg : lcloud_get_free_block fuel s with
    | none => simp [hg] at h
    | some r =>
      obtain ⟨sa, res⟩ := r
      cases res with
      | none => simp [hg] at h
      | some loc =>
        obtain ⟨d, sec, blk⟩ := loc
        simp only [hg] at h
        cases hm : allocMany fuel k sa with
        | none => simp [hm] at h
        | some r2 =>
          obtain ⟨s2, rest⟩ := r2
          simp only [hm, Option.some.injEq, Prod.mk.injEq] at h
          obtain ⟨_, hlocs⟩ := h
          subst hlocs
          obtain ⟨hpw, hall⟩ := ih sa s2 rest hm
          obtain ⟨g1, g2, g3, g4⟩ := get_free_block_loop_step fuel s sa d sec blk hg
          constructor
          · rw [List.pairwise_cons]
            refine ⟨?_, hpw⟩
            intro b hb
            obtain ⟨b1, b2⟩ := hall b hb
            rw [g2] at b1 b2
            refine ⟨b1, ?_⟩
            intro hdev
            have := b2 hdev.symm
            dsimp only at hdev ⊢
            omega
          · intro b hb
            rcases List.mem_cons.mp hb with hb | hb
            · subst hb
              refine ⟨g1, ?_⟩
              intro hdev
              obtain ⟨e1, e2⟩ := g3 hdev
              dsimp only at hdev
              rw [← hdev]
              right
              exact ⟨e1.symm, le_of_eq e2.symm⟩
            · obtain ⟨b1, b2⟩ := hall b hb
              rw [g2] at b1 b2
              refine ⟨by omega, ?_⟩
              intro hdev
              have hd : d = s.cur_device := by omega
              obtain ⟨e1, e2⟩ := g3 hd
              have := b2 (by omega)
              rw [← hd]
              omega

/-- Claim C17 (allocation ordering): in every sequence of successful `lcloud_get_free_block`
calls, from any allocator state, the returned device ids are non-decreasing and the locators of
one device come out with strictly increasing (sector, block) pairs in sector-then-block
order. -/
theorem allocation_order {σ : Type} (fuel k : Nat) (s : FsState σ) (locs : List block)
    (h : (allocMany fuel k s).map Prod.snd = some locs) :
    locs.Pairwise allocatedBefore := by
  cases hm : allocMany fuel k s with
  | none => simp [hm] at h
  | some r =>
    simp only [hm, Option.map_some', Option.some.injEq] at h
    subst h
    exact (allocMany_ordered fuel k s r.1 r.2 hm).1

theorem allocation_order_witness :
    (allocMany 17 8 twoDevices).map Prod.snd =
        some [{ sector := 0, block := 0, device_id := 0 }, { sector := 0, block := 1, device_id := 0 },
          { sector := 1, block := 0, device_id := 0 }, { sector := 1, block := 1, device_id := 0 },
          { sector := 0, block := 0, device_id := 1 }, { sector := 0, block := 1, device_id := 1 },
          { sector := 1, block := 0, device_id := 1 }, { sector := 1, block := 1, device_id := 1 }] ∧
      List.Pairwise allocatedBefore
        [{ sector := 0, block := 0, device_id := 0 }, { sector := 0, block := 1, device_id := 0 },
          { sector := 1, block := 0, device_id := 0 }, { sector := 1, block := 1, device_id := 0 },
          { sector := 0, block := 0, device_id := 1 }, { sector := 0, block := 1, device_id := 1 },
          { sector := 1, block := 0, device_id := 1 }, { sector := 1, block := 1, device_id := 1 }] :=
  ⟨by decide!, allocation_order 17 8 twoDevices _ (by decide!)⟩

/-! ## Round trip through close and reopen -/

/-- Claim C15 at failing inputs: against a faithful block store, for 10, 256 and 600 bytes, the
write returns `k`, `lcclose` returns 0 and the second `lcopen` returns handle 0, but then
`lcseek` and `lcread` return -1 and the buffer does not hold the bytes written.  Without the
close and reopen the same bytes are read back. -/
theorem round_trip_fails_after_reopen :
    roundTripTrace 10 = some (10, 0, 0, -1, -1, false) ∧
      roundTripTrace 256 = some (256, 0, 0, -1, -1, false) ∧
      roundTripTrace 600 = some (600, 0, 0, -1, -1, false) ∧
      directTrace 10 = some (10, 0, 10, true) ∧
      directTrace 256 = some (256, 0, 256, true) ∧
      directTrace 600 = some (600, 0, 600, true) := by
  refine ⟨by decide!, by decide!, by decide!, by decide!, by decide!, by decide!⟩
/-! ## The allocator depends only on the device table and the device cursor -/

/-- The allocator loop run on a state `t` with the device table and cursor of `s` gives the
same answer as on `s`, and changes only these two components. -/
theorem get_free_block_loop_congr {σ : Type} :
    ∀ (fuel : Nat) (s t : FsState σ), s.devices = t.devices → s.cur_device = t.cur_device →
      lcloud_get_free_block_loop fuel t =
        (lcloud_get_free_block_loop fuel s).map fun r =>
          ({ t with devices := r.1.devices, cur_device := r.1.cur_device }, r.2) := by
  intro fuel
  induction fuel with
  | zero =>
    intro s t hd hc
    rw [lcloud_get_free_block_loop, lcloud_get_free_block_loop]
    simp only [← hc]
    split_ifs
    · rfl
    · simp only [Option.map_some', hd, hc]
  | succ fuel ih =>
    intro s t hd hc
    rw [lcloud_get_free_block_loop, lcloud_get_free_block_loop]
    simp only [← hc, ← hd]
    split_ifs
    · simp only [Option.map_some']
    · simp only [Option.map_some']
    · exact ih { s with cur_device := s.cur_device + 1 }
        { t with devices := s.devices, cur_device := s.cur_device + 1 } rfl rfl
    · simp only [Option.map_some', hd, hc]

/-- More fuel does not change a result of the allocator loop. -/
theorem get_free_block_loop_mono {σ : Type} :
    ∀ (fuel : Nat) (s : FsState σ) (r : FsState σ × Option (Int × Int × Int)),
      lcloud_get_free_block_loop fuel s = some r →
      ∀ fuel1, fuel ≤ fuel1 → lcloud_get_free_block_loop fuel1 s = some r := by
  intro fuel
  induction fuel with
  | zero =>
    intro s r h fuel1 _
    rw [lcloud_get_free_block_loop] at h
    split_ifs at h with hc
    rw [lcloud_get_free_block_loop.eq_def]
    simp only [hc, if_false]
    exact h
  | succ fuel ih =>
    intro s r h fuel1 hle
    obtain ⟨k, rfl⟩ : ∃ k, fuel1 = k + 1 := ⟨fuel1 - 1, by omega⟩
    rw [lcloud_get_free_block_loop] at h ⊢
    dsimp only at h ⊢
    split_ifs at h ⊢ <;> first | exact h | exact ih _ r h k (by omega)

/-- One call of `lcloud_get_free_block` transferred to a state with the same device table and
cursor, and to more fuel. -/
theorem get_free_block_transfer {σ : Type} (fuelA fuel : Nat) (hle : fuelA ≤ fuel)
    (s t s1 : FsState σ) (res : Option (Int × Int × Int))
    (hd : s.devices = t.devices) (hc : s.cur_device = t.cur_device)
    (h : lcloud_get_free_block fuelA s = some (s1, res)) :
    lcloud_get_free_block fuel t =
      some ({ t with devices := s1.devices, cur_device := s1.cur_device }, res) := by
  unfold lcloud_get_free_block at h ⊢
  have h1 := get_free_block_loop_mono fuelA s _ h fuel hle
  rw [get_free_block_loop_congr fuel s t hd hc, h1]
  rfl

/-- Successive allocations transferred to a state with the same device table and cursor, and
to more fuel: the same locators come out and the allocator ends in the same place. -/
theorem allocMany_transfer {σ : Type} (fuelA fuel : Nat) (hle : fuelA ≤ fuel) :
    ∀ (k : Nat) (s t sA : FsState σ) (locs : List block),
      s.devices = t.devices → s.cur_device = t.cur_device →
      allocMany fuelA k s = some (sA, locs) →
      ∃ tA, allocMany fuel k t = some (tA, locs) ∧ tA.devices = sA.devices ∧
        tA.cur_device = sA.cur_device := by
  intro k
  induction k with
  | zero =>
    intro s t sA locs hd hc h
    simp only [allocMany, Option.some.injEq, Prod.mk.injEq] at h
    obtain ⟨h1, h2⟩ := h
    subst h1 h2
    exact ⟨t, rfl, hd.symm, hc.symm⟩
  | succ k ih =>
    intro s t sA locs hd hc h
    rw [allocMany] at h
    cases hg : lcloud_get_free_block fuelA s with
    | none => simp [hg] at h
    | some r =>
      obtain ⟨s1, res⟩ := r
      cases res with
      | none => simp [hg] at h
      | some loc =>
        obtain ⟨d, sec, blk⟩ := loc
        simp only [hg] at h
        cases hm : allocMany fuelA k s1 with
        | none => simp [hm] at h
        | some r2 =>
          obtain ⟨s2, rest⟩ := r2
          simp only [hm, Option.some.injEq, Prod.mk.injEq] at h
          obtain ⟨h1, h2⟩ := h
          subst h1 h2
          obtain ⟨tA, htA, e1, e2⟩ := ih s1
            { t with devices := s1.devices, cur_device := s1.cur_device } s2 rest rfl rfl hm
          refine ⟨tA, ?_, e1, e2⟩
          rw [allocMany, get_free_block_transfer fuelA fuel hle s t s1 _ hd hc hg]
          simp only [htA]

/-- The first of `k + 1` successive allocations, and the remaining `k`. -/
theorem allocMany_succ {σ : Type} (fuel k : Nat) (s sA : FsState σ) (locs : List block)
    (h : allocMany fuel (k + 1) s = some (sA, locs)) :
    ∃ s1 d sec blk rest, lcloud_get_free_block fuel s = some (s1, some (d, sec, blk)) ∧
      allocMany fuel k s1 = some (sA, rest) ∧
      locs = { sector := sec, block := blk, device_id := d } :: rest := by
  rw [allocMany] at h
  cases hg : lcloud_get_free_block fuel s with
  | none => simp [hg] at h
  | some r =>
    obtain ⟨s1, res⟩ := r
    cases res with
    | none => simp [hg] at h
    | some loc =>
      obtain ⟨d, sec, blk⟩ := loc
      simp only [hg] at h
      cases hm : allocMany fuel k s1 with
      | none => simp [hm] at h
      | some r2 =>
        obtain ⟨s2, rest⟩ := r2
        simp only [hm, Option.some.injEq, Prod.mk.injEq] at h
        obtain ⟨h1, h2⟩ := h
        subst h1 h2
        exact ⟨s1, d, sec, blk, rest, rfl, hm, rfl⟩

/-! ## One pass of the loop of `lcwrite` -/

/-- The transfer part of a pass of `lcwrite` at position `p`: in the file table it advances
`cur_pos` by `n` and raises `file_size` to the new position if that is larger; it leaves the
allocator and the caller's data alone and adds `n` to the byte count. -/
theorem lcwrite_xfer_spec {σ : Type} (env : Env σ) (fh n begin : Nat) (i : Int)
    (s : FsState σ) (l : Locals) (p : Nat)
    (hp : (s.fileAt fh).cur_pos = (p : Int)) (hend : p + n < 2 ^ 31)
    (hcount : l.n + n < 2 ^ 32) :
    (lcwrite_xfer env fh begin n i s l).1.files =
        s.files.set fh { s.fileAt fh with
          cur_pos := ((p + n : Nat) : Int)
          file_size := max (s.fileAt fh).file_size ((p + n : Nat) : Int) } ∧
      (lcwrite_xfer env fh begin n i s l).1.devices = s.devices ∧
      (lcwrite_xfer env fh begin n i s l).1.cur_device = s.cur_device ∧
      (lcwrite_xfer env fh begin n i s l).2.n = l.n + n ∧
      (lcwrite_xfer env fh begin n i s l).2.buf = l.buf := by
  unfold lcwrite_xfer
  dsimp only
  split
  · simp only [FsState.setFile, FsState.fileAt, lcloud_io_write] at hp ⊢
    rw [hp, toU32_natCast _ (by omega), toI32_small _ (by omega)]
    refine ⟨?_, trivial, trivial, Nat.mod_eq_of_lt hcount, trivial⟩
    congr 1
    split_ifs with h
    · rw [max_eq_right (le_of_lt h)]
    · rw [max_eq_left (not_lt.mp h)]
  · simp only [FsState.setFile, FsState.fileAt, lcloud_io_read, lcloud_io_write] at hp ⊢
    rw [hp, toU32_natCast _ (by omega), toI32_small _ (by omega)]
    refine ⟨?_, trivial, trivial, Nat.mod_eq_of_lt hcount, trivial⟩
    congr 1
    split_ifs with h
    · rw [max_eq_right (le_of_lt h)]
    · rw [max_eq_left (not_lt.mp h)]

theorem fileAt_of_files {σ : Type} (s t : FsState σ) (i : Nat) (g : file)
    (h : t.files = s.files.set i g) (hi : i < s.files.length) : t.fileAt i = g := by
  simp [FsState.fileAt, h, List.getD_eq_getElem?_getD, List.getElem?_set, hi]

theorem set_length_append {α : Type} (l : List α) (a b : α) :
    (l ++ [a]).set l.length b = l ++ [b] := by
  induction l with
  | nil => rfl
  | cons x rest ih => simp only [List.cons_append, List.length_cons, List.set_cons_succ, ih]

/-- The allocation step when the block index is not the length of the block list: nothing
happens. -/
theorem lcwrite_alloc_skip {σ : Type} (env : Env σ) (fuel fh : Nat) (s : FsState σ) (i : Int)
    (h : i ≠ ((s.fileAt fh).blocks.length : Int)) :
    lcwrite_alloc env fuel fh s i = some (s, true) := by
  unfold lcwrite_alloc
  simp only [h, if_false]

/-- The allocation step when the block index is the length of the block list and the allocator
hands out a block: the locator is appended to the list. -/
theorem lcwrite_alloc_ok {σ : Type} (env : Env σ) (fuelA fuel fh : Nat) (hle : fuelA ≤ fuel)
    (s s1 : FsState σ) (d sec blk : Int) (hfh : fh < s.files.length)
    (h : lcloud_get_free_block fuelA s = some (s1, some (d, sec, blk))) :
    ∃ s2, lcwrite_alloc env fuel fh s ((s.fileAt fh).blocks.length : Int) = some (s2, true) ∧
      s2.files = s.files.set fh { s.fileAt fh with
        blocks := (s.fileAt fh).blocks ++ [{ sector := sec, block := blk, device_id := d }] } ∧
      s2.devices = s1.devices ∧ s2.cur_device = s1.cur_device := by
  have ht := get_free_block_transfer fuelA fuel hle s
    (s.setFile fh { s.fileAt fh with blocks := (s.fileAt fh).blocks ++ [env.junk] }) s1 _
    rfl rfl h
  unfold lcwrite_alloc
  simp only [if_true, ht]
  refine ⟨_, rfl, ?_, rfl, rfl⟩
  simp only [FsState.setFile, FsState.fileAt, List.set_set, List.getD_eq_getElem?_getD,
    List.getElem?_set, hfh, if_true, Option.getD_some, Int.toNat_ofNat, set_length_append]

/-- The allocation step when the block index is the length of the block list and the allocator
reports no free block: the list has grown by an indeterminate entry all the same. -/
theorem lcwrite_alloc_fail {σ : Type} (env : Env σ) (fuelA fuel fh : Nat) (hle : fuelA ≤ fuel)
    (s s1 : FsState σ) (h : lcloud_get_free_block fuelA s = some (s1, none)) :
    ∃ s2, lcwrite_alloc env fuel fh s ((s.fileAt fh).blocks.length : Int) = some (s2, false) ∧
      s2.files = s.files.set fh { s.fileAt fh with
        blocks := (s.fileAt fh).blocks ++ [env.junk] } ∧
      s2.devices = s1.devices ∧ s2.cur_device = s1.cur_device := by
  have ht := get_free_block_transfer fuelA fuel hle s
    (s.setFile fh { s.fileAt fh with blocks := (s.fileAt fh).blocks ++ [env.junk] }) s1 _
    rfl rfl h
  unfold lcwrite_alloc
  simp only [if_true, ht]
  exact ⟨_, rfl, rfl, rfl, rfl⟩

/-- The block offset, chunk length and block index of a pass at a non-negative position. -/
theorem pass_arith (p r : Nat) (hr : r < 2 ^ 32) (hp : p < 2 ^ 31) :
    toU32 (((p : Int)).tmod (LC_DEVICE_BLOCK_SIZE : Int)) = p % 256 ∧
      chunk_len (p % 256) r = min (256 - p % 256) r ∧
      ((p : Int)).tdiv (LC_DEVICE_BLOCK_SIZE : Int) = ((p / 256 : Nat) : Int) := by
  have hb : p % 256 < 256 := Nat.mod_lt _ (by norm_num)
  refine ⟨?_, chunk_len_eq p r hr, ?_⟩
  · show toU32 (((p : Int)).tmod ((256 : Nat) : Int)) = p % 256
    rw [← Int.ofNat_tmod, toU32_natCast _ (by omega)]
  · show ((p : Int)).tdiv ((256 : Nat) : Int) = ((p / 256 : Nat) : Int)
    rw [← Int.ofNat_tdiv]

/-- The loop of `lcwrite` from position `p` with `len - n_write` bytes to go, when the
allocator can hand out `m` more blocks (`new`).  If these are all the blocks needed the loop
ends with `n_write = len`; if they are fewer and the allocator then reports no free block, the
loop breaks at the start of the first block it cannot get.  Either way the file table changes
only in the record written: `cur_pos` advances by the bytes written, `file_size` rises to the
new position if that is larger, and the block list grows by `new`, plus one indeterminate
entry when the loop broke. -/
theorem lcwrite_loop_spec {σ : Type} (env : Env σ) (fh len fuelA : Nat) (hlen : len < 2 ^ 31) :
    ∀ (fuel : Nat) (s : FsState σ) (l : Locals) (p m : Nat) (sA : FsState σ) (new : List block),
      fh < s.files.length →
      (s.fileAt fh).cur_pos = (p : Int) →
      (p : Int) ≤ (s.fileAt fh).file_size →
      p ≤ 256 * (s.fileAt fh).blocks.length →
      l.n ≤ len →
      p + (len - l.n) < 2 ^ 31 →
      allocMany fuelA m s = some (sA, new) →
      m ≤ blocksNeeded p (len - l.n) (s.fileAt fh).blocks.length →
      (m < blocksNeeded p (len - l.n) (s.fileAt fh).blocks.length →
        ∃ sB, lcloud_get_free_block fuelA sA = some (sB, none)) →
      (len - l.n) + fuelA ≤ fuel →
      ∃ s1 l1 w, lcwrite_loop env fh len fuel s l = some (s1, l1) ∧
        w = (if blocksNeeded p (len - l.n) (s.fileAt fh).blocks.length ≤ m then len - l.n
          else 256 * ((s.fileAt fh).blocks.length + m) - p) ∧
        l1.n = l.n + w ∧
        s1.files = s.files.set fh { s.fileAt fh with
          cur_pos := ((p + w : Nat) : Int)
          file_size := max (s.fileAt fh).file_size ((p + w : Nat) : Int)
          blocks := (s.fileAt fh).blocks ++ new ++
            (if m < blocksNeeded p (len - l.n) (s.fileAt fh).blocks.length then [env.junk]
              else []) } := by
  intro fuel
  induction fuel with
  | zero =>
    intro s l p m sA new hfh hp hpfs hpB hn hend halloc hm hex hfuel
    have hnl : ¬ l.n < len := by omega
    have hr : len - l.n = 0 := by omega
    have hneed : blocksNeeded p (len - l.n) (s.fileAt fh).blocks.length = 0 := by
      unfold blocksNeeded; omega
    have hm0 : m = 0 := by omega
    subst hm0
    simp only [allocMany, Option.some.injEq, Prod.mk.injEq] at halloc
    obtain ⟨_, hnew⟩ := halloc
    subst hnew
    have hmaxp : max (s.fileAt fh).file_size (s.fileAt fh).cur_pos = (s.fileAt fh).file_size := by
      rw [hp]; exact max_eq_left hpfs
    refine ⟨s, l, 0, by rw [lcwrite_loop, if_neg hnl], ?_, rfl, ?_⟩
    · rw [hneed, hr]; rfl
    · simp only [hneed, lt_irrefl, if_false, List.append_nil, Nat.add_zero, ← hp, hmaxp]
      exact (set_getD_self _ s.files fh hfh).symm
  | succ fuel ih =>
    intro s l p m sA new hfh hp hpfs hpB hn hend halloc hm hex hfuel
    by_cases hnl : l.n < len
    · -- one more pass
      have hb : p % 256 < 256 := Nat.mod_lt _ (by norm_num)
      obtain ⟨hbegin, hchunk, hidx⟩ := pass_arith p (len - l.n) (by omega) (by omega)
      have hn1 : 1 ≤ min (256 - p % 256) (len - l.n) := by omega
      have hn2 : min (256 - p % 256) (len - l.n) ≤ len - l.n := Nat.min_le_right _ _
      have hn3 : p + min (256 - p % 256) (len - l.n) ≤ 256 * (p / 256 + 1) := by omega
      have hbody : ∀ (s2 : FsState σ),
          lcwrite_alloc env fuel fh s ((p / 256 : Nat) : Int) = some (s2, true) →
          lcwrite_body env fuel fh len s l =
            some ((lcwrite_xfer env fh (p % 256) (min (256 - p % 256) (len - l.n))
                ((p / 256 : Nat) : Int) s2 l).1,
              (lcwrite_xfer env fh (p % 256) (min (256 - p % 256) (len - l.n))
                ((p / 256 : Nat) : Int) s2 l).2, true) := by
        intro s2 h2
        unfold lcwrite_body
        simp only [hp, hbegin, hchunk, hidx, h2]
      by_cases hiB : p / 256 = (s.fileAt fh).blocks.length
      · -- the block has to be allocated
        have hpeq : p = 256 * (s.fileAt fh).blocks.length := by omega
        have hneed1 : 1 ≤ blocksNeeded p (len - l.n) (s.fileAt fh).blocks.length := by
          unfold blocksNeeded; omega
        cases m with
        | zero =>
          simp only [allocMany, Option.some.injEq, Prod.mk.injEq] at halloc
          obtain ⟨hsA, hnew⟩ := halloc
          subst hsA hnew
          obtain ⟨sB, hsB⟩ := hex (by omega)
          obtain ⟨s2, h2, hfiles2, _, _⟩ :=
            lcwrite_alloc_fail env fuelA fuel fh (by omega) s sB hsB
          rw [← hiB] at h2
          refine ⟨s2, l, 0, ?_, ?_, rfl, ?_⟩
          · rw [lcwrite_loop, if_pos hnl]
            unfold lcwrite_body
            simp only [hp, hbegin, hchunk, hidx, h2]
          · have : ¬ blocksNeeded p (len - l.n) (s.fileAt fh).blocks.length ≤ 0 := by omega
            simp only [this, if_false, Nat.add_zero]
            omega
          · have : 0 < blocksNeeded p (len - l.n) (s.fileAt fh).blocks.length := by omega
            have hmaxp : max (s.fileAt fh).file_size (s.fileAt fh).cur_pos =
                (s.fileAt fh).file_size := by
              rw [hp]; exact max_eq_left hpfs
            simp only [this, if_true, List.append_nil, Nat.add_zero, ← hp, hmaxp]
            exact hfiles2
        | succ m =>
          obtain ⟨sa, d, sec, blk, rest, hg, hrest, hnew⟩ :=
            allocMany_succ fuelA m s sA new halloc
          subst hnew
          obtain ⟨s2, h2, hfiles2, hdev2, hcur2⟩ :=
            lcwrite_alloc_ok env fuelA fuel fh (by omega) s sa d sec blk hfh hg
          rw [← hiB] at h2
          have hat2 := fileAt_of_files s s2 fh _ hfiles2 hfh
          obtain ⟨x1, x2, x3, x4, x5⟩ := lcwrite_xfer_spec env fh
            (min (256 - p % 256) (len - l.n)) (p % 256) ((p / 256 : Nat) : Int) s2 l p
            (by rw [hat2]; exact hp) (by omega) (by omega)
          rw [hat2] at x1
          simp only [hfiles2, List.set_set] at x1
          have hat3 := fileAt_of_files s _ fh _ x1 hfh
          obtain ⟨tA, htA, htAd, htAc⟩ := allocMany_transfer fuelA fuelA (le_refl _) m sa
            (lcwrite_xfer env fh (p % 256) (min (256 - p % 256) (len - l.n))
              ((p / 256 : Nat) : Int) s2 l).1 sA rest
            (by rw [x2, hdev2]) (by rw [x3, hcur2]) hrest
          have hneedEq : blocksNeeded (p + min (256 - p % 256) (len - l.n))
              (len - (l.n + min (256 - p % 256) (len - l.n)))
              ((s.fileAt fh).blocks.length + 1) + 1 =
              blocksNeeded p (len - l.n) (s.fileAt fh).blocks.length := by
            unfold blocksNeeded
            have e : p + min (256 - p % 256) (len - l.n) +
                (len - (l.n + min (256 - p % 256) (len - l.n))) = p + (len - l.n) := by omega
            rw [e]; omega
          obtain ⟨s1, l1, w, hrun, hw, hl1, hs1⟩ := ih
            (lcwrite_xfer env fh (p % 256) (min (256 - p % 256) (len - l.n))
              ((p / 256 : Nat) : Int) s2 l).1
            (lcwrite_xfer env fh (p % 256) (min (256 - p % 256) (len - l.n))
              ((p / 256 : Nat) : Int) s2 l).2
            (p + min (256 - p % 256) (len - l.n)) m tA rest
            (by rw [x1, List.length_set]; exact hfh)
            (by rw [hat3])
            (by rw [hat3]; exact le_max_right _ _)
            (by rw [hat3]; simp only [List.length_append, List.length_singleton]; omega)
            (by rw [x4]; omega)
            (by rw [x4]; omega)
            htA
            (by
              rw [hat3, x4]
              simp only [List.length_append, List.length_singleton]
              omega)
            (by
              rw [hat3, x4]
              simp only [List.length_append, List.length_singleton]
              intro hlt
              obtain ⟨sB, hsB⟩ := hex (by omega)
              exact ⟨_, get_free_block_transfer fuelA fuelA (le_refl _) sA tA sB none
                htAd.symm htAc.symm hsB⟩)
            (by rw [x4]; omega)
          rw [hat3, x4] at hw hs1
          simp only [List.length_append, List.length_singleton] at hw hs1
          rw [x4] at hl1
          refine ⟨s1, l1, min (256 - p % 256) (len - l.n) + w, ?_, ?_, by omega, ?_⟩
          · rw [lcwrite_loop, if_pos hnl, hbody s2 h2]
            exact hrun
          · split_ifs at hw ⊢ <;> omega
          · rw [hs1, x1, List.set_set]
            have e1 : p + min (256 - p % 256) (len - l.n) + w =
                p + (min (256 - p % 256) (len - l.n) + w) := by omega
            have e2 : max ((p + min (256 - p % 256) (len - l.n) : Nat) : Int)
                ((p + (min (256 - p % 256) (len - l.n) + w) : Nat) : Int) =
                ((p + (min (256 - p % 256) (len - l.n) + w) : Nat) : Int) :=
              max_eq_right (by push_cast; omega)
            simp only [e1, max_assoc, e2]
            congr 2
            · by_cases hc : m + 1 < blocksNeeded p (len - l.n) (s.fileAt fh).blocks.length
              · have hc2 : m < blocksNeeded (p + min (256 - p % 256) (len - l.n))
                    (len - (l.n + min (256 - p % 256) (len - l.n)))
                    ((s.fileAt fh).blocks.length + 1) := by omega
                simp only [hc, hc2, if_true, List.append_assoc, List.singleton_append]
              · have hc2 : ¬ m < blocksNeeded (p + min (256 - p % 256) (len - l.n))
                    (len - (l.n + min (256 - p % 256) (len - l.n)))
                    ((s.fileAt fh).blocks.length + 1) := by omega
                simp only [hc, hc2, if_false, List.append_assoc, List.singleton_append]
      · -- the block is there already
        have hiB2 : ((p / 256 : Nat) : Int) ≠ ((s.fileAt fh).blocks.length : Int) := by
          exact_mod_cast hiB
        have hlt : p / 256 < (s.fileAt fh).blocks.length := by omega
        have h2 := lcwrite_alloc_skip env fuel fh s _ hiB2
        obtain ⟨x1, x2, x3, x4, x5⟩ := lcwrite_xfer_spec env fh
          (min (256 - p % 256) (len - l.n)) (p % 256) ((p / 256 : Nat) : Int) s l p
          hp (by omega) (by omega)
        have hat3 := fileAt_of_files s _ fh _ x1 hfh
        obtain ⟨tA, htA, htAd, htAc⟩ := allocMany_transfer fuelA fuelA (le_refl _) m s
          (lcwrite_xfer env fh (p % 256) (min (256 - p % 256) (len - l.n))
            ((p / 256 : Nat) : Int) s l).1 sA new
          (by rw [x2]) (by rw [x3]) halloc
        have hneedEq : blocksNeeded (p + min (256 - p % 256) (len - l.n))
            (len - (l.n + min (256 - p % 256) (len - l.n)))
            (s.fileAt fh).blocks.length =
            blocksNeeded p (len - l.n) (s.fileAt fh).blocks.length := by
          unfold blocksNeeded
          have e : p + min (256 - p % 256) (len - l.n) +
              (len - (l.n + min (256 - p % 256) (len - l.n))) = p + (len - l.n) := by omega
          rw [e]
        obtain ⟨s1, l1, w, hrun, hw, hl1, hs1⟩ := ih
          (lcwrite_xfer env fh (p % 256) (min (256 - p % 256) (len - l.n))
            ((p / 256 : Nat) : Int) s l).1
          (lcwrite_xfer env fh (p % 256) (min (256 - p % 256) (len - l.n))
            ((p / 256 : Nat) : Int) s l).2
          (p + min (256 - p % 256) (len - l.n)) m tA new
          (by rw [x1, List.length_set]; exact hfh)
          (by rw [hat3])
          (by rw [hat3]; exact le_max_right _ _)
          (by rw [hat3]; dsimp only; omega)
          (by rw [x4]; omega)
          (by rw [x4]; omega)
          htA
          (by rw [hat3, x4, hneedEq]; exact hm)
          (by
            rw [hat3, x4, hneedEq]
            intro hlt2
            obtain ⟨sB, hsB⟩ := hex hlt2
            exact ⟨_, get_free_block_transfer fuelA fuelA (le_refl _) sA tA sB none
              htAd.symm htAc.symm hsB⟩)
          (by rw [x4]; omega)
        rw [hat3, x4] at hw hs1
        dsimp only at hw hs1
        rw [hneedEq] at hw hs1
        rw [x4] at hl1
        refine ⟨s1, l1, min (256 - p % 256) (len - l.n) + w, ?_, ?_, by omega, ?_⟩
        · rw [lcwrite_loop, if_pos hnl, hbody s h2]
          exact hrun
        · split_ifs at hw ⊢ <;> omega
        · rw [hs1, x1, List.set_set]
          have e1 : p + min (256 - p % 256) (len - l.n) + w =
              p + (min (256 - p % 256) (len - l.n) + w) := by omega
          have e2 : max ((p + min (256 - p % 256) (len - l.n) : Nat) : Int)
              ((p + (min (256 - p % 256) (len - l.n) + w) : Nat) : Int) =
              ((p + (min (256 - p % 256) (len - l.n) + w) : Nat) : Int) :=
            max_eq_right (by push_cast; omega)
          simp only [e1, max_assoc, e2]
    · have hr : len - l.n = 0 := by omega
      have hneed : blocksNeeded p (len - l.n) (s.fileAt fh).blocks.length = 0 := by
        unfold blocksNeeded; omega
      have hm0 : m = 0 := by omega
      subst hm0
      simp only [allocMany, Option.some.injEq, Prod.mk.injEq] at halloc
      obtain ⟨_, hnew⟩ := halloc
      subst hnew
      have hmaxp : max (s.fileAt fh).file_size (s.fileAt fh).cur_pos =
          (s.fileAt fh).file_size := by
        rw [hp]; exact max_eq_left hpfs
      refine ⟨s, l, 0, by rw [lcwrite_loop, if_neg hnl], ?_, rfl, ?_⟩
      · rw [hneed, hr]; rfl
      · simp only [hneed, lt_irrefl, if_false, List.append_nil, Nat.add_zero, ← hp, hmaxp]
        exact (set_getD_self _ s.files fh hfh).symm

/-! ## Claims about `lcwrite` -/

theorem exhaustedAfter_spec {σ : Type} (fuel m : Nat) (s : FsState σ)
    (h : exhaustedAfter fuel m s = true) :
    ∃ sA new sB, allocMany fuel m s = some (sA, new) ∧
      lcloud_get_free_block fuel sA = some (sB, none) := by
  unfold exhaustedAfter at h
  cases hm : allocMany fuel m s with
  | none => simp [hm] at h
  | some r =>
    obtain ⟨sA, new⟩ := r
    simp only [hm] at h
    cases hg : lcloud_get_free_block fuel sA with
    | none => simp [hg] at h
    | some r2 =>
      obtain ⟨sB, res⟩ := r2
      cases res with
      | none => exact ⟨sA, new, sB, rfl, hg⟩
      | some loc => simp [hg] at h

theorem allocMany_length {σ : Type} (fuel : Nat) :
    ∀ (k : Nat) (s sA : FsState σ) (locs : List block),
      allocMany fuel k s = some (sA, locs) → locs.length = k := by
  intro k
  induction k with
  | zero =>
    intro s sA locs h
    simp only [allocMany, Option.some.injEq, Prod.mk.injEq] at h
    rw [← h.2]; rfl
  | succ k ih =>
    intro s sA locs h
    obtain ⟨s1, d, sec, blk, rest, _, hrest, hlocs⟩ := allocMany_succ fuel k s sA locs h
    rw [hlocs, List.length_cons, ih s1 sA rest hrest]

/-- Claim C11 (write advances and extends): for an open file whose position is non-negative,
not beyond `file_size` and not beyond the end of its block list, and every `len` with
`cur_pos + len` an `int`: when the allocator can hand out the blocks the write needs,
`lcwrite` returns `len` (as soon as the fuel covers one pass per byte and the allocator),
`cur_pos` becomes the old `cur_pos + len` and `file_size` becomes
`max (old file_size) (old cur_pos + len)`; the block list grows by the blocks handed out and
nothing else in the file table changes. -/
theorem lcwrite_advances_and_extends {σ : Type} (env : Env σ) (s : FsState σ) (fh : Int)
    (buf : List Nat) (len fuelA fuel : Nat)
    (hfh : 0 ≤ fh ∧ fh < (s.files.length : Int))
    (hopen : (s.fileAt fh.toNat).is_open = true)
    (hpos : 0 ≤ (s.fileAt fh.toNat).cur_pos ∧
      (s.fileAt fh.toNat).cur_pos ≤ (s.fileAt fh.toNat).file_size)
    (hblocks : (s.fileAt fh.toNat).cur_pos ≤ 256 * ((s.fileAt fh.toNat).blocks.length : Int))
    (hrange : (s.fileAt fh.toNat).cur_pos + (len : Int) < 2 ^ 31)
    (halloc : (allocMany fuelA (blocksNeeded (s.fileAt fh.toNat).cur_pos.toNat len
      (s.fileAt fh.toNat).blocks.length) s).isSome = true)
    (hfuel : len + fuelA ≤ fuel) :
    ∃ s1, lcwrite env fuel s fh buf len = some (s1, (len : Int)) ∧
      s1.files = s.files.set fh.toNat { s.fileAt fh.toNat with
        cur_pos := (s.fileAt fh.toNat).cur_pos + (len : Int)
        file_size := max (s.fileAt fh.toNat).file_size
          ((s.fileAt fh.toNat).cur_pos + (len : Int))
        blocks := (s.fileAt fh.toNat).blocks ++
          ((allocMany fuelA (blocksNeeded (s.fileAt fh.toNat).cur_pos.toNat len
            (s.fileAt fh.toNat).blocks.length) s).map Prod.snd).getD [] } ∧
      (s1.fileAt fh.toNat).cur_pos = (s.fileAt fh.toNat).cur_pos + (len : Int) ∧
      (s1.fileAt fh.toNat).file_size =
        max (s.fileAt fh.toNat).file_size ((s.fileAt fh.toNat).cur_pos + (len : Int)) := by
  obtain ⟨p, hp⟩ := Int.eq_ofNat_of_zero_le hpos.1
  have hidx : fh.toNat < s.files.length := by omega
  have hguard : ¬ (fh < 0 ∨ fh ≥ (s.files.length : Int)) := by omega
  rw [hp] at hblocks hrange
  have hpn : ((p : Int)).toNat = p := Int.toNat_ofNat p
  simp only [hp, hpn] at halloc ⊢
  cases hm : allocMany fuelA (blocksNeeded p len (s.fileAt fh.toNat).blocks.length) s with
  | none => simp [hm] at halloc
  | some r =>
    obtain ⟨sA, new⟩ := r
    obtain ⟨s1, l1, w, hrun, hw, hl1, hs1⟩ := lcwrite_loop_spec env fh.toNat len fuelA
      (by omega) fuel s { n := 0, tmp := env.tmp, buf := buf } p
      (blocksNeeded p len (s.fileAt fh.toNat).blocks.length) sA new hidx hp
      (by rw [← hp]; exact hpos.2) (by exact_mod_cast hblocks) (Nat.zero_le _)
      (by simp only [Nat.sub_zero]; omega) hm (by simp only [Nat.sub_zero, le_refl])
      (by simp only [Nat.sub_zero]; intro h; omega) (by simp only [Nat.sub_zero]; omega)
    simp only [Nat.sub_zero, le_refl, if_true, lt_irrefl, if_false, List.append_nil] at hw hs1
    rw [hw] at hl1 hs1
    simp only [Nat.zero_add] at hl1
    have hfiles : s1.files = s.files.set fh.toNat { s.fileAt fh.toNat with
        cur_pos := (p : Int) + (len : Int)
        file_size := max (s.fileAt fh.toNat).file_size ((p : Int) + (len : Int))
        blocks := (s.fileAt fh.toNat).blocks ++ new } := by
      rw [hs1]; push_cast; rfl
    have hat := fileAt_of_files s s1 fh.toNat _ hfiles hidx
    refine ⟨s1, ?_, ?_, ?_, ?_⟩
    · simp only [lcwrite, hguard, if_false, hopen, Bool.not_true, hrun, hl1]
      rw [toI32_small _ (by omega)]
      rfl
    · simp only [Option.map_some', Option.getD_some]
      exact hfiles
    · rw [hat]
    · rw [hat]

theorem lcwrite_advances_and_extends_witness :
    ∃ s1, lcwrite acceptAll 317 roomyState 0 (List.replicate 300 7) 300 =
        some (s1, ((300 : Nat) : Int)) ∧
      s1.files = roomyState.files.set (0 : Int).toNat { roomyState.fileAt (0 : Int).toNat with
        cur_pos := (roomyState.fileAt (0 : Int).toNat).cur_pos + ((300 : Nat) : Int)
        file_size := max (roomyState.fileAt (0 : Int).toNat).file_size
          ((roomyState.fileAt (0 : Int).toNat).cur_pos + ((300 : Nat) : Int))
        blocks := (roomyState.fileAt (0 : Int).toNat).blocks ++
          ((allocMany 17 (blocksNeeded (roomyState.fileAt (0 : Int).toNat).cur_pos.toNat 300
            (roomyState.fileAt (0 : Int).toNat).blocks.length) roomyState).map Prod.snd).getD
              [] } ∧
      (s1.fileAt (0 : Int).toNat).cur_pos =
        (roomyState.fileAt (0 : Int).toNat).cur_pos + ((300 : Nat) : Int) ∧
      (s1.fileAt (0 : Int).toNat).file_size =
        max (roomyState.fileAt (0 : Int).toNat).file_size
          ((roomyState.fileAt (0 : Int).toNat).cur_pos + ((300 : Nat) : Int)) :=
  lcwrite_advances_and_extends acceptAll roomyState 0 (List.replicate 300 7) 300 17 317
    (by decide) rfl (by decide) (by decide) (by decide) (by decide!) (by decide)

/-- Claim C12 (capacity exhaustion is a partial result): for an open file in the same
well-formed situation as in C11, when the allocator hands out only `m` blocks, fewer than the
write needs, and then reports no free block, `lcwrite` stops at the start of the first block
it cannot get and returns the number of bytes written up to there, a non-negative count below
`len` and not -1; `cur_pos` has advanced by exactly that number. -/
theorem lcwrite_partial_on_exhaustion {σ : Type} (env : Env σ) (s : FsState σ) (fh : Int)
    (buf : List Nat) (len fuelA fuel m : Nat)
    (hfh : 0 ≤ fh ∧ fh < (s.files.length : Int))
    (hopen : (s.fileAt fh.toNat).is_open = true)
    (hpos : 0 ≤ (s.fileAt fh.toNat).cur_pos ∧
      (s.fileAt fh.toNat).cur_pos ≤ (s.fileAt fh.toNat).file_size)
    (hblocks : (s.fileAt fh.toNat).cur_pos ≤ 256 * ((s.fileAt fh.toNat).blocks.length : Int))
    (hrange : (s.fileAt fh.toNat).cur_pos + (len : Int) < 2 ^ 31)
    (hm : m < blocksNeeded (s.fileAt fh.toNat).cur_pos.toNat len
      (s.fileAt fh.toNat).blocks.length)
    (hex : exhaustedAfter fuelA m s = true)
    (hfuel : len + fuelA ≤ fuel) :
    ∃ (s1 : FsState σ) (w : Nat), lcwrite env fuel s fh buf len = some (s1, (w : Int)) ∧
      (w : Int) = 256 * (((s.fileAt fh.toNat).blocks.length : Int) + (m : Int)) -
        (s.fileAt fh.toNat).cur_pos ∧
      w < len ∧
      (s1.fileAt fh.toNat).cur_pos = (s.fileAt fh.toNat).cur_pos + (w : Int) ∧
      (s1.fileAt fh.toNat).file_size =
        max (s.fileAt fh.toNat).file_size ((s.fileAt fh.toNat).cur_pos + (w : Int)) ∧
      (s1.fileAt fh.toNat).blocks.length = (s.fileAt fh.toNat).blocks.length + m + 1 := by
  obtain ⟨p, hp⟩ := Int.eq_ofNat_of_zero_le hpos.1
  have hidx : fh.toNat < s.files.length := by omega
  have hguard : ¬ (fh < 0 ∨ fh ≥ (s.files.length : Int)) := by omega
  rw [hp] at hblocks hrange
  have hpn : ((p : Int)).toNat = p := Int.toNat_ofNat p
  simp only [hp, hpn] at hm ⊢
  obtain ⟨sA, new, sB, hmany, hsB⟩ := exhaustedAfter_spec fuelA m s hex
  have hnewlen : new.length = m := allocMany_length fuelA m s sA new hmany
  obtain ⟨s1, l1, w, hrun, hw, hl1, hs1⟩ := lcwrite_loop_spec env fh.toNat len fuelA
    (by omega) fuel s { n := 0, tmp := env.tmp, buf := buf } p m sA new hidx hp
    (by rw [← hp]; exact hpos.2) (by exact_mod_cast hblocks) (Nat.zero_le _)
    (by simp only [Nat.sub_zero]; omega) hmany
    (by simp only [Nat.sub_zero]; omega)
    (by intro _; exact ⟨sB, hsB⟩) (by simp only [Nat.sub_zero]; omega)
  have hnot : ¬ blocksNeeded p len (s.fileAt fh.toNat).blocks.length ≤ m := by omega
  simp only [Nat.sub_zero, hnot, if_false, hm, if_true] at hw hs1
  simp only [Nat.zero_add] at hl1
  have hB : p ≤ 256 * (s.fileAt fh.toNat).blocks.length := by exact_mod_cast hblocks
  have hwlt : w < len := by
    unfold blocksNeeded at hm
    omega
  have hat := fileAt_of_files s s1 fh.toNat _ hs1 hidx
  refine ⟨s1, w, ?_, ?_, hwlt, ?_, ?_, ?_⟩
  · simp only [lcwrite, hguard, if_false, hopen, Bool.not_true, hrun, hl1]
    rw [toI32_small _ (by omega)]
    rfl
  · omega
  · rw [hat]; push_cast; rfl
  · rw [hat]; push_cast; rfl
  · rw [hat]
    simp only [List.length_append, List.length_singleton, hnewlen]

theorem lcwrite_partial_on_exhaustion_witness :
    ∃ (s1 : FsState Unit) (w : Nat),
      lcwrite acceptAll 617 demoState 0 (List.replicate 600 7) 600 = some (s1, (w : Int)) ∧
      (w : Int) = 256 * (((demoState.fileAt (0 : Int).toNat).blocks.length : Int) +
        ((0 : Nat) : Int)) - (demoState.fileAt (0 : Int).toNat).cur_pos ∧
      w < 600 ∧
      (s1.fileAt (0 : Int).toNat).cur_pos =
        (demoState.fileAt (0 : Int).toNat).cur_pos + (w : Int) ∧
      (s1.fileAt (0 : Int).toNat).file_size =
        max (demoState.fileAt (0 : Int).toNat).file_size
          ((demoState.fileAt (0 : Int).toNat).cur_pos + (w : Int)) ∧
      (s1.fileAt (0 : Int).toNat).blocks.length =
        (demoState.fileAt (0 : Int).toNat).blocks.length + 0 + 1 :=
  lcwrite_partial_on_exhaustion acceptAll demoState 0 (List.replicate 600 7) 600 17 617 0
    (by decide) rfl (by decide) (by decide) (by decide) (by decide) (by decide!) (by decide)

/-! ## The faithful block store behind the bus -/

/-- The fields of a block transfer request frame for a locator in range. -/
theorem xfer_frame_fields (op dir : Nat) (dev sec blk : Int) (hop : op ≤ 255) (hdir : dir ≤ 255)
    (h1 : 0 ≤ dev) (h2 : dev ≤ 255) (h3 : 0 ≤ sec) (h4 : sec ≤ 65535) (h5 : 0 ≤ blk)
    (h6 : blk ≤ 65535) :
    extract_lcloud_registers
        (create_lcloud_registers 0 0 (op : Int) dev (dir : Int) sec blk) =
      { b0 := 0, b1 := 0, c0 := (op : Int), c1 := dev, c2 := (dir : Int),
        d0 := sec, d1 := blk } := by
  obtain ⟨n3, rfl⟩ := Int.eq_ofNat_of_zero_le h1
  obtain ⟨n5, rfl⟩ := Int.eq_ofNat_of_zero_le h3
  obtain ⟨n6, rfl⟩ := Int.eq_ofNat_of_zero_le h5
  have k2 : op < 2 ^ 8 := by omega
  have k3 : n3 < 2 ^ 8 := by omega
  have k4 : dir < 2 ^ 8 := by omega
  have k5 : n5 < 2 ^ 16 := by omega
  have k6 : n6 < 2 ^ 16 := by omega
  have e := extract_create_nat 0 0 op n3 dir n5 n6 (by norm_num) (by norm_num) (by omega)
    (by omega) (by omega) (by omega) (by omega)
  simp only [Nat.cast_zero] at e
  rw [e]
  have z : ∀ (x k j : Nat), x < 2 ^ k → k ≤ j → x >>> j = 0 := by
    intro x k j hx hkj
    exact shr_zero_of_lt x j (lt_of_lt_of_le hx (Nat.pow_le_pow_right (by norm_num) hkj))
  simp only [z op 8 12 k2 (by norm_num), z op 8 8 k2 (by norm_num),
    z n3 8 20 k3 (by norm_num), z n3 8 16 k3 (by norm_num), z n3 8 8 k3 (by norm_num),
    z dir 8 28 k4 (by norm_num), z dir 8 24 k4 (by norm_num), z dir 8 16 k4 (by norm_num),
    z dir 8 8 k4 (by norm_num),
    z n5 16 44 k5 (by norm_num), z n5 16 40 k5 (by norm_num), z n5 16 32 k5 (by norm_num),
    z n5 16 24 k5 (by norm_num), z n5 16 16 k5 (by norm_num),
    z n6 16 60 k6 (by norm_num), z n6 16 56 k6 (by norm_num), z n6 16 48 k6 (by norm_num),
    z n6 16 40 k6 (by norm_num), z n6 16 32 k6 (by norm_num), z n6 16 16 k6 (by norm_num),
    Nat.or_zero, Nat.zero_or, Nat.zero_shiftRight, Nat.zero_mod, Nat.mod_eq_of_lt k2,
    Nat.mod_eq_of_lt k3, Nat.mod_eq_of_lt k4, Nat.mod_eq_of_lt k5, Nat.mod_eq_of_lt k6,
    Nat.cast_zero]

/-- A block read against the faithful store leaves the store alone and fills the buffer with
the bytes stored at the locator. -/
theorem store_io_read (mask sectors blocks : Int) (maxblocks : Nat) (s : FsState Store)
    (b : block) (hb : locatorInRange b) (buf : List Nat) :
    (lcloud_io_read (blockStore mask sectors blocks maxblocks) s b.device_id b.sector b.block
        buf).1 = s ∧
      (lcloud_io_read (blockStore mask sectors blocks maxblocks) s b.device_id b.sector b.block
        buf).2.2 = s.ctl.data b.device_id b.sector b.block := by
  have hf := xfer_frame_fields 3 1 b.device_id b.sector b.block (by norm_num) (by norm_num)
    hb.1 hb.2.1 hb.2.2.1 hb.2.2.2.1 hb.2.2.2.2.1 hb.2.2.2.2.2
  simp only [Nat.cast_ofNat, Nat.cast_one] at hf
  unfold lcloud_io_read
  simp only [blockStore, hf, if_true]
  constructor <;> first | rfl | trivial

/-- A block write against the faithful store stores the buffer at the locator and changes
nothing else. -/
theorem store_io_write (mask sectors blocks : Int) (maxblocks : Nat) (s : FsState Store)
    (b : block) (hb : locatorInRange b) (buf : List Nat) :
    (lcloud_io_write (blockStore mask sectors blocks maxblocks) s b.device_id b.sector b.block
        buf).1 = { s with ctl := s.ctl.write b.device_id b.sector b.block buf } := by
  have hf := xfer_frame_fields 3 0 b.device_id b.sector b.block (by norm_num) (by norm_num)
    hb.1 hb.2.1 hb.2.2.1 hb.2.2.2.1 hb.2.2.2.2.1 hb.2.2.2.2.2
  simp only [Nat.cast_ofNat, Nat.cast_zero] at hf
  unfold lcloud_io_write
  simp only [blockStore, hf, if_true]
  rfl

/-! ## Cache lookups under coherence -/

theorem getcache_scan_some (did : LcDeviceId) (sec blk : Nat) :
    ∀ (l : List storage) (i j : Nat), getcache_scan did sec blk l i = some j →
      i ≤ j ∧ ∃ e, l[j - i]? = some e ∧ e.did = did ∧ e.sec = sec ∧ e.blk = blk := by
  intro l
  induction l with
  | nil => intro i j h; simp [getcache_scan] at h
  | cons x rest ih =>
    intro i j h
    rw [getcache_scan] at h
    split_ifs at h with hx
    · simp only [Option.some.injEq] at h
      subst h
      exact ⟨le_refl _, x, by simp, hx⟩
    · obtain ⟨h1, e, he, hk⟩ := ih (i + 1) j h
      refine ⟨by omega, e, ?_, hk⟩
      have : j - i = (j - (i + 1)) + 1 := by omega
      rw [this, List.getElem?_cons_succ]
      exact he

theorem getcache_scan_none_imp (did : LcDeviceId) (sec blk : Nat) :
    ∀ (l : List storage) (i : Nat), getcache_scan did sec blk l i = none →
      ∀ e ∈ l, ¬ (e.did = did ∧ e.sec = sec ∧ e.blk = blk) := by
  intro l
  induction l with
  | nil => intro i _ e he; simp at he
  | cons x rest ih =>
    intro i h e he
    rw [getcache_scan] at h
    split_ifs at h with hx
    rcases List.mem_cons.mp he with rfl | hr
    · exact hx
    · exact ih (i + 1) h e hr

/-- A hit of `lcloud_getcache`: the line found carries the key, and the only change to the
cache lines is the recency value of that line. -/
theorem getcache_hit (c : CacheState) (did : LcDeviceId) (sec blk j : Nat)
    (h : (lcloud_getcache c did sec blk).2 = some j) :
    ∃ cache e, c.cache = some cache ∧ cache[j]? = some e ∧
      e.did = did ∧ e.sec = sec ∧ e.blk = blk ∧
      (lcloud_getcache c did sec blk).1.cache = some (cache.set j { e with lru := c.lru }) := by
  unfold lcloud_getcache at h ⊢
  cases hc : c.cache with
  | none => simp [hc] at h
  | some cache =>
    simp only [hc] at h ⊢
    cases hs : getcache_scan did sec blk cache 0 with
    | none => simp [hs] at h
    | some k =>
      simp only [hs, Option.some.injEq] at h ⊢
      subst h
      obtain ⟨_, e, he, hk⟩ := getcache_scan_some did sec blk cache 0 k hs
      simp only [Nat.sub_zero] at he
      refine ⟨cache, e, rfl, he, hk.1, hk.2.1, hk.2.2, ?_⟩
      simp [List.getD_eq_getElem?_getD, he]

/-- A miss of `lcloud_getcache`: the key is not resident and the cache lines are unchanged. -/
theorem getcache_miss (c : CacheState) (did : LcDeviceId) (sec blk : Nat)
    (h : (lcloud_getcache c did sec blk).2 = none) :
    ¬ c.resident did sec blk ∧ (lcloud_getcache c did sec blk).1.cache = c.cache ∧
      (lcloud_getcache c did sec blk).1.lru = c.lru := by
  unfold lcloud_getcache at h ⊢
  cases hc : c.cache with
  | none =>
    simp only [hc]
    refine ⟨?_, trivial, trivial⟩
    rintro ⟨e, he, _⟩
    simp [CacheState.lines, hc] at he
  | some cache =>
    simp only [hc] at h ⊢
    cases hs : getcache_scan did sec blk cache 0 with
    | some k => simp [hs] at h
    | none =>
      simp only [hs]
      refine ⟨?_, trivial, trivial⟩
      rintro ⟨e, he, hk⟩
      simp only [CacheState.lines, hc, Option.getD_some] at he
      exact getcache_scan_none_imp did sec blk cache 0 hs e he hk

theorem coherent_of_lines (c1 c2 : CacheState) (st : Store) (h : coherent c1 st)
    (hl : ∀ e ∈ c2.lines, ∃ e0 ∈ c1.lines, e0.did = e.did ∧ e0.sec = e.sec ∧ e0.blk = e.blk ∧
      e0.data = e.data) : coherent c2 st := by
  intro e he hocc
  obtain ⟨e0, he0, k1, k2, k3, k4⟩ := hl e he
  rw [← k4, ← k1, ← k2, ← k3]
  exact h e0 he0 (by rw [k1]; exact hocc)

/-- A lookup keeps the cache coherent with the store. -/
theorem coherent_getcache (c : CacheState) (st : Store) (did : LcDeviceId) (sec blk : Nat)
    (h : coherent c st) : coherent (lcloud_getcache c did sec blk).1 st := by
  cases hg : (lcloud_getcache c did sec blk).2 with
  | none =>
    obtain ⟨_, hc, _⟩ := getcache_miss c did sec blk hg
    intro e he
    apply h e
    simpa [CacheState.lines, hc] using he
  | some j =>
    obtain ⟨cache, e0, hc, he0, _, _, _, hnew⟩ := getcache_hit c did sec blk j hg
    apply coherent_of_lines c _ st h
    intro e he
    simp only [CacheState.lines, hnew, Option.getD_some] at he
    obtain ⟨i, hi⟩ := List.mem_iff_getElem?.mp he
    rw [List.getElem?_set] at hi
    by_cases hji : j = i
    · subst hji
      simp only [if_true] at hi
      split_ifs at hi
      simp only [Option.some.injEq] at hi
      subst hi
      exact ⟨e0, by simpa [CacheState.lines, hc] using List.getElem?_mem he0, rfl, rfl, rfl, rfl⟩
    · simp only [hji, if_false] at hi
      exact ⟨e, by simpa [CacheState.lines, hc] using List.getElem?_mem hi, rfl, rfl, rfl, rfl⟩

/-- The payload behind a hit is what the store holds at the key. -/
theorem getcache_hit_data (c : CacheState) (st : Store) (did : LcDeviceId) (sec blk j : Nat)
    (hcoh : coherent c st) (hocc : did ≠ -1)
    (h : (lcloud_getcache c did sec blk).2 = some j) :
    (lcloud_getcache c did sec blk).1.data j = st.data did (sec : Int) (blk : Int) := by
  obtain ⟨cache, e, hc, he, k1, k2, k3, hnew⟩ := getcache_hit c did sec blk j h
  have hj : j < cache.length := (List.getElem?_eq_some_iff.mp he).1
  have hd := hcoh e (by simpa [CacheState.lines, hc] using List.getElem?_mem he)
    (by rw [k1]; exact hocc)
  rw [k1, k2, k3] at hd
  simp only [CacheState.data, hnew, List.getD_eq_getElem?_getD, List.getElem?_set, if_true, hj,
    Option.getD_some]
  exact hd

theorem lines_setData (c : CacheState) (j : Nat) (data : List Nat) (i : Nat) (a : storage)
    (h : (c.setData j data).lines[i]? = some a) :
    ∃ a0, c.lines[i]? = some a0 ∧ a0.did = a.did ∧ a0.sec = a.sec ∧ a0.blk = a.blk ∧
      a.data = if i = j then data else a0.data := by
  unfold CacheState.setData at h
  cases hc : c.cache with
  | none => simp [hc, CacheState.lines] at h
  | some cache =>
    simp only [hc, CacheState.lines, Option.getD_some, List.getElem?_set] at h ⊢
    by_cases hji : j = i
    · subst hji
      simp only [if_true] at h ⊢
      split_ifs at h with hl
      simp only [Option.some.injEq] at h
      subst h
      refine ⟨cache[j], List.getElem?_eq_getElem hl, ?_⟩
      simp [List.getD_eq_getElem?_getD, List.getElem?_eq_getElem hl]
    · simp only [hji, if_false] at h
      have hij : ¬ i = j := fun e => hji e.symm
      exact ⟨a, h, rfl, rfl, rfl, by simp only [hij, if_false]⟩

/-- Overwriting the payload of a line keeps the keys unique. -/
theorem uniqueKeys_setData (c : CacheState) (j : Nat) (data : List Nat) (h : c.uniqueKeys) :
    (c.setData j data).uniqueKeys := by
  rw [uniqueKeys_iff] at h ⊢
  intro i k a b ha hb hne hc
  obtain ⟨a0, ha0, a1, a2, a3, _⟩ := lines_setData c j data i a ha
  obtain ⟨b0, hb0, b1, b2, b3, _⟩ := lines_setData c j data k b hb
  apply h i k a0 b0 ha0 hb0 hne
  obtain ⟨c1, c2, c3, c4⟩ := hc
  exact ⟨by rw [a1]; exact c1, by rw [a1, b1]; exact c2, by rw [a2, b2]; exact c3,
    by rw [a3, b3]; exact c4⟩

/-- Overwriting the payload of the line of a key, while the store takes the same bytes at that
key, keeps the cache coherent when keys are unique. -/
theorem coherent_setData (c : CacheState) (st st1 : Store) (j : Nat) (e : storage)
    (did : LcDeviceId) (sec blk : Nat) (data : List Nat)
    (hcoh : coherent c st) (huniq : c.uniqueKeys) (hj : c.lines[j]? = some e)
    (hk : e.did = did ∧ e.sec = sec ∧ e.blk = blk) (hocc : did ≠ -1)
    (hdata : data = st1.data did (sec : Int) (blk : Int))
    (hother : ∀ d s b, ¬ (d = did ∧ s = (sec : Int) ∧ b = (blk : Int)) →
      st1.data d s b = st.data d s b) :
    coherent (c.setData j data) st1 := by
  rw [uniqueKeys_iff] at huniq
  intro a ha hao
  obtain ⟨i, hi⟩ := List.mem_iff_getElem?.mp ha
  obtain ⟨a0, ha0, a1, a2, a3, a4⟩ := lines_setData c j data i a hi
  by_cases hij : i = j
  · subst hij
    rw [hj] at ha0
    simp only [Option.some.injEq] at ha0
    subst ha0
    simp only [if_true] at a4
    rw [a4, ← a1, ← a2, ← a3, hk.1, hk.2.1, hk.2.2]
    exact hdata
  · simp only [hij, if_false] at a4
    have hne : ¬ (a.did = did ∧ (a.sec : Int) = (sec : Int) ∧ (a.blk : Int) = (blk : Int)) := by
      rintro ⟨k1, k2, k3⟩
      have k2n : a.sec = sec := by exact_mod_cast k2
      have k3n : a.blk = blk := by exact_mod_cast k3
      apply huniq i j a0 e ha0 hj hij
      exact ⟨by rw [a1]; exact hao, by rw [a1, k1, hk.1], by rw [a2, k2n, hk.2.1],
        by rw [a3, k3n, hk.2.2]⟩
    rw [a4, hother _ _ _ hne, ← a1, ← a2, ← a3]
    exact hcoh a0 (List.getElem?_mem ha0) (by rw [a1]; exact hao)

/-- Inserting a key that is not resident, while the store holds the same bytes at that key,
keeps the cache coherent. -/
theorem coherent_putcache (c : CacheState) (st st1 : Store) (did : LcDeviceId) (sec blk : Nat)
    (data : List Nat) (hcoh : coherent c st) (hnot : ¬ c.resident did sec blk)
    (hdata : data.take LC_DEVICE_BLOCK_SIZE = st1.data did (sec : Int) (blk : Int))
    (hother : ∀ d s b, ¬ (d = did ∧ s = (sec : Int) ∧ b = (blk : Int)) →
      st1.data d s b = st.data d s b) :
    coherent (lcloud_putcache c did sec blk data).1 st1 := by
  intro a ha hao
  unfold lcloud_putcache at ha
  cases hc : c.cache with
  | none =>
    simp only [hc] at ha
    simp [CacheState.lines, hc] at ha
  | some cache =>
    simp only [hc, CacheState.lines, Option.getD_some] at ha
    obtain ⟨i, hi⟩ := List.mem_iff_getElem?.mp ha
    rw [List.getElem?_set] at hi
    by_cases hv : (putcache_scan cache c.lru cache 0 (-1)).toNat = i
    · simp only [hv, if_true] at hi
      split_ifs at hi
      simp only [Option.some.injEq] at hi
      subst hi
      exact hdata
    · simp only [hv, if_false] at hi
      have hmem : a ∈ c.lines := by
        simpa [CacheState.lines, hc] using List.getElem?_mem hi
      have hne : ¬ (a.did = did ∧ (a.sec : Int) = (sec : Int) ∧ (a.blk : Int) = (blk : Int)) := by
        rintro ⟨k1, k2, k3⟩
        exact hnot ⟨a, hmem, k1, by exact_mod_cast k2, by exact_mod_cast k3⟩
      rw [hother _ _ _ hne]
      exact hcoh a hmem hao

/-! ## One transfer against the faithful block store -/

theorem toU16_small (x : Int) (h0 : 0 ≤ x) (h1 : x ≤ 65535) : ((toU16 x : Nat) : Int) = x := by
  unfold toU16
  have e : x % 2 ^ 16 = x := Int.emod_eq_of_lt h0 (by omega)
  rw [e]
  exact Int.toNat_of_nonneg h0

theorem length_memcpy (dst src : List Nat) (off soff n : Nat) (h1 : off + n ≤ dst.length)
    (h2 : soff + n ≤ src.length) : (memcpy dst off src soff n).length = dst.length := by
  unfold memcpy
  simp only [List.length_append, List.length_take, List.length_drop]
  omega

theorem blockOf_eq (l : List Nat) (h : l.length = LC_DEVICE_BLOCK_SIZE) : blockOf l = l := by
  unfold blockOf
  rw [List.take_append_of_le_length (le_of_eq h.symm), List.take_of_length_le (le_of_eq h)]

theorem store_write_same (st : Store) (d s b : Int) (buf : List Nat) :
    (st.write d s b buf).data d s b = blockOf buf := by
  simp [Store.write]

theorem store_write_other (st : Store) (d s b : Int) (buf : List Nat) (d1 s1 b1 : Int)
    (h : ¬ (d1 = d ∧ s1 = s ∧ b1 = b)) : (st.write d s b buf).data d1 s1 b1 = st.data d1 s1 b1 := by
  simp only [Store.write, h, if_false]

theorem resident_congr (c1 c2 : CacheState) (h : c1.cache = c2.cache) (did : LcDeviceId)
    (sec blk : Nat) : c1.resident did sec blk ↔ c2.resident did sec blk := by
  unfold CacheState.resident CacheState.lines
  rw [h]

/-- The transfer part of a pass of `lcwrite` against the faithful store, for a locator in range
and a cache that is coherent with unique keys: the store takes, at the locator, its old bytes
with the `n` bytes of the chunk put in at offset `begin`; nothing else in the store changes,
and the cache stays coherent with unique keys. -/
theorem lcwrite_xfer_store (mask sectors blocks : Int) (maxblocks : Nat) (s : FsState Store)
    (fh begin n : Nat) (i : Int) (l : Locals)
    (hb : locatorInRange ((s.fileAt fh).blockAt (blockStore mask sectors blocks maxblocks) i))
    (hcoh : coherent s.cache s.ctl) (huniq : s.cache.uniqueKeys)
    (hbn : begin + n ≤ LC_DEVICE_BLOCK_SIZE) (hbuf : l.n + n ≤ l.buf.length) :
    (lcwrite_xfer (blockStore mask sectors blocks maxblocks) fh begin n i s l).1.ctl =
        s.ctl.write
          ((s.fileAt fh).blockAt (blockStore mask sectors blocks maxblocks) i).device_id
          ((s.fileAt fh).blockAt (blockStore mask sectors blocks maxblocks) i).sector
          ((s.fileAt fh).blockAt (blockStore mask sectors blocks maxblocks) i).block
          (memcpy (s.ctl.data
            ((s.fileAt fh).blockAt (blockStore mask sectors blocks maxblocks) i).device_id
            ((s.fileAt fh).blockAt (blockStore mask sectors blocks maxblocks) i).sector
            ((s.fileAt fh).blockAt (blockStore mask sectors blocks maxblocks) i).block)
            begin l.buf l.n n) ∧
      coherent (lcwrite_xfer (blockStore mask sectors blocks maxblocks) fh begin n i s l).1.cache
        (lcwrite_xfer (blockStore mask sectors blocks maxblocks) fh begin n i s l).1.ctl ∧
      (lcwrite_xfer (blockStore mask sectors blocks maxblocks) fh begin n i s l).1.cache.uniqueKeys
    := by
  generalize hbdef : (s.fileAt fh).blockAt (blockStore mask sectors blocks maxblocks) i = b at hb ⊢
  obtain ⟨r1, r2, r3, r4, r5, r6⟩ := hb
  have hocc : b.device_id ≠ -1 := by omega
  have hsec := toU16_small b.sector r3 r4
  have hblk := toU16_small b.block r5 r6
  have hbr : locatorInRange b := ⟨r1, r2, r3, r4, r5, r6⟩
  have hnewlen : (memcpy (s.ctl.data b.device_id b.sector b.block) begin l.buf l.n n).length =
      LC_DEVICE_BLOCK_SIZE := by
    rw [length_memcpy _ _ _ _ _ (by rw [s.ctl.wf]; exact hbn) hbuf, s.ctl.wf]
  have hother : ∀ d1 s1 b1 : Int,
      ¬ (d1 = b.device_id ∧ s1 = ((toU16 b.sector : Nat) : Int) ∧
        b1 = ((toU16 b.block : Nat) : Int)) →
      (s.ctl.write b.device_id b.sector b.block
        (memcpy (s.ctl.data b.device_id b.sector b.block) begin l.buf l.n n)).data d1 s1 b1 =
        s.ctl.data d1 s1 b1 := by
    intro d1 s1 b1 h
    rw [hsec, hblk] at h
    exact store_write_other _ _ _ _ _ _ _ _ h
  have hsame : (s.ctl.write b.device_id b.sector b.block
      (memcpy (s.ctl.data b.device_id b.sector b.block) begin l.buf l.n n)).data b.device_id
        ((toU16 b.sector : Nat) : Int) ((toU16 b.block : Nat) : Int) =
      memcpy (s.ctl.data b.device_id b.sector b.block) begin l.buf l.n n := by
    rw [hsec, hblk, store_write_same, blockOf_eq _ hnewlen]
  unfold lcwrite_xfer
  dsimp only
  rw [hbdef]
  split
  · next j hg =>
    have hd := getcache_hit_data s.cache s.ctl b.device_id (toU16 b.sector) (toU16 b.block) j
      hcoh hocc hg
    rw [hsec, hblk] at hd
    obtain ⟨cache, e, hc, he, k1, k2, k3, hnew⟩ := getcache_hit s.cache b.device_id
      (toU16 b.sector) (toU16 b.block) j hg
    have hj : j < cache.length := (List.getElem?_eq_some_iff.mp he).1
    have hline : (lcloud_getcache s.cache b.device_id (toU16 b.sector) (toU16 b.block)).1.lines[j]?
        = some { e with lru := s.cache.lru } := by
      simp only [CacheState.lines, hnew, Option.getD_some, List.getElem?_set, if_true, hj]
    simp only [hd]
    rw [(store_io_write mask sectors blocks maxblocks _ b hbr _)]
    refine ⟨rfl, ?_, ?_⟩
    · exact coherent_setData _ s.ctl _ j _ b.device_id (toU16 b.sector) (toU16 b.block) _
        (coherent_getcache _ _ _ _ _ hcoh) (uniqueKeys_getcache _ _ _ _ huniq) hline
        ⟨k1, k2, k3⟩ hocc hsame.symm hother
    · exact uniqueKeys_setData _ _ _ (uniqueKeys_getcache _ _ _ _ huniq)
  · next hg =>
    obtain ⟨hnot, hcache, _⟩ := getcache_miss s.cache b.device_id (toU16 b.sector)
      (toU16 b.block) hg
    have hnot2 : ¬ (lcloud_getcache s.cache b.device_id (toU16 b.sector)
        (toU16 b.block)).1.resident b.device_id (toU16 b.sector) (toU16 b.block) := by
      rw [resident_congr _ _ hcache]; exact hnot
    obtain ⟨hrd1, hrd2⟩ := store_io_read mask sectors blocks maxblocks
      { s with cache := (lcloud_getcache s.cache b.device_id (toU16 b.sector)
        (toU16 b.block)).1 } b hbr l.tmp
    simp only [hrd1, hrd2]
    rw [(store_io_write mask sectors blocks maxblocks _ b hbr _)]
    refine ⟨rfl, ?_, ?_⟩
    · exact coherent_putcache _ s.ctl _ b.device_id (toU16 b.sector) (toU16 b.block) _
        (coherent_getcache _ _ _ _ _ hcoh) hnot2
        ((List.take_of_length_le (le_of_eq hnewlen)).trans hsame.symm) hother
    · exact uniqueKeys_putcache _ _ _ _ _ (uniqueKeys_getcache _ _ _ _ huniq) hnot2

theorem ctl_setFile {σ : Type} (s : FsState σ) (i : Nat) (f : file) :
    (s.setFile i f).ctl = s.ctl := rfl

theorem cache_setFile {σ : Type} (s : FsState σ) (i : Nat) (f : file) :
    (s.setFile i f).cache = s.cache := rfl

/-- One pass of the loop of `lcread` against the faithful store, for a locator in range and a
coherent cache with unique keys: the chunk copied into `buf` comes from what the store holds at
the locator, whether the lookup hits or misses; the store is unchanged and the cache stays
coherent with unique keys. -/
theorem lcread_body_store (mask sectors blocks : Int) (maxblocks : Nat) (s : FsState Store)
    (fh len : Nat) (l : Locals)
    (hb : locatorInRange ((s.fileAt fh).blockAt (blockStore mask sectors blocks maxblocks)
      ((s.fileAt fh).cur_pos.tdiv (LC_DEVICE_BLOCK_SIZE : Int))))
    (hcoh : coherent s.cache s.ctl) (huniq : s.cache.uniqueKeys) :
    (lcread_body (blockStore mask sectors blocks maxblocks) fh len s l).2.buf =
        memcpy l.buf l.n
          (s.ctl.data
            ((s.fileAt fh).blockAt (blockStore mask sectors blocks maxblocks)
              ((s.fileAt fh).cur_pos.tdiv (LC_DEVICE_BLOCK_SIZE : Int))).device_id
            ((s.fileAt fh).blockAt (blockStore mask sectors blocks maxblocks)
              ((s.fileAt fh).cur_pos.tdiv (LC_DEVICE_BLOCK_SIZE : Int))).sector
            ((s.fileAt fh).blockAt (blockStore mask sectors blocks maxblocks)
              ((s.fileAt fh).cur_pos.tdiv (LC_DEVICE_BLOCK_SIZE : Int))).block)
          (toU32 ((s.fileAt fh).cur_pos.tmod (LC_DEVICE_BLOCK_SIZE : Int)))
          (chunk_len (toU32 ((s.fileAt fh).cur_pos.tmod (LC_DEVICE_BLOCK_SIZE : Int)))
            (len - l.n)) ∧
      (lcread_body (blockStore mask sectors blocks maxblocks) fh len s l).1.ctl = s.ctl ∧
      coherent (lcread_body (blockStore mask sectors blocks maxblocks) fh len s l).1.cache s.ctl ∧
      (lcread_body (blockStore mask sectors blocks maxblocks) fh len s l).1.cache.uniqueKeys := by
  generalize hbdef : (s.fileAt fh).blockAt (blockStore mask sectors blocks maxblocks)
    ((s.fileAt fh).cur_pos.tdiv (LC_DEVICE_BLOCK_SIZE : Int)) = b at hb ⊢
  obtain ⟨r1, r2, r3, r4, r5, r6⟩ := hb
  have hocc : b.device_id ≠ -1 := by omega
  have hsec := toU16_small b.sector r3 r4
  have hblk := toU16_small b.block r5 r6
  have hbr : locatorInRange b := ⟨r1, r2, r3, r4, r5, r6⟩
  unfold lcread_body
  dsimp only
  rw [hbdef]
  split
  · next j hg =>
    have hd := getcache_hit_data s.cache s.ctl b.device_id (toU16 b.sector) (toU16 b.block) j
      hcoh hocc hg
    rw [hsec, hblk] at hd
    simp only [hd, ctl_setFile, cache_setFile]
    exact ⟨trivial, trivial, coherent_getcache _ _ _ _ _ hcoh, uniqueKeys_getcache _ _ _ _ huniq⟩
  · next hg =>
    obtain ⟨hnot, hcache, _⟩ := getcache_miss s.cache b.device_id (toU16 b.sector)
      (toU16 b.block) hg
    have hnot2 : ¬ (lcloud_getcache s.cache b.device_id (toU16 b.sector)
        (toU16 b.block)).1.resident b.device_id (toU16 b.sector) (toU16 b.block) := by
      rw [resident_congr _ _ hcache]; exact hnot
    obtain ⟨hrd1, hrd2⟩ := store_io_read mask sectors blocks maxblocks
      { s with cache := (lcloud_getcache s.cache b.device_id (toU16 b.sector)
        (toU16 b.block)).1 } b hbr l.tmp
    generalize lcloud_io_read (blockStore mask sectors blocks maxblocks)
      { s with cache := (lcloud_getcache s.cache b.device_id (toU16 b.sector)
        (toU16 b.block)).1 } b.device_id b.sector b.block l.tmp = rd at hrd1 hrd2 ⊢
    obtain ⟨rs, rok, rbuf⟩ := rd
    dsimp only at hrd1 hrd2
    subst hrd1
    subst hrd2
    simp only [ctl_setFile, cache_setFile]
    refine ⟨trivial, trivial, ?_, ?_⟩
    · refine coherent_putcache _ s.ctl s.ctl b.device_id (toU16 b.sector) (toU16 b.block) _
        (coherent_getcache _ _ _ _ _ hcoh) hnot2 ?_ (fun _ _ _ _ => rfl)
      rw [hsec, hblk]
      exact List.take_of_length_le (le_of_eq (s.ctl.wf _ _ _))
    · exact uniqueKeys_putcache _ _ _ _ _ (uniqueKeys_getcache _ _ _ _ huniq) hnot2

/-! ## Writes and reads inside one allocated block -/

theorem lcwrite_loop_done {σ : Type} (env : Env σ) (fh len fuel : Nat) (s : FsState σ)
    (l : Locals) (h : ¬ l.n < len) : lcwrite_loop env fh len fuel s l = some (s, l) := by
  cases fuel <;> simp [lcwrite_loop, h]

theorem lcread_loop_done {σ : Type} (env : Env σ) (fh len fuel : Nat) (s : FsState σ)
    (l : Locals) (h : ¬ l.n < len) : lcread_loop env fh len fuel s l = some (s, l) := by
  cases fuel <;> simp [lcread_loop, h]

theorem lcwrite_open {σ : Type} (env : Env σ) (fuel : Nat) (s : FsState σ) (fh : Nat)
    (buf : List Nat) (len : Nat) (hfh : fh < s.files.length)
    (hopen : (s.fileAt fh).is_open = true) :
    lcwrite env fuel s (fh : Int) buf len =
      match lcwrite_loop env fh len fuel s { n := 0, tmp := env.tmp, buf := buf } with
      | none => none
      | some r => some (r.1, toI32 r.2.n) := by
  have hguard : ¬ ((fh : Int) < 0 ∨ (fh : Int) ≥ (s.files.length : Int)) := by omega
  unfold lcwrite
  rw [if_neg hguard]
  simp only [Int.toNat_ofNat, hopen, Bool.not_true, Bool.false_eq_true, if_false]

theorem lcread_open {σ : Type} (env : Env σ) (fuel : Nat) (s : FsState σ) (fh : Nat)
    (buf : List Nat) (len : Nat) (hfh : fh < s.files.length)
    (hopen : (s.fileAt fh).is_open = true)
    (hleft : len ≤ toU64 ((s.fileAt fh).file_size - (s.fileAt fh).cur_pos)) :
    lcread env fuel s (fh : Int) buf len =
      match lcread_loop env fh len fuel s { n := 0, tmp := env.tmp, buf := buf } with
      | none => none
      | some r => some (r.1, toI32 r.2.n, r.2.buf) := by
  have hguard : ¬ ((fh : Int) < 0 ∨ (fh : Int) ≥ (s.files.length : Int)) := by omega
  unfold lcread
  rw [if_neg hguard]
  simp only [Int.toNat_ofNat, hopen, Bool.not_true, Bool.false_eq_true, if_false,
    if_neg (not_lt.mpr hleft)]

theorem blockAt_of_getElem {σ : Type} (env : Env σ) (f : file) (i : Nat) (b : block)
    (h : f.blocks[i]? = some b) : f.blockAt env (i : Int) = b := by
  unfold file.blockAt
  rw [if_pos (by omega)]
  simp [List.getD_eq_getElem?_getD, h]

theorem pos_split (i o : Nat) (ho : o < 256) :
    ((256 * i + o : Nat) : Int).tdiv (LC_DEVICE_BLOCK_SIZE : Int) = (i : Int) ∧
      toU32 (((256 * i + o : Nat) : Int).tmod (LC_DEVICE_BLOCK_SIZE : Int)) = o := by
  unfold LC_DEVICE_BLOCK_SIZE
  constructor
  · rw [← Int.ofNat_tdiv]
    congr 1
    omega
  · rw [← Int.ofNat_tmod, toU32_natCast _ (by omega)]
    omega

theorem memcpy_eq_patched (old buf : List Nat) (o n : Nat) (hbuf : n ≤ buf.length) :
    memcpy old o buf 0 n = patched old o (buf.take n) := by
  unfold memcpy patched
  simp only [List.drop_zero, List.length_take, min_eq_left hbuf]

theorem length_patched (old buf : List Nat) (o : Nat) (h : o + buf.length ≤ old.length) :
    (patched old o buf).length = old.length := by
  unfold patched
  simp only [List.length_append, List.length_take, List.length_drop]
  omega

theorem patched_nil (old : List Nat) (o : Nat) : patched old o [] = old := by
  unfold patched
  simp

/-- A write of `n` bytes that stays inside the allocated block `i` of an open file, against the
faithful store: one pass of the loop; the store takes the old bytes of the block with the `n`
bytes put in at offset `o`, nothing else in the store changes, and the cache stays coherent
with unique keys. -/
theorem lcwrite_within_block (mask sectors blocks : Int) (maxblocks : Nat) (t : FsState Store)
    (fh i o n fuel : Nat) (buf : List Nat) (b : block)
    (hfh : fh < t.files.length) (hopen : (t.fileAt fh).is_open = true)
    (hpos : (t.fileAt fh).cur_pos = ((256 * i + o : Nat) : Int))
    (hwithin : ((256 * i + o : Nat) : Int) ≤ (t.fileAt fh).file_size)
    (hb : (t.fileAt fh).blocks[i]? = some b) (hloc : locatorInRange b)
    (hon : o + n ≤ 256) (hend : 256 * i + o + n < 2 ^ 31) (hbuf : n ≤ buf.length)
    (hcoh : coherent t.cache t.ctl) (huniq : t.cache.uniqueKeys) (hfuel : 1 ≤ fuel) :
    ∃ t1 : FsState Store,
      lcwrite (blockStore mask sectors blocks maxblocks) fuel t (fh : Int) buf n =
          some (t1, (n : Int)) ∧
        t1.ctl.data b.device_id b.sector b.block =
          patched (t.ctl.data b.device_id b.sector b.block) o (buf.take n) ∧
        (∀ d x y : Int, ¬ (d = b.device_id ∧ x = b.sector ∧ y = b.block) →
          t1.ctl.data d x y = t.ctl.data d x y) ∧
        t1.files = t.files.set fh { t.fileAt fh with
          cur_pos := ((256 * i + o + n : Nat) : Int)
          file_size := max (t.fileAt fh).file_size ((256 * i + o + n : Nat) : Int) } ∧
        coherent t1.cache t1.ctl ∧ t1.cache.uniqueKeys := by
  have hi : i < (t.fileAt fh).blocks.length := (List.getElem?_eq_some_iff.mp hb).1
  have hblk := blockAt_of_getElem (blockStore mask sectors blocks maxblocks) _ i b hb
  rw [lcwrite_open _ _ _ _ _ _ hfh hopen]
  by_cases hn0 : n = 0
  · subst hn0
    rw [lcwrite_loop_done _ _ _ _ _ _ (by simp)]
    refine ⟨t, rfl, ?_, fun _ _ _ _ => rfl, ?_, hcoh, huniq⟩
    · rw [List.take_zero, patched_nil]
    · rw [Nat.add_zero, max_eq_left hwithin, ← hpos]
      exact (set_getD_self _ t.files fh hfh).symm
  · have ho : o < 256 := by omega
    obtain ⟨k, rfl⟩ : ∃ k, fuel = k + 1 := ⟨fuel - 1, by omega⟩
    obtain ⟨hidx, hbegin⟩ := pos_split i o ho
    have hchunk : chunk_len o (n - 0) = n := by
      have h := chunk_len_eq (256 * i + o) n (by omega)
      have e : (256 * i + o) % 256 = o := by omega
      rw [e] at h
      rw [Nat.sub_zero, h]
      omega
    have hne : (i : Int) ≠ ((t.fileAt fh).blocks.length : Int) := by omega
    have hbody : lcwrite_body (blockStore mask sectors blocks maxblocks) k fh n t
        { n := 0, tmp := (blockStore mask sectors blocks maxblocks).tmp, buf := buf } =
        some ((lcwrite_xfer (blockStore mask sectors blocks maxblocks) fh o n (i : Int) t
          { n := 0, tmp := (blockStore mask sectors blocks maxblocks).tmp, buf := buf }).1,
          (lcwrite_xfer (blockStore mask sectors blocks maxblocks) fh o n (i : Int) t
          { n := 0, tmp := (blockStore mask sectors blocks maxblocks).tmp, buf := buf }).2,
          true) := by
      unfold lcwrite_body
      simp only [hpos, hidx, hbegin, hchunk]
      rw [lcwrite_alloc_skip _ _ _ _ _ hne]
    obtain ⟨hctl, hcoh1, huniq1⟩ := lcwrite_xfer_store mask sectors blocks maxblocks t fh o n
      (i : Int) { n := 0, tmp := (blockStore mask sectors blocks maxblocks).tmp, buf := buf }
      (by rw [hblk]; exact hloc) hcoh huniq hon (by simpa using hbuf)
    obtain ⟨hfiles, _, _, hcount, _⟩ := lcwrite_xfer_spec
      (blockStore mask sectors blocks maxblocks) fh n o (i : Int) t
      { n := 0, tmp := (blockStore mask sectors blocks maxblocks).tmp, buf := buf }
      (256 * i + o) hpos hend (by simp; omega)
    rw [hblk] at hctl
    rw [lcwrite_loop, if_pos (by simpa using Nat.pos_of_ne_zero hn0)]
    simp only [hbody]
    rw [lcwrite_loop_done _ _ _ _ _ _ (by rw [hcount]; simp)]
    refine ⟨_, ?_, ?_, ?_, hfiles, hcoh1, huniq1⟩
    · simp only [hcount, Nat.zero_add, toI32_small n (by omega)]
    · rw [hctl, store_write_same, memcpy_eq_patched _ _ _ _ hbuf, blockOf_eq]
      rw [length_patched _ _ _ (by
        rw [List.length_take, min_eq_left hbuf, t.ctl.wf]; exact hon), t.ctl.wf]
    · intro d x y hxy
      rw [hctl]
      exact store_write_other _ _ _ _ _ _ _ _ hxy

/-- A read of `n` bytes that stays inside the allocated block `i` of an open file and inside the
file, against the faithful store: one pass of the loop returns `n` and copies bytes
`o .. o+n-1` of what the store holds at the locator, from the cache or from the controller;
the store is unchanged and the cache stays coherent with unique keys. -/
theorem lcread_within_block (mask sectors blocks : Int) (maxblocks : Nat) (t : FsState Store)
    (fh i o n fuel : Nat) (out : List Nat) (b : block)
    (hfh : fh < t.files.length) (hopen : (t.fileAt fh).is_open = true)
    (hpos : (t.fileAt fh).cur_pos = ((256 * i + o : Nat) : Int))
    (hsize : ((256 * i + o + n : Nat) : Int) ≤ (t.fileAt fh).file_size)
    (hsz : (t.fileAt fh).file_size < 2 ^ 31)
    (hb : (t.fileAt fh).blocks[i]? = some b) (hloc : locatorInRange b)
    (hon : o + n ≤ 256)
    (hcoh : coherent t.cache t.ctl) (huniq : t.cache.uniqueKeys) (hfuel : 1 ≤ fuel) :
    ∃ t1 : FsState Store,
      lcread (blockStore mask sectors blocks maxblocks) fuel t (fh : Int) out n =
          some (t1, (n : Int), memcpy out 0 (t.ctl.data b.device_id b.sector b.block) o n) ∧
        t1.ctl = t.ctl ∧
        t1.files = t.files.set fh { t.fileAt fh with
          cur_pos := ((256 * i + o + n : Nat) : Int) } ∧
        coherent t1.cache t1.ctl ∧ t1.cache.uniqueKeys := by
  have hblk := blockAt_of_getElem (blockStore mask sectors blocks maxblocks) _ i b hb
  have hleft : n ≤ toU64 ((t.fileAt fh).file_size - (t.fileAt fh).cur_pos) := by
    rw [toU64_small _ (by rw [hpos]; push_cast at hsize ⊢; omega) (by rw [hpos]; omega)]
    rw [hpos]
    push_cast at hsize ⊢
    omega
  rw [lcread_open _ _ _ _ _ _ hfh hopen hleft]
  by_cases hn0 : n = 0
  · subst hn0
    rw [lcread_loop_done _ _ _ _ _ _ (by simp)]
    refine ⟨t, ?_, rfl, ?_, hcoh, huniq⟩
    · simp [memcpy, toI32]
    · rw [Nat.add_zero, ← hpos]
      exact (set_getD_self _ t.files fh hfh).symm
  · have ho : o < 256 := by omega
    obtain ⟨k, rfl⟩ : ∃ k, fuel = k + 1 := ⟨fuel - 1, by omega⟩
    obtain ⟨hidx, hbegin⟩ := pos_split i o ho
    have hchunk : chunk_len o (n - 0) = n := by
      have h := chunk_len_eq (256 * i + o) n (by push_cast at hsize; omega)
      have e : (256 * i + o) % 256 = o := by omega
      rw [e] at h
      rw [Nat.sub_zero, h]
      omega
    have hn31 : n < 2 ^ 31 := by omega
    obtain ⟨hbufr, hctl, hcoh1, huniq1⟩ := lcread_body_store mask sectors blocks maxblocks t fh n
      { n := 0, tmp := (blockStore mask sectors blocks maxblocks).tmp, buf := out }
      (by rw [hpos, hidx, hblk]; exact hloc) hcoh huniq
    rw [hpos, hidx, hbegin, hblk, hchunk] at hbufr
    obtain ⟨hfiles, hcount⟩ := lcread_body_files (blockStore mask sectors blocks maxblocks) fh n t
      { n := 0, tmp := (blockStore mask sectors blocks maxblocks).tmp, buf := out }
      (256 * i + o) hpos (by simpa using Nat.pos_of_ne_zero hn0) hn31
      (by push_cast at hsize; simp only [Nat.sub_zero]; omega)
    have hmin : min (256 - (256 * i + o) % 256) (n - 0) = n := by omega
    simp only [hmin] at hfiles hcount
    rw [lcread_loop, if_pos (by simpa using Nat.pos_of_ne_zero hn0)]
    dsimp only
    rw [lcread_loop_done _ _ _ _ _ _ (by rw [hcount]; simp)]
    refine ⟨_, ?_, hctl, hfiles, ?_, huniq1⟩
    · simp only [hcount, Nat.zero_add, toI32_small n hn31, hbufr]
    · rw [hctl]; exact hcoh1

theorem lcseek_ok {σ : Type} (s : FsState σ) (fh off : Nat) (hfh : fh < s.files.length)
    (hopen : (s.fileAt fh).is_open = true) (hoff : (off : Int) ≤ (s.fileAt fh).file_size)
    (hsz : (s.fileAt fh).file_size < 2 ^ 31) :
    (lcseek s (fh : Int) off).1 = s.setFile fh { s.fileAt fh with cur_pos := (off : Int) } := by
  have hguard : ¬ ((fh : Int) < 0 ∨ (fh : Int) ≥ (s.files.length : Int)) := by omega
  have hlt : ¬ toU64 (s.fileAt fh).file_size < off := by
    rw [toU64_small _ (by omega) hsz]
    omega
  unfold lcseek
  rw [if_neg hguard]
  simp only [Int.toNat_ofNat, hopen, Bool.not_true, Bool.false_eq_true, if_false, if_neg hlt,
    toI32_small off (by omega)]

/-- Claim C16 (partial block write preserves untouched bytes): against the faithful block
store, for an open file, a block `i` of it that lies wholly inside the file, with its locator
`b` in range, and `o + n ≤ 256`: seeking to offset `o` of the block and writing `n` bytes
returns `n`; the store then holds at `b` the old block with bytes `o .. o+n-1` replaced by the
bytes written, and every other block of the store is unchanged; seeking to the start of the
block and reading 256 bytes returns 256 and exactly that patched block.  The cache is only
assumed coherent with the store and free of duplicate keys, so the block may be resident or
not. -/
theorem partial_write_preserves_rest (mask sectors blocks : Int) (maxblocks : Nat)
    (s : FsState Store) (fh i o n fuel fuel2 : Nat) (buf out : List Nat) (b : block)
    (hfh : fh < s.files.length) (hopen : (s.fileAt fh).is_open = true)
    (hb : (s.fileAt fh).blocks[i]? = some b) (hloc : locatorInRange b)
    (hwritten : ((256 * (i + 1) : Nat) : Int) ≤ (s.fileAt fh).file_size)
    (hsz : (s.fileAt fh).file_size < 2 ^ 31)
    (hon : o + n ≤ 256) (hbuf : n ≤ buf.length)
    (hcoh : coherent s.cache s.ctl) (huniq : s.cache.uniqueKeys)
    (hfuel : 1 ≤ fuel) (hfuel2 : 1 ≤ fuel2) :
    ∃ s1 s2 : FsState Store,
      lcwrite (blockStore mask sectors blocks maxblocks) fuel
          (lcseek s (fh : Int) (256 * i + o)).1 (fh : Int) buf n = some (s1, (n : Int)) ∧
        s1.ctl.data b.device_id b.sector b.block =
          patched (s.ctl.data b.device_id b.sector b.block) o (buf.take n) ∧
        (∀ d x y : Int, ¬ (d = b.device_id ∧ x = b.sector ∧ y = b.block) →
          s1.ctl.data d x y = s.ctl.data d x y) ∧
        lcread (blockStore mask sectors blocks maxblocks) fuel2
            (lcseek s1 (fh : Int) (256 * i)).1 (fh : Int) out 256 =
          some (s2, 256,
            patched (s.ctl.data b.device_id b.sector b.block) o (buf.take n) ++ out.drop 256)
    := by
  push_cast at hwritten
  -- the seek before the write
  have hseek := lcseek_ok s fh (256 * i + o) hfh hopen (by push_cast; omega) hsz
  have hfile0 := fileAt_setFile s fh { s.fileAt fh with cur_pos := ((256 * i + o : Nat) : Int) }
    hfh
  obtain ⟨s1, hw, hdata, hother, hfiles, hcoh1, huniq1⟩ :=
    lcwrite_within_block mask sectors blocks maxblocks
      (s.setFile fh { s.fileAt fh with cur_pos := ((256 * i + o : Nat) : Int) })
      fh i o n fuel buf b (by rw [length_setFile]; exact hfh)
      (by rw [hfile0]; exact hopen) (by rw [hfile0])
      (by rw [hfile0]; push_cast; show _ ≤ (s.fileAt fh).file_size; omega)
      (by rw [hfile0]; exact hb) hloc hon (by omega) hbuf hcoh huniq hfuel
  rw [hfile0] at hfiles
  have hlen1 : s1.files.length = s.files.length := by
    rw [hfiles, List.length_set, length_setFile]
  have hmax : max (s.fileAt fh).file_size ((256 * i + o + n : Nat) : Int) =
      (s.fileAt fh).file_size := max_eq_left (by push_cast; omega)
  have hfile1 : s1.fileAt fh = { s.fileAt fh with cur_pos := ((256 * i + o + n : Nat) : Int) } := by
    rw [fileAt_of_files _ _ _ _ hfiles (by rw [length_setFile]; exact hfh)]
    show ({ s.fileAt fh with cur_pos := _, file_size := max (s.fileAt fh).file_size _ } : file) = _
    rw [hmax]
  -- the seek before the read
  have hseek1 := lcseek_ok s1 fh (256 * i) (by rw [hlen1]; exact hfh)
    (by rw [hfile1]; exact hopen)
    (by rw [hfile1]; push_cast; show _ ≤ (s.fileAt fh).file_size; omega)
    (by rw [hfile1]; exact hsz)
  have hfile2 := fileAt_setFile s1 fh { s1.fileAt fh with cur_pos := ((256 * i : Nat) : Int) }
    (by rw [hlen1]; exact hfh)
  obtain ⟨s2, hr, _⟩ :=
    lcread_within_block mask sectors blocks maxblocks
      (s1.setFile fh { s1.fileAt fh with cur_pos := ((256 * i : Nat) : Int) })
      fh i 0 256 fuel2 out b (by rw [length_setFile, hlen1]; exact hfh)
      (by rw [hfile2, hfile1]; exact hopen) (by rw [hfile2]; rfl)
      (by rw [hfile2, hfile1]; push_cast; show _ ≤ (s.fileAt fh).file_size; omega)
      (by rw [hfile2, hfile1]; exact hsz)
      (by rw [hfile2, hfile1]; exact hb) hloc (by omega) hcoh1 huniq1 hfuel2
  refine ⟨s1, s2, ?_, hdata, hother, ?_⟩
  · rw [hseek]; exact hw
  · rw [hseek1, hr]
    have hl : (s1.ctl.data b.device_id b.sector b.block).length = 256 := s1.ctl.wf _ _ _
    simp only [ctl_setFile, memcpy, hdata, List.take_zero, List.drop_zero, List.nil_append,
      Nat.zero_add] at hl ⊢
    rw [List.take_of_length_le (le_of_eq hl)]
    rfl

theorem partial_write_preserves_rest_witness :
    (¬ writtenState.cache.resident 0 0 0 ∧
      ∃ s1 s2 : FsState Store,
        lcwrite (blockStore 1 2 2 2) 1 (lcseek writtenState 0 2).1 0 [7, 8, 9, 10] 4 =
            some (s1, 4) ∧
          s1.ctl.data 0 0 0 = patched (writtenState.ctl.data 0 0 0) 2 [7, 8, 9, 10] ∧
          (∀ d x y : Int, ¬ (d = 0 ∧ x = 0 ∧ y = 0) →
            s1.ctl.data d x y = writtenState.ctl.data d x y) ∧
          lcread (blockStore 1 2 2 2) 1 (lcseek s1 0 0).1 0 (List.replicate 256 5) 256 =
            some (s2, 256, patched (writtenState.ctl.data 0 0 0) 2 [7, 8, 9, 10] ++ [])) ∧
    (residentState.cache.resident 0 0 0 ∧
      ∃ s1 s2 : FsState Store,
        lcwrite (blockStore 1 2 2 2) 1 (lcseek residentState 0 2).1 0 [7, 8, 9, 10] 4 =
            some (s1, 4) ∧
          s1.ctl.data 0 0 0 = patched (residentState.ctl.data 0 0 0) 2 [7, 8, 9, 10] ∧
          (∀ d x y : Int, ¬ (d = 0 ∧ x = 0 ∧ y = 0) →
            s1.ctl.data d x y = residentState.ctl.data d x y) ∧
          lcread (blockStore 1 2 2 2) 1 (lcseek s1 0 0).1 0 (List.replicate 256 5) 256 =
            some (s2, 256, patched (residentState.ctl.data 0 0 0) 2 [7, 8, 9, 10] ++ [])) :=
  ⟨⟨by decide,
    partial_write_preserves_rest 1 2 2 2 writtenState 0 0 2 4 1 1 [7, 8, 9, 10]
      (List.replicate 256 5) { sector := 0, block := 0, device_id := 0 }
      (by decide) (by decide) (by decide) (by decide) (by decide) (by decide) (by decide)
      (by decide) (by decide) (by decide) (by decide) (by decide)⟩,
   ⟨by decide,
    partial_write_preserves_rest 1 2 2 2 residentState 0 0 2 4 1 1 [7, 8, 9, 10]
      (List.replicate 256 5) { sector := 0, block := 0, device_id := 0 }
      (by decide) (by decide) (by decide) (by decide) (by decide) (by decide) (by decide)
      (by decide) (by decide!) (by decide) (by decide) (by decide)⟩⟩

/-! ## Fresh cache -/

theorem getcache_scan_fresh (did : LcDeviceId) (sec blk : Nat)
    (h : ¬ isFillKey (did, sec, blk)) :
    ∀ (n i : Nat), getcache_scan did sec blk (List.replicate n storage.unused) i = none := by
  intro n
  induction n with
  | zero => intro i; rfl
  | succ n ih =>
    intro i
    rw [List.replicate_succ, getcache_scan]
    have hk : ¬ (storage.unused.did = did ∧ storage.unused.sec = sec ∧
        storage.unused.blk = blk) := by
      intro hc
      apply h
      obtain ⟨h1, h2, h3⟩ := hc
      exact ⟨h1.symm, h2.symm, h3.symm⟩
    rw [if_neg hk]
    exact ih (i + 1)

/-- Lookups of keys other than the fill key, on a cache whose lines are all as `memset` left
them: each returns nothing and adds one to the miss counter; nothing else changes. -/
theorem lookups_fresh (n : Nat) :
    ∀ (keys : List (LcDeviceId × Nat × Nat)) (lru : Nat) (hits misses : Int),
      (∀ k ∈ keys, ¬ isFillKey k) →
      lookups ⟨some (List.replicate n storage.unused), lru, hits, misses⟩ keys =
        (⟨some (List.replicate n storage.unused), lru, hits, misses + (keys.length : Int)⟩,
          keys.map fun _ => none) := by
  intro keys
  induction keys with
  | nil =>
    intro lru hits misses _
    simp [lookups]
  | cons k ks ih =>
    intro lru hits misses h
    have hk : ¬ isFillKey (k.1, k.2.1, k.2.2) := h k (List.mem_cons_self _ _)
    have hg : lcloud_getcache ⟨some (List.replicate n storage.unused), lru, hits, misses⟩
          k.1 k.2.1 k.2.2 =
        (⟨some (List.replicate n storage.unused), lru, hits, misses + 1⟩, none) := by
      unfold lcloud_getcache
      simp only [getcache_scan_fresh k.1 k.2.1 k.2.2 hk n 0]
    rw [lookups]
    simp only [hg]
    rw [ih lru hits (misses + 1) (fun k1 hk1 => h k1 (List.mem_cons_of_mem _ hk1))]
    simp only [List.length_cons, List.map_cons, Nat.cast_add, Nat.cast_one, Prod.mk.injEq,
      and_true]
    congr 1
    omega

/-- Claim C22 as stated fails: on a fresh cache of one line, the lookup of the key that
`memset(cache, -1, ...)` left in the line (device `-1`, sector and block `0xffff`) returns
line 0, the hit counter becomes 1 and the miss counter stays 0. -/
theorem fresh_cache_fill_key_hits :
    (lcloud_getcache (lcloud_initcache 1) (-1) 0xffff 0xffff).2 = some 0 ∧
      (lcloud_getcache (lcloud_initcache 1) (-1) 0xffff 0xffff).1.hit_count = 1 ∧
      (lcloud_getcache (lcloud_initcache 1) (-1) 0xffff 0xffff).1.miss_count = 0 := by
  decide

/-- Claim C22, amended: after `lcloud_initcache n` and before any `lcloud_putcache`, every
sequence of `lcloud_getcache` calls for keys other than the fill key (`-1`, `0xffff`, `0xffff`)
returns nothing at each call, leaves the miss counter at the number of calls made and the hit
counter at 0, and leaves the lines and the recency clock as they were. -/
theorem fresh_cache_misses (n : Nat) (keys : List (LcDeviceId × Nat × Nat))
    (h : ∀ k ∈ keys, ¬ isFillKey k) :
    lookups (lcloud_initcache n) keys =
      ({ lcloud_initcache n with miss_count := (keys.length : Int) },
        keys.map fun _ => none) := by
  have := lookups_fresh n keys 0 0 0 h
  simpa [lcloud_initcache] using this

theorem fresh_cache_misses_witness :
    lookups (lcloud_initcache 2) [(0, 0, 0), (3, 7, 9), (0, 0, 0), (-1, 0xffff, 5)] =
      ({ lcloud_initcache 2 with miss_count := 4 }, [none, none, none, none]) :=
  fresh_cache_misses 2 [(0, 0, 0), (3, 7, 9), (0, 0, 0), (-1, 0xffff, 5)] (by decide)

/-! ## Insertion into an empty slot -/

/-- The victim selection loop stops at the first line whose device id is the empty mark,
whatever the candidate so far. -/
theorem putcache_scan_first_empty (cache : List storage) (lru : Nat) :
    ∀ (rest : List storage) (i : Nat) (v : Int) (k : Nat) (e : storage),
      rest[k]? = some e → e.did = -1 →
      (∀ j < k, ∀ a, rest[j]? = some a → a.did ≠ -1) →
      putcache_scan cache lru rest i v = ((i + k : Nat) : Int) := by
  intro rest
  induction rest with
  | nil => intro i v k e h; simp at h
  | cons a rest ih =>
    intro i v k e hk he hfirst
    cases k with
    | zero =>
      simp only [List.getElem?_cons_zero, Option.some.injEq] at hk
      subst hk
      rw [putcache_scan, if_pos he]
      rfl
    | succ k =>
      have ha : a.did ≠ -1 := hfirst 0 (by omega) a (by simp)
      have hk1 : rest[k]? = some e := by simpa using hk
      have hfirst1 : ∀ j < k, ∀ b, rest[j]? = some b → b.did ≠ -1 := by
        intro j hj b hb
        exact hfirst (j + 1) (by omega) b (by simpa using hb)
      have e1 : i + (k + 1) = i + 1 + k := by omega
      rw [putcache_scan, if_neg ha, e1]
      split_ifs
      · exact ih (i + 1) _ k e hk1 he hfirst1
      · exact ih (i + 1) _ k e hk1 he hfirst1
      · exact ih (i + 1) _ k e hk1 he hfirst1

/-- Claim C23 (empty slot preferred): when line `j` is the lowest-index line whose device id is
the empty mark `-1`, `lcloud_putcache` returns 0 and writes the new entry (key, current recency
clock, first 256 bytes of the payload) into line `j`; every other line, hence every entry that
was resident, keeps its key, payload and recency value; the clock advances by one and the
counters are untouched. -/
theorem putcache_prefers_empty_slot (s : CacheState) (cache : List storage) (did : LcDeviceId)
    (sec blk : Nat) (payload : List Nat) (j : Nat) (e : storage)
    (hc : s.cache = some cache) (hj : cache[j]? = some e) (he : e.did = -1)
    (hfirst : ∀ i < j, ∀ a, cache[i]? = some a → a.did ≠ -1) :
    lcloud_putcache s did sec blk payload =
        ({ s with
            cache := some (cache.set j
              { did := did, sec := sec, blk := blk, lru := s.lru,
                data := payload.take LC_DEVICE_BLOCK_SIZE })
            lru := (s.lru + 1) % 2 ^ 16 }, 0) ∧
      (lcloud_putcache s did sec blk payload).1.lines[j]? =
        some
          { did := did, sec := sec, blk := blk, lru := s.lru,
            data := payload.take LC_DEVICE_BLOCK_SIZE } ∧
      ∀ i, i ≠ j → (lcloud_putcache s did sec blk payload).1.lines[i]? = s.lines[i]? := by
  have hscan := putcache_scan_first_empty cache s.lru cache 0 (-1) j e hj he hfirst
  have hlt : j < cache.length := (List.getElem?_eq_some_iff.mp hj).1
  have hput : lcloud_putcache s did sec blk payload =
      ({ s with
          cache := some (cache.set j
            { did := did, sec := sec, blk := blk, lru := s.lru,
              data := payload.take LC_DEVICE_BLOCK_SIZE })
          lru := (s.lru + 1) % 2 ^ 16 }, 0) := by
    unfold lcloud_putcache
    simp only [hc, hscan, Nat.zero_add, Int.toNat_ofNat]
  refine ⟨hput, ?_, ?_⟩
  · rw [hput]
    simp only [CacheState.lines, Option.getD_some, List.getElem?_set, if_true, hlt]
  · intro i hi
    rw [hput]
    simp only [CacheState.lines, hc, Option.getD_some, List.getElem?_set, Ne.symm hi, if_false]

theorem putcache_prefers_empty_slot_witness :
    lcloud_putcache (lcloud_putcache (lcloud_initcache 3) 0 0 0 [1]).1 0 0 1 [2] =
      ({ (lcloud_putcache (lcloud_initcache 3) 0 0 0 [1]).1 with
          cache := some ([{ did := 0, sec := 0, blk := 0, lru := 0, data := [1] },
              storage.unused, storage.unused].set 1
            { did := 0, sec := 0, blk := 1,
              lru := (lcloud_putcache (lcloud_initcache 3) 0 0 0 [1]).1.lru,
              data := [2].take LC_DEVICE_BLOCK_SIZE })
          lru := ((lcloud_putcache (lcloud_initcache 3) 0 0 0 [1]).1.lru + 1) % 2 ^ 16 }, 0) :=
  (putcache_prefers_empty_slot (lcloud_putcache (lcloud_initcache 3) 0 0 0 [1]).1
    [{ did := 0, sec := 0, blk := 0, lru := 0, data := [1] }, storage.unused, storage.unused]
    0 0 1 [2] 1 storage.unused rfl rfl rfl
    (by
      intro i hi a ha
      obtain rfl : i = 0 := by omega
      simp only [List.getElem?_cons_zero, Option.some.injEq] at ha
      subst ha
      decide)).1

/-! ## Allocator capacity -/

theorem sum_map_set {α : Type} (f : α → Nat) (d0 : α) :
    ∀ (l : List α) (i : Nat) (x : α), i < l.length →
      ((l.set i x).map f).sum + f (l.getD i d0) = (l.map f).sum + f x := by
  intro l
  induction l with
  | nil => intro i x h; simp at h
  | cons a rest ih =>
    intro i x h
    cases i with
    | zero => simp; omega
    | succ i =>
      have := ih i x (by simpa using h)
      simp only [List.set_cons_succ, List.map_cons, List.sum_cons, List.getD_cons_succ]
      omega

theorem getD_mem {α : Type} (d0 : α) (l : List α) (i : Nat) (h : i < l.length) :
    l.getD i d0 ∈ l := by
  rw [List.getD_eq_getElem _ _ h]
  exact List.getElem_mem h

theorem getD_set {α : Type} (d0 : α) (l : List α) (i j : Nat) (x : α) (h : i < l.length) :
    (l.set i x).getD j d0 = if i = j then x else l.getD j d0 := by
  by_cases hij : i = j
  · subst hij
    simp [List.getD_eq_getElem?_getD, List.getElem?_set, h]
  · simp [List.getD_eq_getElem?_getD, List.getElem?_set, hij]

theorem inDevice_congr (a b : List device) (h : sameGeometry a b) (x : block)
    (hx : inDevice a x) : inDevice b x := by
  unfold inDevice at hx ⊢
  obtain ⟨h1, h2⟩ := h x.device_id.toNat
  rw [← h1, ← h2]
  exact hx

theorem sameGeometry_trans (a b c : List device) (h1 : sameGeometry a b)
    (h2 : sameGeometry b c) : sameGeometry a c := by
  intro i
  exact ⟨(h1 i).1.trans (h2 i).1, (h1 i).2.trans (h2 i).2⟩

/-- One call of the allocator loop under the allocator invariant, with fuel for the devices still
to look at: it returns; it reports no free block exactly when no block is left, and then the
device cursor is at 16; otherwise the locator handed out names a block of the device table and
one block fewer is left.  The invariant and the sector and block counts are kept. -/
theorem get_free_block_loop_inv {σ : Type} :
    ∀ (fuel : Nat) (s : FsState σ), allocInv s → (16 - s.cur_device).toNat < fuel →
      ∃ s1 res, lcloud_get_free_block_loop fuel s = some (s1, res) ∧ allocInv s1 ∧
        sameGeometry s1.devices s.devices ∧
        match res with
        | none => remainingBlocks s = 0 ∧ 16 ≤ s1.cur_device ∧ s1.devices = s.devices
        | some (d, sec, blk) =>
          remainingBlocks s1 + 1 = remainingBlocks s ∧
            inDevice s.devices { sector := sec, block := blk, device_id := d } := by
  intro fuel
  induction fuel with
  | zero => intro s _ h; omega
  | succ fuel ih =>
    intro s hinv hfuel
    obtain ⟨hc0, hlen, hcur, hpre⟩ := hinv
    rw [lcloud_get_free_block_loop]
    by_cases hc : s.cur_device < 16
    · rw [if_pos hc]
      dsimp only
      have hidx : s.cur_device.toNat < s.devices.length := by omega
      have hd := hcur _ (getD_mem device.zero s.devices _ hidx)
      generalize hdd : s.devices.getD s.cur_device.toNat device.zero = d at hd ⊢
      obtain ⟨c1, c2, c3, c4, c5⟩ := hd
      by_cases hfree : d.cur_sector < d.sectors_count
      · rw [if_pos hfree]
        have hcb := c4 hfree
        have hsum := sum_map_set device.remaining device.zero s.devices s.cur_device.toNat
        rw [hdd] at hsum
        have hloc : inDevice s.devices
            { sector := d.cur_sector, block := d.cur_block, device_id := s.cur_device } := by
          unfold inDevice
          dsimp only
          rw [hdd]
          exact ⟨hc0, hc, c1, hfree, c3, hcb⟩
        have hX : (d.sectors_count - d.cur_sector) * d.blocks_count ≥ d.blocks_count := by
          nlinarith
        by_cases hwrap : d.cur_block + 1 = d.blocks_count
        · simp only [hwrap, if_true]
          refine ⟨_, _, rfl, ⟨hc0, by simpa using hlen, ?_, ?_⟩, ?_, ?_, hloc⟩
          · intro x hx
            rcases List.mem_or_eq_of_mem_set hx with hx | hx
            · exact hcur x hx
            · subst hx
              refine ⟨by show 0 ≤ d.cur_sector + 1; omega, by show d.cur_sector + 1 ≤ d.sectors_count; omega,
                le_refl _, fun _ => by show (0 : Int) < d.blocks_count; omega, fun _ => rfl⟩
          · intro i hi
            change (i : Int) < s.cur_device at hi
            show ((s.devices.set _ _).getD i device.zero).remaining = 0
            rw [getD_set _ _ _ _ _ hidx, if_neg (by omega)]
            exact hpre i hi
          · intro i
            show ((s.devices.set _ _).getD i device.zero).sectors_count = _ ∧
              ((s.devices.set _ _).getD i device.zero).blocks_count = _
            rw [getD_set _ _ _ _ _ hidx]
            split_ifs with h
            · subst h; rw [hdd]; exact ⟨rfl, rfl⟩
            · exact ⟨rfl, rfl⟩
          · have h2 := hsum
              { d with cur_block := 0, cur_sector := d.cur_sector + 1 } hidx
            unfold remainingBlocks
            show ((s.devices.set _ _).map device.remaining).sum + 1 = _
            have e1 : device.remaining
                { d with cur_block := 0, cur_sector := d.cur_sector + 1 } + 1 =
                d.remaining := by
              unfold device.remaining
              show ((d.sectors_count - (d.cur_sector + 1)) * d.blocks_count - 0).toNat + 1 = _
              have e2 : (d.sectors_count - (d.cur_sector + 1)) * d.blocks_count =
                  (d.sectors_count - d.cur_sector) * d.blocks_count - d.blocks_count := by ring
              rw [e2]
              omega
            omega
        · simp only [hwrap, if_false]
          refine ⟨_, _, rfl, ⟨hc0, by simpa using hlen, ?_, ?_⟩, ?_, ?_, hloc⟩
          · intro x hx
            rcases List.mem_or_eq_of_mem_set hx with hx | hx
            · exact hcur x hx
            · subst hx
              refine ⟨c1, c2, by show 0 ≤ d.cur_block + 1; omega,
                fun _ => by show d.cur_block + 1 < d.blocks_count; omega,
                fun h => by exfalso; change d.cur_sector = d.sectors_count at h; omega⟩
          · intro i hi
            change (i : Int) < s.cur_device at hi
            show ((s.devices.set _ _).getD i device.zero).remaining = 0
            rw [getD_set _ _ _ _ _ hidx, if_neg (by omega)]
            exact hpre i hi
          · intro i
            show ((s.devices.set _ _).getD i device.zero).sectors_count = _ ∧
              ((s.devices.set _ _).getD i device.zero).blocks_count = _
            rw [getD_set _ _ _ _ _ hidx]
            split_ifs with h
            · subst h; rw [hdd]; exact ⟨rfl, rfl⟩
            · exact ⟨rfl, rfl⟩
          · have h2 := hsum { d with cur_block := d.cur_block + 1 } hidx
            unfold remainingBlocks
            show ((s.devices.set _ _).map device.remaining).sum + 1 = _
            have e1 : device.remaining { d with cur_block := d.cur_block + 1 } + 1 =
                d.remaining := by
              unfold device.remaining
              show ((d.sectors_count - d.cur_sector) * d.blocks_count -
                (d.cur_block + 1)).toNat + 1 = _
              omega
            omega
      · rw [if_neg hfree]
        have hend : d.cur_sector = d.sectors_count := by omega
        have hrem : d.remaining = 0 := by
          unfold device.remaining
          rw [hend, c5 hend]
          simp
        have hinv1 : allocInv { s with cur_device := s.cur_device + 1 } := by
          refine ⟨by show 0 ≤ s.cur_device + 1; omega, hlen, hcur, ?_⟩
          intro i hi
          have hi1 : (i : Int) < s.cur_device + 1 := hi
          by_cases hic : (i : Int) < s.cur_device
          · exact hpre i hic
          · have e : i = s.cur_device.toNat := by omega
            show (s.devices.getD i device.zero).remaining = 0
            rw [e, hdd]
            exact hrem
        obtain ⟨s1, res, hr, hinvr, hgeo, hres⟩ :=
          ih { s with cur_device := s.cur_device + 1 } hinv1
            (by show (16 - (s.cur_device + 1)).toNat < fuel; omega)
        exact ⟨s1, res, hr, hinvr, hgeo, hres⟩
    · rw [if_neg hc]
      refine ⟨s, none, rfl, ⟨hc0, hlen, hcur, hpre⟩, fun _ => ⟨rfl, rfl⟩, ?_, by omega, rfl⟩
      unfold remainingBlocks
      apply List.sum_eq_zero
      intro x hx
      obtain ⟨d, hdmem, rfl⟩ := List.mem_map.mp hx
      obtain ⟨i, hi, rfl⟩ := List.getElem_of_mem hdmem
      have := hpre i (by omega)
      rw [List.getD_eq_getElem _ _ hi] at this
      exact this

/-- Successive allocations under the allocator invariant: as long as blocks are left every call
succeeds, each locator names a block of the device table, and each call uses up one block. -/
theorem allocMany_inv {σ : Type} (fuel : Nat) (hfuel : 17 ≤ fuel) :
    ∀ (k : Nat) (s : FsState σ), allocInv s → k ≤ remainingBlocks s →
      ∃ s1 locs, allocMany fuel k s = some (s1, locs) ∧ allocInv s1 ∧
        sameGeometry s1.devices s.devices ∧ remainingBlocks s1 + k = remainingBlocks s ∧
        ∀ b ∈ locs, inDevice s.devices b := by
  intro k
  induction k with
  | zero =>
    intro s hinv _
    exact ⟨s, [], rfl, hinv, fun _ => ⟨rfl, rfl⟩, rfl, by simp⟩
  | succ k ih =>
    intro s hinv hk
    obtain ⟨s1, res, hr, hinv1, hgeo1, hres⟩ := get_free_block_loop_inv fuel s hinv
      (by have := hinv.1; omega)
    cases res with
    | none =>
      dsimp only at hres
      omega
    | some loc =>
      obtain ⟨d, sec, blk⟩ := loc
      dsimp only at hres
      obtain ⟨hrem, hloc⟩ := hres
      obtain ⟨s2, rest, hm, hinv2, hgeo2, hrem2, hall⟩ := ih s1 hinv1 (by omega)
      refine ⟨s2, { sector := sec, block := blk, device_id := d } :: rest, ?_, hinv2, sameGeometry_trans _ _ _ hgeo2 hgeo1, by omega, ?_⟩
      · rw [allocMany]
        unfold lcloud_get_free_block
        simp only [hr, hm]
      · intro b hb
        rcases List.mem_cons.mp hb with hb | hb
        · subst hb; exact hloc
        · exact inDevice_congr _ _ hgeo1 b (hall b hb)

theorem allocatedBefore_ne (a b : block) (h : allocatedBefore a b) : a ≠ b := by
  intro hab
  subst hab
  obtain ⟨_, h2⟩ := h
  have := h2 rfl
  omega

/-- Claim C21 (allocator capacity): for a table of sixteen device records with fresh cursors in
which every device that has sectors has at least one block per sector, and the device cursor at
0, the first `capacity` calls of `lcloud_get_free_block` all succeed, `capacity` being the sum
over the devices of `sectors_count * blocks_count`; every locator returned names a device below
16, a sector below that device's sector count and a block below its block count; no locator is
returned twice; the next call reports no free block, and so does every call after it. -/
theorem allocator_capacity {σ : Type} (s : FsState σ) (fuel : Nat) (hfuel : 17 ≤ fuel)
    (hcur : s.cur_device = 0) (hlen : s.devices.length = 16)
    (hfresh : ∀ d ∈ s.devices, freshDevice d) :
    ∃ (s1 : FsState σ) (locs : List block) (s2 : FsState σ),
      allocMany fuel (capacity s.devices) s = some (s1, locs) ∧
        locs.length = capacity s.devices ∧ locs.Nodup ∧
        (∀ b ∈ locs, inDevice s.devices b) ∧
        lcloud_get_free_block fuel s1 = some (s2, none) ∧
        ∀ fuel2, lcloud_get_free_block fuel2 s2 = some (s2, none) := by
  have hinv : allocInv s := by
    refine ⟨by omega, hlen, ?_, ?_⟩
    · intro d hd
      obtain ⟨f1, f2, f3, f4⟩ := hfresh d hd
      refine ⟨by omega, by omega, by omega, fun h => by rw [f2]; exact f4 (by omega),
        fun _ => f2⟩
    · intro i hi
      omega
  have hcap : remainingBlocks s = capacity s.devices := by
    unfold remainingBlocks capacity
    congr 1
    apply List.map_congr_left
    intro d hd
    obtain ⟨f1, f2, f3, f4⟩ := hfresh d hd
    unfold device.remaining
    rw [f1, f2]
    simp
  obtain ⟨s1, locs, hm, hinv1, hgeo, hrem, hall⟩ :=
    allocMany_inv fuel hfuel (capacity s.devices) s hinv (by omega)
  obtain ⟨s2, res, hr, hinv2, _, hres⟩ := get_free_block_loop_inv fuel s1 hinv1
    (by have := hinv1.1; omega)
  have hzero : remainingBlocks s1 = 0 := by omega
  cases res with
  | some loc =>
    obtain ⟨d, sec, blk⟩ := loc
    dsimp only at hres
    omega
  | none =>
    dsimp only at hres
    refine ⟨s1, locs, s2, hm, allocMany_length fuel _ _ _ _ hm, ?_, hall, hr, ?_⟩
    · exact (allocMany_ordered fuel _ s s1 locs hm).1.imp (fun h => allocatedBefore_ne _ _ h)
    · intro fuel2
      unfold lcloud_get_free_block
      rw [lcloud_get_free_block_loop.eq_def]
      have : ¬ s2.cur_device < 16 := by omega
      simp only [this, if_false]

theorem allocator_capacity_witness :
    ∃ (s1 : FsState Unit) (locs : List block) (s2 : FsState Unit),
      allocMany 17 (capacity twoDevices.devices) twoDevices = some (s1, locs) ∧
        locs.length = capacity twoDevices.devices ∧ locs.Nodup ∧
        (∀ b ∈ locs, inDevice twoDevices.devices b) ∧
        lcloud_get_free_block 17 s1 = some (s2, none) ∧
        ∀ fuel2, lcloud_get_free_block fuel2 s2 = some (s2, none) :=
  allocator_capacity twoDevices 17 (by decide) (by decide) (by decide) (by decide)

/-! ## The position invariant -/

/-- The allocator loop returns when it has fuel for the devices from the device cursor on; it
does not touch the file table and does not move the device cursor back. -/
theorem get_free_block_loop_total {σ : Type} :
    ∀ (fuel : Nat) (s : FsState σ), (16 - s.cur_device).toNat < fuel →
      ∃ s1 res, lcloud_get_free_block_loop fuel s = some (s1, res) ∧ s1.files = s.files ∧
        s.cur_device ≤ s1.cur_device := by
  intro fuel
  induction fuel with
  | zero => intro s h; omega
  | succ fuel ih =>
    intro s hfuel
    rw [lcloud_get_free_block_loop]
    by_cases hc : s.cur_device < 16
    · rw [if_pos hc]
      dsimp only
      split_ifs
      · exact ⟨_, _, rfl, rfl, le_refl _⟩
      · exact ⟨_, _, rfl, rfl, le_refl _⟩
      · obtain ⟨s1, res, hr, hf, hcd⟩ := ih { s with cur_device := s.cur_device + 1 }
          (by show (16 - (s.cur_device + 1)).toNat < fuel; omega)
        exact ⟨s1, res, hr, hf, by have : s.cur_device + 1 ≤ s1.cur_device := hcd; omega⟩
    · rw [if_neg hc]
      exact ⟨s, none, rfl, rfl, le_refl _⟩

/-- The allocation step of a pass of `lcwrite` returns when the allocator has fuel; in the file
table it changes at most the block list of the file written. -/
theorem lcwrite_alloc_total {σ : Type} (env : Env σ) (fuel fh : Nat) (s : FsState σ) (i : Int)
    (hfh : fh < s.files.length) (hfuel : (16 - s.cur_device).toNat < fuel) :
    ∃ s1 ok bs, lcwrite_alloc env fuel fh s i = some (s1, ok) ∧
      s1.files = s.files.set fh { s.fileAt fh with blocks := bs } ∧
      s.cur_device ≤ s1.cur_device := by
  unfold lcwrite_alloc
  dsimp only
  split_ifs with hi
  · obtain ⟨s1, res, hr, hf, hcd⟩ := get_free_block_loop_total fuel
      (s.setFile fh { s.fileAt fh with blocks := (s.fileAt fh).blocks ++ [env.junk] }) hfuel
    unfold lcloud_get_free_block
    rw [hr]
    have hat : s1.fileAt fh =
        { s.fileAt fh with blocks := (s.fileAt fh).blocks ++ [env.junk] } :=
      fileAt_of_files s s1 fh _ hf hfh
    cases res with
    | none => exact ⟨s1, false, _, rfl, hf, hcd⟩
    | some loc =>
      obtain ⟨d, sec, blk⟩ := loc
      refine ⟨_, true, ((s.fileAt fh).blocks ++ [env.junk]).set i.toNat
        { sector := sec, block := blk, device_id := d }, rfl, ?_, hcd⟩
      simp only [FsState.setFile, hf, hat, List.set_set]
  · refine ⟨s, true, (s.fileAt fh).blocks, rfl, ?_, le_refl _⟩
    exact (set_getD_self _ s.files fh hfh).symm

/-- The loop of `lcwrite` against any controller, from position `p` inside the file, when the
bytes to go do not take the position past the largest `int`: with fuel for the bytes and for
the allocator it ends, and in the file table it changes only the record written, which
satisfies the position invariant afterwards. -/
theorem lcwrite_loop_pos {σ : Type} (env : Env σ) (fh len : Nat) (hlen : len < 2 ^ 31) :
    ∀ (fuel : Nat) (s : FsState σ) (l : Locals) (p : Nat),
      fh < s.files.length → (s.fileAt fh).cur_pos = (p : Int) →
      (p : Int) ≤ (s.fileAt fh).file_size → (s.fileAt fh).file_size < 2 ^ 31 →
      l.n ≤ len → p + (len - l.n) < 2 ^ 31 →
      (len - l.n) + ((16 - s.cur_device).toNat + 1) ≤ fuel →
      ∃ s1 l1 g, lcwrite_loop env fh len fuel s l = some (s1, l1) ∧
        s1.files = s.files.set fh g ∧ g.posOk := by
  intro fuel
  induction fuel with
  | zero => intro s l p _ _ _ _ _ _ hfuel; omega
  | succ fuel ih =>
    intro s l p hfh hp hps hsz hn hend hfuel
    by_cases hnl : l.n < len
    · rw [lcwrite_loop, if_pos hnl]
      obtain ⟨hbegin, hchunk, hidx⟩ := pass_arith p (len - l.n) (by omega) (by omega)
      obtain ⟨sa, ok, bs, ha, hfa, hcd⟩ := lcwrite_alloc_total env fuel fh s
        ((p / 256 : Nat) : Int) hfh (by omega)
      have hata : sa.fileAt fh = { s.fileAt fh with blocks := bs } :=
        fileAt_of_files s sa fh _ hfa hfh
      have hlena : sa.files.length = s.files.length := by rw [hfa, List.length_set]
      cases ok with
      | false =>
        have hbody : lcwrite_body env fuel fh len s l = some (sa, l, false) := by
          unfold lcwrite_body
          simp only [hp, hbegin, hchunk, hidx, ha]
        rw [hbody]
        exact ⟨sa, l, _, rfl, hfa, ⟨by show 0 ≤ (s.fileAt fh).cur_pos; omega,
          by show (s.fileAt fh).cur_pos ≤ (s.fileAt fh).file_size; omega, hsz⟩⟩
      | true =>
        have hbody : lcwrite_body env fuel fh len s l =
            some ((lcwrite_xfer env fh (p % 256) (min (256 - p % 256) (len - l.n))
                ((p / 256 : Nat) : Int) sa l).1,
              (lcwrite_xfer env fh (p % 256) (min (256 - p % 256) (len - l.n))
                ((p / 256 : Nat) : Int) sa l).2, true) := by
          unfold lcwrite_body
          simp only [hp, hbegin, hchunk, hidx, ha]
        rw [hbody]
        dsimp only
        have hb : p % 256 < 256 := Nat.mod_lt _ (by norm_num)
        have hpa : (sa.fileAt fh).cur_pos = (p : Int) := by rw [hata]; exact hp
        obtain ⟨hfx, _, hcx, hnx, _⟩ := lcwrite_xfer_spec env fh
          (min (256 - p % 256) (len - l.n)) (p % 256) ((p / 256 : Nat) : Int) sa l p hpa
          (by omega) (by omega)
        have hatx := fileAt_of_files sa _ fh _ hfx (by rw [hlena]; exact hfh)
        obtain ⟨s1, l1, g, hr, hf1, hg⟩ := ih _ _ (p + min (256 - p % 256) (len - l.n))
          (by rw [hfx, List.length_set, hlena]; exact hfh)
          (by rw [hatx])
          (by rw [hatx]; exact le_max_right _ _)
          (by
            rw [hatx, hata]
            show max (s.fileAt fh).file_size _ < 2 ^ 31
            rw [max_lt_iff]
            exact ⟨hsz, by push_cast; omega⟩)
          (by rw [hnx]; omega)
          (by rw [hnx]; omega)
          (by rw [hnx, hcx]; omega)
        refine ⟨s1, l1, g, hr, ?_, hg⟩
        rw [hf1, hfx, hfa, List.set_set, List.set_set]
    · rw [lcwrite_loop_done _ _ _ _ _ _ hnl]
      refine ⟨s, l, s.fileAt fh, rfl, (set_getD_self _ s.files fh hfh).symm,
        ⟨by omega, by omega, hsz⟩⟩

theorem fileAt_posOk {σ : Type} (s : FsState σ) (h : ∀ f ∈ s.files, f.posOk) (i : Nat) :
    (s.fileAt i).posOk := by
  by_cases hi : i < s.files.length
  · exact h _ (getD_mem _ s.files i hi)
  · unfold FsState.fileAt
    rw [List.getD_eq_default _ _ (by omega)]
    decide

theorem posOk_set (l : List file) (h : ∀ f ∈ l, f.posOk) (i : Nat) (g : file) (hg : g.posOk) :
    ∀ f ∈ l.set i g, f.posOk := by
  intro f hf
  rcases List.mem_or_eq_of_mem_set hf with hf | hf
  · exact h f hf
  · rw [hf]; exact hg

/-- What the transfer part of a pass of `lcwrite` does to the byte count and to the position,
with the wrap-around of the unsigned addition and of the conversion back to `int`. -/
theorem lcwrite_xfer_pos {σ : Type} (env : Env σ) (fh begin n : Nat) (i : Int)
    (s : FsState σ) (l : Locals) (hfh : fh < s.files.length) :
    (lcwrite_xfer env fh begin n i s l).2.n = (l.n + n) % 2 ^ 32 ∧
      ((lcwrite_xfer env fh begin n i s l).1.fileAt fh).cur_pos =
        toI32 (toU32 (s.fileAt fh).cur_pos + n) := by
  unfold lcwrite_xfer
  dsimp only
  split
  · refine ⟨rfl, ?_⟩
    rw [fileAt_setFile _ _ _ (by simpa [lcloud_io_write] using hfh)]
    split_ifs <;> rfl
  · refine ⟨rfl, ?_⟩
    rw [fileAt_setFile _ _ _ (by simpa [lcloud_io_write, lcloud_io_read] using hfh)]
    split_ifs <;> rfl

/-- A write of one byte at position `2 ^ 31 - 1`, into a block the file has: it returns 1 and
the position wraps to `-2 ^ 31`. -/
theorem lcwrite_at_int_max {σ : Type} (env : Env σ) (s : FsState σ) (fh fuel : Nat)
    (buf : List Nat) (hfh : fh < s.files.length) (hopen : (s.fileAt fh).is_open = true)
    (hp : (s.fileAt fh).cur_pos = ((2147483647 : Nat) : Int))
    (hb : (s.fileAt fh).blocks.length ≠ 8388607) (hfuel : 1 ≤ fuel) :
    ∃ s1, lcwrite env fuel s (fh : Int) buf 1 = some (s1, 1) ∧
      (s1.fileAt fh).cur_pos = -2147483648 := by
  obtain ⟨k, rfl⟩ : ∃ k, fuel = k + 1 := ⟨fuel - 1, by omega⟩
  obtain ⟨hbegin, hchunk, hidx⟩ := pass_arith 2147483647 1 (by norm_num) (by norm_num)
  have hne : ((2147483647 / 256 : Nat) : Int) ≠ ((s.fileAt fh).blocks.length : Int) := by
    intro h
    apply hb
    have : (2147483647 / 256 : Nat) = (s.fileAt fh).blocks.length := by exact_mod_cast h
    omega
  have hbody : lcwrite_body env k fh 1 s { n := 0, tmp := env.tmp, buf := buf } =
      some ((lcwrite_xfer env fh (2147483647 % 256) (min (256 - 2147483647 % 256) 1)
          ((2147483647 / 256 : Nat) : Int) s { n := 0, tmp := env.tmp, buf := buf }).1,
        (lcwrite_xfer env fh (2147483647 % 256) (min (256 - 2147483647 % 256) 1)
          ((2147483647 / 256 : Nat) : Int) s { n := 0, tmp := env.tmp, buf := buf }).2,
        true) := by
    unfold lcwrite_body
    simp only [hp, hbegin, Nat.sub_zero, hchunk, hidx]
    rw [lcwrite_alloc_skip env k fh s _ hne]
  obtain ⟨hn, hpos⟩ := lcwrite_xfer_pos env fh (2147483647 % 256)
    (min (256 - 2147483647 % 256) 1) ((2147483647 / 256 : Nat) : Int) s
    { n := 0, tmp := env.tmp, buf := buf } hfh
  rw [hp, toU32_natCast _ (by norm_num)] at hpos
  have hn1 : (lcwrite_xfer env fh (2147483647 % 256) (min (256 - 2147483647 % 256) 1)
      ((2147483647 / 256 : Nat) : Int) s { n := 0, tmp := env.tmp, buf := buf }).2.n = 1 := by
    rw [hn]
    show (0 + min (256 - 2147483647 % 256) 1) % 2 ^ 32 = 1
    decide
  have hwrap : toI32 (2147483647 + min (256 - 2147483647 % 256) 1) = -2147483648 := by
    decide
  rw [lcwrite_open env _ s fh buf 1 hfh hopen, lcwrite_loop, if_pos (by norm_num), hbody]
  simp only []
  rw [lcwrite_loop_done _ _ _ _ _ _ (by rw [hn1]; norm_num)]
  refine ⟨_, ?_, by rw [hpos, hwrap]⟩
  simp only [hn1]
  rfl

/-- Claim C24 as stated fails: in `fullState` the only record satisfies `0 ≤ cur_pos ≤
file_size` (`cur_pos = file_size = 2147483647`, the largest `int`); a write of one byte through
its handle does not fit (`fits` fails), and `lcwrite` returns 1 and leaves
`cur_pos = -2147483648`, so the record no longer satisfies the invariant. -/
theorem position_invariant_counterexample :
    (∀ f ∈ fullState.files, f.posOk) ∧
      ¬ (FsCall.writeCall 0 [7] 1).fits fullState ∧
      ∃ s1, lcwrite (blockStore 1 32768 256 2) 1 fullState 0 [7] 1 = some (s1, 1) ∧
        (s1.fileAt 0).cur_pos = -2147483648 ∧ ¬ (s1.fileAt 0).posOk := by
  refine ⟨?_, ?_, ?_⟩
  · intro f hf
    have : f = fullFile := by simpa [fullState] using hf
    rw [this]
    exact ⟨by decide, by decide, by decide⟩
  · intro h
    have h1 : (2147483647 : Int) + ((1 : Nat) : Int) < 2 ^ 31 := h (le_refl _) (by decide) rfl
    norm_num at h1
  · have hat : fullState.fileAt 0 = fullFile := rfl
    have hlen : fullFile.blocks.length = 8388608 := by
      unfold fullFile
      rw [List.length_map, List.length_range]
    obtain ⟨s1, h1, h2⟩ := lcwrite_at_int_max (blockStore 1 32768 256 2) fullState 0 1 [7]
      (Nat.zero_lt_one) (by rw [hat]; rfl) (by rw [hat]; rfl)
      (by rw [hat, hlen]; norm_num) (le_refl _)
    refine ⟨s1, h1, h2, ?_⟩
    intro hok
    have := hok.1
    rw [h2] at this
    omega

/-- Claim C24, amended (position invariant): if every file record satisfies
`0 ≤ cur_pos ≤ file_size` (with `file_size` in the range of `int`), then after any call of
`lcopen`, `lcread`, `lcseek` or `lcclose`, with any arguments, and after any call of `lcwrite`
that does not take the position past the largest `int` (`fits`: through a valid handle of an
open file, `cur_pos + len < 2 ^ 31`), against any controller, whether the call succeeds or
fails, every file record satisfies it again; this includes the record a successful `lcopen`
creates.  The call returns when given the fuel `passes`. -/
theorem position_invariant {σ : Type} (env : Env σ) (s : FsState σ) (c : FsCall) (fuel : Nat)
    (hinv : ∀ f ∈ s.files, f.posOk) (hfits : c.fits s) (hfuel : c.passes s ≤ fuel) :
    ∃ s1, c.run env fuel s = some s1 ∧ ∀ f ∈ s1.files, f.posOk := by
  cases c with
  | openCall path =>
    have hfuel16 : 16 ≤ fuel := hfuel
    have key : ∀ t : FsState σ, (∀ f ∈ t.files, f.posOk) →
        ∃ s1, Option.map Prod.fst
            (match lcopen_scan path t.files 0 with
            | some i =>
              if (t.fileAt i).is_open then some (t, (-1 : Int))
              else some (t.setFile i { t.fileAt i with cur_pos := 0 }, (i : Int))
            | none =>
              some ({ t with files := t.files ++
                  [{ file_name := path, is_open := true, file_size := 0, cur_pos := 0,
                     blocks := [] }] },
                (t.files.length : Int))) = some s1 ∧
          ∀ f ∈ s1.files, f.posOk := by
      intro t ht
      cases hscan : lcopen_scan path t.files 0 with
      | none =>
        simp only [Option.map_some']
        refine ⟨_, rfl, ?_⟩
        intro f hf
        rcases List.mem_append.mp hf with hf | hf
        · exact ht f hf
        · simp only [List.mem_singleton] at hf
          rw [hf]
          exact ⟨le_refl _, le_refl _, by norm_num⟩
      | some i =>
        simp only []
        split_ifs
        · exact ⟨_, rfl, ht⟩
        · refine ⟨_, rfl, ?_⟩
          have hi := fileAt_posOk t ht i
          exact posOk_set _ ht i _ ⟨le_refl _, le_trans hi.1 hi.2.1, hi.2.2⟩
    show ∃ s1, (lcopen env fuel s path).map Prod.fst = some s1 ∧ _
    unfold lcopen
    by_cases h0 : s.lcloud = 0
    · obtain ⟨r, hr, hf⟩ := lcloud_initialization_files env fuel hfuel16 s
      simp only [h0, if_true, hr, Option.map_some']
      exact key r.1 (by rw [hf]; exact hinv)
    · simp only [h0, if_false]
      exact key s hinv
  | readCall fh buf len =>
    show ∃ s1, (lcread env fuel s fh buf len).map Prod.fst = some s1 ∧ _
    unfold lcread
    split_ifs with hg ho
    · exact ⟨s, rfl, hinv⟩
    · exact ⟨s, rfl, hinv⟩
    · have hfh : fh.toNat < s.files.length := by omega
      obtain ⟨p0, p1, p2⟩ := fileAt_posOk s hinv fh.toNat
      obtain ⟨p, hp⟩ := Int.eq_ofNat_of_zero_le p0
      have hleft : toU64 ((s.fileAt fh.toNat).file_size - (s.fileAt fh.toNat).cur_pos) =
          ((s.fileAt fh.toNat).file_size - (s.fileAt fh.toNat).cur_pos).toNat :=
        toU64_small _ (by omega) (by omega)
      have hpass : min len (toU64 ((s.fileAt fh.toNat).file_size -
          (s.fileAt fh.toNat).cur_pos)) ≤ fuel := hfuel
      dsimp only
      generalize hlen1 : (if len > toU64 ((s.fileAt fh.toNat).file_size -
          (s.fileAt fh.toNat).cur_pos) then
          toU64 ((s.fileAt fh.toNat).file_size - (s.fileAt fh.toNat).cur_pos) else len) = len1
      have hle : (len1 : Int) ≤ (s.fileAt fh.toNat).file_size - (s.fileAt fh.toNat).cur_pos ∧
          len1 ≤ fuel := by
        rw [← hlen1]
        split_ifs with hc
        · rw [hleft] at hc ⊢
          rw [hleft] at hpass
          omega
        · rw [hleft] at hc
          rw [hleft] at hpass
          omega
      obtain ⟨s1, l1, hr, _, hf⟩ := lcread_loop_spec env fh.toNat len1 (by omega) fuel s
        { n := 0, tmp := env.tmp, buf := buf } p hfh hp (Nat.zero_le _)
        (by simp only [Nat.sub_zero]; omega) (by simp only [Nat.sub_zero]; omega)
      rw [hr]
      refine ⟨s1, rfl, ?_⟩
      rw [hf]
      exact posOk_set _ hinv _ _ ⟨by show (0 : Int) ≤ ((p + (len1 - 0) : Nat) : Int); omega,
        by
          show ((p + (len1 - 0) : Nat) : Int) ≤ (s.fileAt fh.toNat).file_size
          omega, p2⟩
  | writeCall fh buf len =>
    show ∃ s1, (lcwrite env fuel s fh buf len).map Prod.fst = some s1 ∧ _
    unfold lcwrite
    split_ifs with hg ho
    · exact ⟨s, rfl, hinv⟩
    · exact ⟨s, rfl, hinv⟩
    · have hfh : fh.toNat < s.files.length := by omega
      obtain ⟨p0, p1, p2⟩ := fileAt_posOk s hinv fh.toNat
      obtain ⟨p, hp⟩ := Int.eq_ofNat_of_zero_le p0
      have hopen : (s.fileAt fh.toNat).is_open = true := by simpa using ho
      have hfit : (s.fileAt fh.toNat).cur_pos + (len : Int) < 2 ^ 31 :=
        hfits (by omega) (by omega) hopen
      have hpass : len + ((16 - s.cur_device).toNat + 1) ≤ fuel := hfuel
      obtain ⟨s1, l1, g, hr, hf, hgok⟩ := lcwrite_loop_pos env fh.toNat len (by omega) fuel s
        { n := 0, tmp := env.tmp, buf := buf } p hfh hp (by omega) p2 (Nat.zero_le _)
        (by simp only [Nat.sub_zero]; omega) (by simp only [Nat.sub_zero]; omega)
      rw [hr]
      refine ⟨s1, rfl, ?_⟩
      rw [hf]
      exact posOk_set _ hinv _ _ hgok
  | seekCall fh off =>
    show ∃ s1, some (lcseek s fh off).1 = some s1 ∧ _
    refine ⟨_, rfl, ?_⟩
    unfold lcseek
    split_ifs with hg ho hoff
    · exact hinv
    · exact hinv
    · exact hinv
    · obtain ⟨p0, p1, p2⟩ := fileAt_posOk s hinv fh.toNat
      have hle : off ≤ ((s.fileAt fh.toNat).file_size).toNat := by
        rw [toU64_small _ (by omega) p2] at hoff
        omega
      have e : toI32 off = (off : Int) := toI32_small off (by omega)
      exact posOk_set _ hinv _ _ ⟨by show 0 ≤ toI32 off; omega,
        by show toI32 off ≤ (s.fileAt fh.toNat).file_size; omega, p2⟩
  | closeCall fh =>
    show ∃ s1, some (lcclose s fh).1 = some s1 ∧ _
    refine ⟨_, rfl, ?_⟩
    unfold lcclose
    split_ifs with hg ho
    · exact hinv
    · exact hinv
    · obtain ⟨p0, p1, p2⟩ := fileAt_posOk s hinv fh.toNat
      exact posOk_set _ hinv _ _ ⟨le_refl _, by show (0 : Int) ≤ (s.fileAt fh.toNat).file_size; omega,
        p2⟩

theorem position_invariant_witness :
    (∃ s1, (FsCall.writeCall 0 [1, 2, 3] 3).run acceptAll 20 roomyState = some s1 ∧
        ∀ f ∈ s1.files, f.posOk) ∧
      (∃ s1, (FsCall.seekCall 0 301).run acceptAll 0 roomyState = some s1 ∧
        ∀ f ∈ s1.files, f.posOk) :=
  ⟨position_invariant acceptAll roomyState (FsCall.writeCall 0 [1, 2, 3] 3) 20 (by decide)
      (fun _ _ _ => by decide) (by decide),
    position_invariant acceptAll roomyState (FsCall.seekCall 0 301) 0 (by decide) trivial
      (by decide)⟩

/-! ## Initialisation against the faithful block store -/

theorem frame_fields (b0 b1 c0 c1 c2 d0 d1 : Nat) (h0 : b0 < 2 ^ 4) (h1 : b1 < 2 ^ 4)
    (h2 : c0 < 2 ^ 8) (h3 : c1 < 2 ^ 8) (h4 : c2 < 2 ^ 8) (h5 : d0 < 2 ^ 16)
    (h6 : d1 < 2 ^ 16) :
    extract_lcloud_registers
        (create_lcloud_registers (b0 : Int) (b1 : Int) (c0 : Int) (c1 : Int) (c2 : Int)
          (d0 : Int) (d1 : Int)) =
      { b0 := (b0 : Int), b1 := (b1 : Int), c0 := (c0 : Int), c1 := (c1 : Int),
        c2 := (c2 : Int), d0 := (d0 : Int), d1 := (d1 : Int) } := by
  have e := extract_create_nat b0 b1 c0 c1 c2 d0 d1 (by omega) (by omega) (by omega)
    (by omega) (by omega) (by omega) (by omega)
  rw [e]
  have z : ∀ (x k j : Nat), x < 2 ^ k → k ≤ j → x >>> j = 0 := by
    intro x k j hx hkj
    exact shr_zero_of_lt x j (lt_of_lt_of_le hx (Nat.pow_le_pow_right (by norm_num) hkj))
  simp only [z b1 4 4 h1 (by norm_num),
    z c0 8 12 h2 (by norm_num), z c0 8 8 h2 (by norm_num),
    z c1 8 20 h3 (by norm_num), z c1 8 16 h3 (by norm_num), z c1 8 8 h3 (by norm_num),
    z c2 8 28 h4 (by norm_num), z c2 8 24 h4 (by norm_num), z c2 8 16 h4 (by norm_num),
    z c2 8 8 h4 (by norm_num),
    z d0 16 44 h5 (by norm_num), z d0 16 40 h5 (by norm_num), z d0 16 32 h5 (by norm_num),
    z d0 16 24 h5 (by norm_num), z d0 16 16 h5 (by norm_num),
    z d1 16 60 h6 (by norm_num), z d1 16 56 h6 (by norm_num), z d1 16 48 h6 (by norm_num),
    z d1 16 40 h6 (by norm_num), z d1 16 32 h6 (by norm_num), z d1 16 16 h6 (by norm_num),
    Nat.or_zero, Nat.zero_or, Nat.mod_eq_of_lt h0, Nat.mod_eq_of_lt h1, Nat.mod_eq_of_lt h2,
    Nat.mod_eq_of_lt h3, Nat.mod_eq_of_lt h4, Nat.mod_eq_of_lt h5, Nat.mod_eq_of_lt h6]

/-- A device initialisation against the faithful store succeeds and records the reported
sector and block counts with a fresh cursor. -/
theorem store_device_init (mask sectors blocks : Int) (maxblocks : Nat) (s : FsState Store)
    (dev : Nat) (hdev : dev < 16) (hs0 : 0 ≤ sectors) (hs1 : sectors < 2 ^ 16)
    (hb0 : 0 ≤ blocks) (hb1 : blocks < 2 ^ 16) :
    lcloud_io_device_init (blockStore mask sectors blocks maxblocks) s (dev : Int) =
      ({ s with
          devices := s.devices.set dev
            { lcloud := 1, cur_sector := 0, cur_block := 0, sectors_count := sectors,
              blocks_count := blocks } }, true) := by
  obtain ⟨ns, rfl⟩ := Int.eq_ofNat_of_zero_le hs0
  obtain ⟨nb, rfl⟩ := Int.eq_ofNat_of_zero_le hb0
  have hreq := frame_fields 0 0 2 dev 0 0 0 (by norm_num) (by norm_num) (by norm_num)
    (by omega) (by norm_num) (by norm_num) (by norm_num)
  have hresp := frame_fields 1 1 2 dev 0 ns nb (by norm_num) (by norm_num) (by norm_num)
    (by omega) (by norm_num) (by omega) (by omega)
  simp only [Nat.cast_zero, Nat.cast_ofNat, Nat.cast_one] at hreq hresp
  unfold lcloud_io_device_init
  simp only [blockStore, hreq, lcloud_io_succeed, hresp]
  simp [hresp]

theorem init_devices_loop_zero {σ : Type} (env : Env σ) (fuel : Nat) (s : FsState σ)
    (dev : Int) : lcloud_init_devices_loop env fuel s 0 dev = some (s, true) := by
  cases fuel <;> simp [lcloud_init_devices_loop]

theorem div_two_pow_succ (m j : Nat) : m / 2 / 2 ^ j = m / 2 ^ (j + 1) := by
  rw [Nat.div_div_eq_div_mul, pow_succ, Nat.mul_comm]

/-- The loop of `lcloud_init_devices` against the faithful store, over a bitmask of at most
`bits` bits starting at device `dev`: it succeeds, initialises exactly the devices whose bit is
set and touches nothing but the device table. -/
theorem store_init_devices_loop (mask sectors blocks : Int) (maxblocks : Nat)
    (hs0 : 0 ≤ sectors) (hs1 : sectors < 2 ^ 16) (hb0 : 0 ≤ blocks) (hb1 : blocks < 2 ^ 16) :
    ∀ (bits fuel : Nat) (s : FsState Store) (m dev : Nat), m < 2 ^ bits → dev + bits ≤ 16 →
      bits ≤ fuel → s.devices.length = 16 →
      ∃ s1, lcloud_init_devices_loop (blockStore mask sectors blocks maxblocks) fuel s
            (m : Int) (dev : Int) = some (s1, true) ∧
        s1.ctl = s.ctl ∧ s1.cache = s.cache ∧ s1.files = s.files ∧
        s1.cur_device = s.cur_device ∧ s1.lcloud = s.lcloud ∧ s1.devices.length = 16 ∧
        ∀ i, s1.devices.getD i device.zero =
          if dev ≤ i ∧ m / 2 ^ (i - dev) % 2 = 1 then
            { lcloud := 1, cur_sector := 0, cur_block := 0, sectors_count := sectors,
              blocks_count := blocks }
          else s.devices.getD i device.zero := by
  intro bits
  induction bits with
  | zero =>
    intro fuel s m dev hm _ _ hlen
    have e : m = 0 := by simpa using hm
    subst e
    refine ⟨s, init_devices_loop_zero _ _ _ _, rfl, rfl, rfl, rfl, rfl, hlen, ?_⟩
    intro i
    simp
  | succ bits ih =>
    intro fuel s m dev hm hdev hfuel hlen
    by_cases hz : m = 0
    · subst hz
      refine ⟨s, init_devices_loop_zero _ _ _ _, rfl, rfl, rfl, rfl, rfl, hlen, ?_⟩
      intro i
      simp
    · obtain ⟨f, rfl⟩ : ∃ f, fuel = f + 1 := ⟨fuel - 1, by omega⟩
      have hmz : (m : Int) ≠ 0 := by exact_mod_cast hz
      have hm32 : m < 2 ^ 32 := by
        have : (2 : Nat) ^ (bits + 1) ≤ 2 ^ 16 := Nat.pow_le_pow_right (by norm_num) (by omega)
        omega
      have hhalf : m / 2 < 2 ^ bits := by
        rw [pow_succ] at hm
        omega
      have hdiv : (m : Int) / 2 = ((m / 2 : Nat) : Int) := by norm_cast
      have hsucc : (dev : Int) + 1 = ((dev + 1 : Nat) : Int) := by norm_cast
      rw [lcloud_init_devices_loop]
      simp only [ne_eq, hmz, not_false_eq_true, if_true, toU32_natCast m hm32,
        Nat.and_one_is_mod, hdiv, hsucc]
      by_cases hodd : m % 2 = 1
      · have hne : ¬ (m % 2 = 0) := by omega
        simp only [hne, not_false_eq_true, if_true,
          store_device_init mask sectors blocks maxblocks s dev (by omega) hs0 hs1 hb0 hb1,
          Bool.not_true, Bool.false_eq_true, if_false]
        obtain ⟨s1, hr, e1, e2, e3, e4, e5, e6, hpt⟩ := ih f
          { s with
            devices := s.devices.set dev
              { lcloud := 1, cur_sector := 0, cur_block := 0, sectors_count := sectors,
                blocks_count := blocks } }
          (m / 2) (dev + 1) hhalf (by omega) (by omega) (by simpa using hlen)
        refine ⟨s1, hr, e1, e2, e3, e4, e5, e6, ?_⟩
        intro i
        rw [hpt i]
        show (if _ then _ else (s.devices.set dev _).getD i device.zero) = _
        rw [getD_set _ _ _ _ _ (by omega)]
        by_cases hid : i = dev
        · subst hid
          simp [hodd]
        · by_cases hlt : dev + 1 ≤ i
          · have e : i - dev = (i - (dev + 1)) + 1 := by omega
            rw [e, ← div_two_pow_succ]
            simp only [hlt, true_and, (by omega : dev ≤ i), Ne.symm hid, if_false]
          · have hnd : ¬ dev ≤ i := by omega
            simp only [hlt, false_and, if_false, Ne.symm hid]
            rw [if_neg (fun h => hnd h.1)]
      · have he : m % 2 = 0 := by omega
        simp only [he, not_true_eq_false, if_false]
        obtain ⟨s1, hr, e1, e2, e3, e4, e5, e6, hpt⟩ := ih f s (m / 2) (dev + 1) hhalf
          (by omega) (by omega) hlen
        refine ⟨s1, hr, e1, e2, e3, e4, e5, e6, ?_⟩
        intro i
        rw [hpt i]
        by_cases hid : i = dev
        · subst hid
          simp [hodd]
        · by_cases hlt : dev + 1 ≤ i
          · have e : i - dev = (i - (dev + 1)) + 1 := by omega
            rw [e, ← div_two_pow_succ]
            simp only [hlt, true_and, (by omega : dev ≤ i)]
          · have hnd : ¬ dev ≤ i := by omega
            simp only [hlt, false_and, if_false]
            rw [if_neg (fun h => hnd h.1)]

theorem devices_eq_deviceTable (l : List device) (m : Nat) (sectors blocks : Int)
    (hlen : l.length = 16)
    (h : ∀ i, l.getD i device.zero =
      if 0 ≤ i ∧ m / 2 ^ (i - 0) % 2 = 1 then
        { lcloud := 1, cur_sector := 0, cur_block := 0, sectors_count := sectors,
          blocks_count := blocks }
      else (List.replicate 16 device.zero).getD i device.zero) :
    l = deviceTable (m : Int) sectors blocks := by
  apply List.ext_getElem?
  intro i
  by_cases hi : i < 16
  · have h1 : l[i]? = some (l.getD i device.zero) := by
      rw [List.getD_eq_getElem _ _ (by omega), List.getElem?_eq_getElem (by omega)]
    rw [h1, h i]
    unfold deviceTable
    simp only [List.getElem?_map, List.getElem?_range hi, Option.map_some', Int.toNat_ofNat,
      Nat.zero_le, true_and, Nat.sub_zero, Option.some.injEq]
    split_ifs
    · rfl
    · simp only [List.getD_eq_getElem?_getD, List.getElem?_replicate, hi, if_true,
        Option.getD_some]
  · rw [List.getElem?_eq_none (by omega), List.getElem?_eq_none]
    unfold deviceTable
    simp only [List.length_map, List.length_range]
    omega

theorem store_power_on (mask sectors blocks : Int) (maxblocks : Nat) (s : FsState Store) :
    lcloud_io_power_on (blockStore mask sectors blocks maxblocks) s = (s, true) := by
  have hreq0 := frame_fields 0 0 0 0 0 0 0 (by norm_num) (by norm_num) (by norm_num)
    (by norm_num) (by norm_num) (by norm_num) (by norm_num)
  have hresp0 := frame_fields 1 1 0 0 0 0 0 (by norm_num) (by norm_num) (by norm_num)
    (by norm_num) (by norm_num) (by norm_num) (by norm_num)
  simp only [Nat.cast_zero, Nat.cast_ofNat, Nat.cast_one] at hreq0 hresp0
  unfold lcloud_io_power_on
  simp only [blockStore, hreq0, lcloud_io_succeed, hresp0]
  simp [hresp0]

theorem store_devices_probe (sectors blocks : Int) (maxblocks : Nat) (s : FsState Store)
    (m : Nat) (hm : m < 2 ^ 16) :
    lcloud_io_devices_probe (blockStore (m : Int) sectors blocks maxblocks) s =
      (s, some (m : Int)) := by
  have hreq1 := frame_fields 0 0 1 0 0 0 0 (by norm_num) (by norm_num) (by norm_num)
    (by norm_num) (by norm_num) (by norm_num) (by norm_num)
  have hresp1 := frame_fields 1 1 1 0 0 m 0 (by norm_num) (by norm_num) (by norm_num)
    (by norm_num) (by norm_num) (by omega) (by norm_num)
  simp only [Nat.cast_zero, Nat.cast_ofNat, Nat.cast_one] at hreq1 hresp1
  unfold lcloud_io_devices_probe
  simp only [blockStore, hreq1, lcloud_io_succeed, lcloud_io_device, hresp1]
  simp [hresp1]

/-- The path of `lcopen` that initialises the system and then creates a new record. -/
theorem lcopen_of_init {σ : Type} (env : Env σ) (fuel : Nat) (s s1 : FsState σ) (ok : Bool)
    (path : String) (h0 : s.lcloud = 0) (hinit : lcloud_initialization env fuel s = some (s1, ok))
    (hscan : lcopen_scan path s1.files 0 = none) :
    lcopen env fuel s path =
      some ({ s1 with files := s1.files ++
          [{ file_name := path, is_open := true, file_size := 0, cur_pos := 0, blocks := [] }] },
        (s1.files.length : Int)) := by
  unfold lcopen
  simp only [h0, if_true, hinit, Option.map_some', hscan]

theorem initialization_of_parts {σ : Type} (env : Env σ) (fuel : Nat) (s s1 : FsState σ)
    (ids : Int) (hpow : lcloud_io_power_on env s = (s, true))
    (hprobe : ∀ t, lcloud_io_devices_probe env t = (t, some ids))
    (hloop : lcloud_init_devices_loop env fuel
      { s with
        cache := lcloud_initcache env.LC_CACHE_MAXBLOCKS
        devices := List.replicate 16 device.zero
        cur_device := 0 } ids 0 = some (s1, true)) :
    lcloud_initialization env fuel s = some ({ s1 with lcloud := 1 }, true) := by
  unfold lcloud_initialization lcloud_init_devices
  simp only [hpow, hprobe, Bool.not_true, Bool.false_eq_true, if_false, hloop]

/-- The first `lcopen`, from the state at program start, against the faithful store: it
initialises the cache and the device table, creates the file record and returns handle 0. -/
theorem store_lcopen_fresh (mask sectors blocks : Int) (maxblocks : Nat) (st : Store)
    (name : String) (fuel : Nat) (hm0 : 0 ≤ mask) (hm1 : mask < 2 ^ 16)
    (hs0 : 0 ≤ sectors) (hs1 : sectors < 2 ^ 16) (hb0 : 0 ≤ blocks) (hb1 : blocks < 2 ^ 16)
    (hfuel : 16 ≤ fuel) :
    lcopen (blockStore mask sectors blocks maxblocks) fuel (FsState.start st) name =
      some (⟨1, deviceTable mask sectors blocks, 0, [⟨true, name, 0, 0, []⟩],
        lcloud_initcache maxblocks, st⟩, 0) := by
  obtain ⟨m, rfl⟩ := Int.eq_ofNat_of_zero_le hm0
  have hm : m < 2 ^ 16 := by omega
  obtain ⟨s1, hr, e1, e2, e3, e4, e5, e6, hpt⟩ :=
    store_init_devices_loop (m : Int) sectors blocks maxblocks hs0 hs1 hb0 hb1 16 fuel
      { FsState.start st with
        cache := lcloud_initcache (blockStore (m : Int) sectors blocks maxblocks).LC_CACHE_MAXBLOCKS
        devices := List.replicate 16 device.zero
        cur_device := 0 }
      m 0 hm (by omega) hfuel (List.length_replicate _ _)
  have hdev := devices_eq_deviceTable s1.devices m sectors blocks e6 hpt
  have hs1eq : s1 =
      ⟨0, deviceTable (m : Int) sectors blocks, 0, [], lcloud_initcache maxblocks, st⟩ := by
    cases s1
    simp only [FsState.mk.injEq]
    exact ⟨e5, hdev, e4, e3, e2, e1⟩
  have hinit := initialization_of_parts (blockStore (m : Int) sectors blocks maxblocks) fuel
    (FsState.start st) s1 (m : Int) (store_power_on _ _ _ _ _)
    (fun t => store_devices_probe _ _ _ t m hm) hr
  rw [lcopen_of_init _ _ _ _ _ _ rfl hinit (by rw [hs1eq]; rfl), hs1eq]
  rfl

/-! ## Write, then read back -/

theorem block_ne_fields (a b : block) (h : a ≠ b) :
    ¬ (a.device_id = b.device_id ∧ a.sector = b.sector ∧ a.block = b.block) := by
  intro hc
  apply h
  cases a
  cases b
  simp only [block.mk.injEq]
  exact ⟨hc.2.1, hc.2.2, hc.1⟩

theorem nodup_getElem_ne {α : Type} (l : List α) (h : l.Nodup) (i j : Nat) (a b : α)
    (hi : l[i]? = some a) (hj : l[j]? = some b) (hij : i ≠ j) : a ≠ b := by
  intro hab
  subst hab
  obtain ⟨hil, hia⟩ := List.getElem?_eq_some_iff.mp hi
  obtain ⟨hjl, hja⟩ := List.getElem?_eq_some_iff.mp hj
  exact hij ((List.Nodup.getElem_inj_iff h).mp (hia.trans hja.symm))

/-- A chunk written in place extends the stored prefix: after `n` bytes of `bytes` from
position `p = 256 i + o` went into block `i` at offset `o`, the first `p + n` bytes are on the
store. -/
theorem storedPrefix_write (st : Store) (final : List block) (bytes : List Nat)
    (p n i o : Nat) (b : block) (hnodup : final.Nodup) (hb : final[i]? = some b)
    (hp : p = 256 * i + o) (hon : o + n ≤ 256) (hn : 1 ≤ n) (hbuf : p + n ≤ bytes.length)
    (h : storedPrefix st final bytes p) :
    storedPrefix
      (st.write b.device_id b.sector b.block
        (memcpy (st.data b.device_id b.sector b.block) o bytes p n))
      final bytes (p + n) := by
  intro j bj hj hjn
  have hlen : (memcpy (st.data b.device_id b.sector b.block) o bytes p n).length =
      LC_DEVICE_BLOCK_SIZE := by
    rw [length_memcpy _ _ _ _ _ (by rw [st.wf]; exact hon) hbuf, st.wf]
  by_cases hji : j = i
  · subst hji
    have hbj : bj = b := by rw [hb] at hj; exact (Option.some.inj hj).symm
    subst hbj
    rw [store_write_same, blockOf_eq _ hlen]
    have hm : min 256 (p + n - 256 * j) = o + n := by omega
    rw [hm]
    have hchunk : ((bytes.drop p).take n).length = n := by
      rw [List.length_take, List.length_drop]; omega
    have hold : (st.data bj.device_id bj.sector bj.block).take o =
        (bytes.drop (256 * j)).take o := by
      by_cases ho : o = 0
      · subst ho; simp
      · have := h j bj hj (by omega)
        have hm2 : min 256 (p - 256 * j) = o := by omega
        rw [hm2] at this
        exact this
    have hleno : ((st.data bj.device_id bj.sector bj.block).take o).length = o := by
      rw [List.length_take, st.wf]
      show min o 256 = o
      omega
    have hAX : ((st.data bj.device_id bj.sector bj.block).take o ++
        (bytes.drop p).take n).length = o + n := by
      rw [List.length_append, hleno, hchunk]
    have hdd : (bytes.drop (256 * j)).drop o = bytes.drop p := by
      rw [List.drop_drop, hp]
    unfold memcpy
    rw [List.take_left' hAX, List.take_add (bytes.drop (256 * j)) o n, hdd, hold]
  · have hlt : j < i := by omega
    have hne : bj ≠ b := nodup_getElem_ne final hnodup j i bj b hj hb hji
    rw [store_write_other _ _ _ _ _ _ _ _ (block_ne_fields bj b hne)]
    have hm : min 256 (p + n - 256 * j) = min 256 (p - 256 * j) := by omega
    rw [hm]
    exact h j bj hj (by omega)

/-- The allocation step that hands out a block leaves the controller and the cache alone. -/
theorem lcwrite_alloc_ok_frame {σ : Type} (env : Env σ) (fuelA fuel fh : Nat)
    (hle : fuelA ≤ fuel) (s s1 : FsState σ) (d sec blk : Int) (hfh : fh < s.files.length)
    (h : lcloud_get_free_block fuelA s = some (s1, some (d, sec, blk))) :
    ∃ s2, lcwrite_alloc env fuel fh s ((s.fileAt fh).blocks.length : Int) = some (s2, true) ∧
      s2.files = s.files.set fh { s.fileAt fh with
        blocks := (s.fileAt fh).blocks ++ [{ sector := sec, block := blk, device_id := d }] } ∧
      s2.devices = s1.devices ∧ s2.cur_device = s1.cur_device ∧ s2.ctl = s.ctl ∧
      s2.cache = s.cache := by
  have ht := get_free_block_transfer fuelA fuel hle s
    (s.setFile fh { s.fileAt fh with blocks := (s.fileAt fh).blocks ++ [env.junk] }) s1 _
    rfl rfl h
  unfold lcwrite_alloc
  simp only [if_true, ht]
  refine ⟨_, rfl, ?_, rfl, rfl, rfl, rfl⟩
  simp only [FsState.setFile, FsState.fileAt, List.set_set, List.getD_eq_getElem?_getD,
    List.getElem?_set, hfh, if_true, Option.getD_some, Int.toNat_ofNat, set_length_append]

theorem take_succ_of_getElem {α : Type} (l : List α) (i : Nat) (a : α) (h : l[i]? = some a) :
    l.take (i + 1) = l.take i ++ [a] := by
  rw [List.take_succ, h]
  rfl

theorem drop_of_getElem {α : Type} (l : List α) (i : Nat) (a : α) (h : l[i]? = some a) :
    l.drop i = a :: l.drop (i + 1) := by
  obtain ⟨hi, ha⟩ := List.getElem?_eq_some_iff.mp h
  rw [List.drop_eq_getElem_cons hi, ha]

theorem file_update_self (f : file) (a b : Int) (c : List block) (h1 : f.cur_pos = a)
    (h2 : f.file_size = b) (h3 : f.blocks = c) :
    ({ f with cur_pos := a, file_size := b, blocks := c } : file) = f := by
  cases f
  simp_all

theorem blocks_upto (p : Nat) :
    (p % 256 = 0 → (p + 255) / 256 = p / 256) ∧
      (p % 256 ≠ 0 → (p + 255) / 256 = p / 256 + 1) := by
  constructor <;> intro h <;> omega

/-- The allocation step of a pass of `lcwrite` at position `p` of a file whose block list is
the part of `final` that covers the bytes so far, when the allocator will hand out the rest of
`final`: afterwards the block list covers block `p / 256`, and the allocator will hand out what
is then missing.  The controller and the cache are not touched. -/
theorem lcwrite_alloc_store {σ : Type} (env : Env σ) (fuelA fuel fh p : Nat) (hle : fuelA ≤ fuel)
    (final : List block) (s sA : FsState σ) (hfh : fh < s.files.length)
    (hi : p / 256 < final.length)
    (hbl : (s.fileAt fh).blocks = final.take ((p + 255) / 256))
    (halloc : allocMany fuelA (final.length - (p + 255) / 256) s =
      some (sA, final.drop ((p + 255) / 256))) :
    ∃ s2 sA2, lcwrite_alloc env fuel fh s ((p / 256 : Nat) : Int) = some (s2, true) ∧
      s2.files = s.files.set fh { s.fileAt fh with blocks := final.take (p / 256 + 1) } ∧
      s2.ctl = s.ctl ∧ s2.cache = s.cache ∧
      allocMany fuelA (final.length - (p / 256 + 1)) s2 =
        some (sA2, final.drop (p / 256 + 1)) := by
  obtain ⟨hup0, hup1⟩ := blocks_upto p
  have hbi : final[p / 256]? = some (final.get ⟨p / 256, hi⟩) := List.getElem?_eq_getElem hi
  by_cases ho : p % 256 = 0
  · rw [hup0 ho] at hbl halloc
    have hblen : (s.fileAt fh).blocks.length = p / 256 := by
      rw [hbl, List.length_take]
      omega
    have hm : final.length - p / 256 = (final.length - (p / 256 + 1)) + 1 := by omega
    rw [hm] at halloc
    obtain ⟨sa, d, sec, blk, rest, hg, hrest, hnew⟩ := allocMany_succ fuelA _ s sA _ halloc
    rw [drop_of_getElem final (p / 256) _ hbi] at hnew
    simp only [List.cons.injEq] at hnew
    obtain ⟨hb, hr⟩ := hnew
    obtain ⟨s2, h2, hf2, hd2, hc2, hctl2, hcache2⟩ :=
      lcwrite_alloc_ok_frame env fuelA fuel fh hle s sa d sec blk hfh hg
    rw [hblen] at h2
    obtain ⟨tA, htA, _, _⟩ := allocMany_transfer fuelA fuelA (le_refl _) _ sa s2 sA rest
      hd2.symm hc2.symm hrest
    refine ⟨s2, tA, h2, ?_, hctl2, hcache2, by rw [hr]; exact htA⟩
    rw [hf2, hbl, take_succ_of_getElem final (p / 256) _ hbi, hb]
  · rw [hup1 ho] at hbl halloc
    have hblen : (s.fileAt fh).blocks.length = p / 256 + 1 := by
      rw [hbl, List.length_take]
      omega
    have hne : ((p / 256 : Nat) : Int) ≠ ((s.fileAt fh).blocks.length : Int) := by
      rw [hblen]
      push_cast
      omega
    refine ⟨s, sA, lcwrite_alloc_skip env fuel fh s _ hne, ?_, rfl, rfl, halloc⟩
    rw [← hbl]
    exact (set_getD_self _ s.files fh hfh).symm

/-- The loop of `lcwrite` into a file whose bytes so far are on the store, against the faithful
store, when the allocator will hand out the blocks still missing and `final` is the block list
in the end: with enough fuel it writes everything; the block list becomes `final`, all `len`
bytes are on the store, and the cache stays coherent with unique keys. -/
theorem lcwrite_loop_store (mask sectors blocks : Int) (maxblocks : Nat) (fh len fuelA : Nat)
    (hlen : len < 2 ^ 31) (final : List block) (hnodup : final.Nodup)
    (hrange : ∀ b ∈ final, locatorInRange b) (hK : final.length = (len + 255) / 256) :
    ∀ (fuel : Nat) (s : FsState Store) (l : Locals) (sA : FsState Store),
      fh < s.files.length →
      (s.fileAt fh).cur_pos = (l.n : Int) →
      (s.fileAt fh).file_size = (l.n : Int) →
      (s.fileAt fh).blocks = final.take ((l.n + 255) / 256) →
      l.n ≤ len → len ≤ l.buf.length →
      allocMany fuelA (final.length - (l.n + 255) / 256) s =
        some (sA, final.drop ((l.n + 255) / 256)) →
      storedPrefix s.ctl final l.buf l.n →
      coherent s.cache s.ctl → s.cache.uniqueKeys →
      (len - l.n) + fuelA ≤ fuel →
      ∃ s1 l1, lcwrite_loop (blockStore mask sectors blocks maxblocks) fh len fuel s l =
            some (s1, l1) ∧ l1.n = len ∧
        s1.files = s.files.set fh { s.fileAt fh with
          cur_pos := (len : Int), file_size := (len : Int), blocks := final } ∧
        storedPrefix s1.ctl final l.buf len ∧ coherent s1.cache s1.ctl ∧
        s1.cache.uniqueKeys := by
  intro fuel
  induction fuel with
  | zero =>
    intro s l sA hfh hp hfs hbl hn hbuf halloc hst hcoh huniq hfuel
    have hnl : ¬ l.n < len := by omega
    have hnlen : l.n = len := by omega
    refine ⟨s, l, lcwrite_loop_done _ _ _ _ _ _ hnl, hnlen, ?_, by rw [← hnlen]; exact hst,
      hcoh, huniq⟩
    have hfin : (s.fileAt fh).blocks = final := by
      rw [hbl, hnlen, ← hK, List.take_length]
    rw [file_update_self _ _ _ _ (by rw [hp, hnlen]) (by rw [hfs, hnlen]) hfin]
    exact (set_getD_self _ s.files fh hfh).symm
  | succ fuel ih =>
    intro s l sA hfh hp hfs hbl hn hbuf halloc hst hcoh huniq hfuel
    by_cases hnl : l.n < len
    · have hb256 : l.n % 256 < 256 := Nat.mod_lt _ (by norm_num)
      obtain ⟨hbegin, hchunk, hidx⟩ := pass_arith l.n (len - l.n) (by omega) (by omega)
      have hi : l.n / 256 < final.length := by rw [hK]; omega
      have hbi : final[l.n / 256]? = some (final.get ⟨l.n / 256, hi⟩) :=
        List.getElem?_eq_getElem hi
      generalize hbdef : final.get ⟨l.n / 256, hi⟩ = b at hbi
      have hbr : locatorInRange b := hrange b (List.getElem?_mem hbi)
      have hn1 : 1 ≤ min (256 - l.n % 256) (len - l.n) := by omega
      have hon : l.n % 256 + min (256 - l.n % 256) (len - l.n) ≤ 256 := by omega
      -- allocation
      obtain ⟨s2, sA2, h2, hf2, hctl2, hcache2, halloc2⟩ :=
        lcwrite_alloc_store (blockStore mask sectors blocks maxblocks) fuelA fuel fh l.n
          (by omega) final s sA hfh hi hbl halloc
      have hat2 := fileAt_of_files s s2 fh _ hf2 hfh
      have hlen2 : s2.files.length = s.files.length := by rw [hf2, List.length_set]
      have hblk2 : (s2.fileAt fh).blockAt (blockStore mask sectors blocks maxblocks)
          ((l.n / 256 : Nat) : Int) = b := by
        apply blockAt_of_getElem
        rw [hat2]
        show (final.take (l.n / 256 + 1))[l.n / 256]? = some b
        rw [List.getElem?_take_of_lt (by omega)]
        exact hbi
      -- transfer
      obtain ⟨hctlx, hcohx, huniqx⟩ := lcwrite_xfer_store mask sectors blocks maxblocks s2 fh
        (l.n % 256) (min (256 - l.n % 256) (len - l.n)) ((l.n / 256 : Nat) : Int) l
        (by rw [hblk2]; exact hbr) (by rw [hctl2, hcache2]; exact hcoh)
        (by rw [hcache2]; exact huniq) hon (by omega)
      rw [hblk2, hctl2] at hctlx
      obtain ⟨x1, x2, x3, x4, x5⟩ := lcwrite_xfer_spec
        (blockStore mask sectors blocks maxblocks) fh
        (min (256 - l.n % 256) (len - l.n)) (l.n % 256) ((l.n / 256 : Nat) : Int) s2 l l.n
        (by rw [hat2]; exact hp) (by omega) (by omega)
      have hbody : lcwrite_body (blockStore mask sectors blocks maxblocks) fuel fh len s l =
          some ((lcwrite_xfer (blockStore mask sectors blocks maxblocks) fh (l.n % 256)
              (min (256 - l.n % 256) (len - l.n)) ((l.n / 256 : Nat) : Int) s2 l).1,
            (lcwrite_xfer (blockStore mask sectors blocks maxblocks) fh (l.n % 256)
              (min (256 - l.n % 256) (len - l.n)) ((l.n / 256 : Nat) : Int) s2 l).2,
            true) := by
        unfold lcwrite_body
        simp only [hp, hbegin, hchunk, hidx, h2]
      generalize hsx : (lcwrite_xfer (blockStore mask sectors blocks maxblocks) fh (l.n % 256)
        (min (256 - l.n % 256) (len - l.n)) ((l.n / 256 : Nat) : Int) s2 l) = rx
        at hbody hctlx hcohx huniqx x1 x2 x3 x4 x5
      obtain ⟨sx, lx⟩ := rx
      dsimp only at hbody hctlx hcohx huniqx x1 x2 x3 x4 x5
      have hmaxp : max (s.fileAt fh).file_size
          ((l.n + min (256 - l.n % 256) (len - l.n) : Nat) : Int) =
          ((l.n + min (256 - l.n % 256) (len - l.n) : Nat) : Int) := by
        rw [hfs]
        exact max_eq_right (by push_cast; omega)
      rw [hat2] at x1
      simp only [hmaxp] at x1
      rw [hf2, List.set_set] at x1
      have hatx := fileAt_of_files s sx fh _ x1 hfh
      have hupx : (lx.n + 255) / 256 = l.n / 256 + 1 := by rw [x4]; omega
      obtain ⟨tA, htA, _, _⟩ := allocMany_transfer fuelA fuelA (le_refl _) _ s2 sx sA2 _
        x2.symm x3.symm halloc2
      have hstx : storedPrefix sx.ctl final lx.buf lx.n := by
        rw [hctlx, x5, x4]
        exact storedPrefix_write s.ctl final l.buf l.n _ (l.n / 256) (l.n % 256) b hnodup hbi
          (by omega) hon hn1 (by omega) hst
      obtain ⟨s1, l1, hr, hl1, hf1, hst1, hcoh1, huniq1⟩ := ih sx lx tA
        (by rw [x1, List.length_set]; exact hfh)
        (by rw [hatx, x4])
        (by rw [hatx, x4])
        (by rw [hatx, hupx])
        (by rw [x4]; omega)
        (by rw [x5]; exact hbuf)
        (by rw [hupx]; exact htA)
        hstx hcohx huniqx
        (by rw [x4]; omega)
      refine ⟨s1, l1, ?_, hl1, ?_, by rw [← x5]; exact hst1, hcoh1, huniq1⟩
      · rw [lcwrite_loop, if_pos hnl, hbody]
        exact hr
      · rw [hf1, x1, List.set_set, hatx]
    · have hnlen : l.n = len := by omega
      refine ⟨s, l, lcwrite_loop_done _ _ _ _ _ _ hnl, hnlen, ?_, by rw [← hnlen]; exact hst,
        hcoh, huniq⟩
      have hfin : (s.fileAt fh).blocks = final := by
        rw [hbl, hnlen, ← hK, List.take_length]
      rw [file_update_self _ _ _ _ (by rw [hp, hnlen]) (by rw [hfs, hnlen]) hfin]
      exact (set_getD_self _ s.files fh hfh).symm

theorem slice_take {α : Type} (l : List α) (m o n : Nat) (h : o + n ≤ m) :
    ((l.take m).drop o).take n = (l.drop o).take n := by
  rw [List.drop_take, List.take_take]
  congr 1
  omega

/-- A chunk inside the stored prefix, read from the store, is the chunk of `bytes`. -/
theorem stored_chunk (st : Store) (final : List block) (bytes : List Nat) (len i o n : Nat)
    (b : block) (h : storedPrefix st final bytes len) (hb : final[i]? = some b)
    (hbound : 256 * i + o + n ≤ len) (hon : o + n ≤ 256) (hn : 1 ≤ n) :
    ((st.data b.device_id b.sector b.block).drop o).take n =
      (bytes.drop (256 * i + o)).take n := by
  have h1 := h i b hb (by omega)
  have h2 := congrArg (fun x => (x.drop o).take n) h1
  dsimp only at h2
  rw [slice_take _ _ _ _ (by omega), slice_take _ _ _ _ (by omega), List.drop_drop] at h2
  rw [h2]

theorem read_buffer_step (bytes out chunk : List Nat) (p n : Nat) (hp : p ≤ bytes.length)
    (hchunk : chunk = (bytes.drop p).take n) (hpn : p + n ≤ bytes.length) :
    (bytes.take p ++ out.drop p).take p ++ chunk ++ (bytes.take p ++ out.drop p).drop (p + n) =
      bytes.take (p + n) ++ out.drop (p + n) := by
  have hA : (bytes.take p).length = p := by rw [List.length_take]; omega
  rw [List.take_left' hA, hchunk, ← List.take_add]
  congr 1
  rw [← List.drop_drop, List.drop_left' hA, List.drop_drop]

/-- The loop of `lcread` over a file whose first `len` bytes are on the store, against the
faithful store: with enough fuel it reads `len` bytes, and the buffer then holds these bytes of
`bytes`, whatever the cache held. -/
theorem lcread_loop_store (mask sectors blocks : Int) (maxblocks : Nat) (fh len : Nat)
    (hlen : len < 2 ^ 31) (final : List block) (hrange : ∀ b ∈ final, locatorInRange b)
    (hK : final.length = (len + 255) / 256) (bytes out : List Nat)
    (hbytes : len ≤ bytes.length) :
    ∀ (fuel : Nat) (s : FsState Store) (l : Locals),
      fh < s.files.length → (s.fileAt fh).cur_pos = (l.n : Int) →
      (s.fileAt fh).blocks = final → l.n ≤ len →
      l.buf = bytes.take l.n ++ out.drop l.n →
      storedPrefix s.ctl final bytes len → coherent s.cache s.ctl → s.cache.uniqueKeys →
      len - l.n ≤ fuel →
      ∃ s1 l1, lcread_loop (blockStore mask sectors blocks maxblocks) fh len fuel s l =
          some (s1, l1) ∧ l1.n = len ∧ l1.buf = bytes.take len ++ out.drop len := by
  intro fuel
  induction fuel with
  | zero =>
    intro s l hfh hp hbl hn hbuf hst hcoh huniq hfuel
    have hnl : ¬ l.n < len := by omega
    have hnlen : l.n = len := by omega
    exact ⟨s, l, lcread_loop_done _ _ _ _ _ _ hnl, hnlen, by rw [hbuf, hnlen]⟩
  | succ fuel ih =>
    intro s l hfh hp hbl hn hbuf hst hcoh huniq hfuel
    by_cases hnl : l.n < len
    · have hb256 : l.n % 256 < 256 := Nat.mod_lt _ (by norm_num)
      obtain ⟨hbegin, hchunk, hidx⟩ := pass_arith l.n (len - l.n) (by omega) (by omega)
      have hi : l.n / 256 < final.length := by rw [hK]; omega
      have hbi : final[l.n / 256]? = some (final.get ⟨l.n / 256, hi⟩) :=
        List.getElem?_eq_getElem hi
      generalize hbdef : final.get ⟨l.n / 256, hi⟩ = b at hbi
      have hbr : locatorInRange b := hrange b (List.getElem?_mem hbi)
      have hn1 : 1 ≤ min (256 - l.n % 256) (len - l.n) := by omega
      have hon : l.n % 256 + min (256 - l.n % 256) (len - l.n) ≤ 256 := by omega
      have hblk : (s.fileAt fh).blockAt (blockStore mask sectors blocks maxblocks)
          ((l.n / 256 : Nat) : Int) = b := by
        apply blockAt_of_getElem
        rw [hbl]
        exact hbi
      obtain ⟨hbufx, hctlx, hcohx, huniqx⟩ := lcread_body_store mask sectors blocks maxblocks s
        fh len l (by rw [hp, hidx, hblk]; exact hbr) hcoh huniq
      rw [hp, hidx, hbegin, hblk, hchunk] at hbufx
      obtain ⟨hfx, hnx⟩ := lcread_body_files (blockStore mask sectors blocks maxblocks) fh len
        s l l.n hp hnl hlen (by omega)
      generalize hsx : lcread_body (blockStore mask sectors blocks maxblocks) fh len s l = rx
        at hbufx hctlx hcohx huniqx hfx hnx
      obtain ⟨sx, lx⟩ := rx
      dsimp only at hbufx hctlx hcohx huniqx hfx hnx
      have hatx := fileAt_of_files s sx fh _ hfx hfh
      have hchunkeq := stored_chunk s.ctl final bytes len (l.n / 256) (l.n % 256)
        (min (256 - l.n % 256) (len - l.n)) b hst hbi (by omega) hon hn1
      have hpos : 256 * (l.n / 256) + l.n % 256 = l.n := by omega
      rw [hpos] at hchunkeq
      have hbufx2 : lx.buf = bytes.take lx.n ++ out.drop lx.n := by
        rw [hbufx, hnx, hbuf]
        unfold memcpy
        exact read_buffer_step bytes out _ l.n _ (by omega) hchunkeq (by omega)
      obtain ⟨s1, l1, hr, hl1, hb1⟩ := ih sx lx
        (by rw [hfx, List.length_set]; exact hfh)
        (by rw [hatx, hnx])
        (by rw [hatx]; exact hbl)
        (by rw [hnx]; omega)
        hbufx2
        (by rw [hctlx]; exact hst)
        (by rw [hctlx]; exact hcohx)
        huniqx
        (by rw [hnx]; omega)
      refine ⟨s1, l1, ?_, hl1, hb1⟩
      rw [lcread_loop, if_pos hnl]
      dsimp only
      rw [hsx]
      exact hr
    · have hnlen : l.n = len := by omega
      exact ⟨s, l, lcread_loop_done _ _ _ _ _ _ hnl, hnlen, by rw [hbuf, hnlen]⟩

theorem coherent_initcache (n : Nat) (st : Store) : coherent (lcloud_initcache n) st := by
  intro e he hocc
  exfalso
  apply hocc
  simp only [lcloud_initcache, CacheState.lines, Option.getD_some] at he
  rw [List.eq_of_mem_replicate he]
  rfl

theorem deviceTable_mem (mask sectors blocks : Int) (d : device)
    (hd : d ∈ deviceTable mask sectors blocks) :
    d = { lcloud := 1, cur_sector := 0, cur_block := 0, sectors_count := sectors,
          blocks_count := blocks } ∨ d = device.zero := by
  unfold deviceTable at hd
  obtain ⟨i, _, hi⟩ := List.mem_map.mp hd
  split_ifs at hi
  · exact Or.inl hi.symm
  · exact Or.inr hi.symm

theorem deviceTable_length (mask sectors blocks : Int) :
    (deviceTable mask sectors blocks).length = 16 := by
  simp [deviceTable]

theorem deviceTable_getD (mask sectors blocks : Int) (i : Nat) :
    (deviceTable mask sectors blocks).getD i device.zero =
        { lcloud := 1, cur_sector := 0, cur_block := 0, sectors_count := sectors,
          blocks_count := blocks } ∨
      (deviceTable mask sectors blocks).getD i device.zero = device.zero := by
  by_cases hi : i < (deviceTable mask sectors blocks).length
  · exact deviceTable_mem _ _ _ _ (getD_mem _ _ _ hi)
  · exact Or.inr (List.getD_eq_default _ _ (by omega))

/-- A device table with room for at least one block reports at least one sector and one
block per sector. -/
theorem capacity_pos (mask sectors blocks : Int) (hs0 : 0 ≤ sectors) (hb0 : 0 ≤ blocks)
    (h : 0 < capacity (deviceTable mask sectors blocks)) : 0 < sectors ∧ 0 < blocks := by
  by_contra hc
  have hz : (sectors * blocks).toNat = 0 := by
    have : sectors = 0 ∨ blocks = 0 := by omega
    rcases this with h1 | h1 <;> simp [h1]
  have : capacity (deviceTable mask sectors blocks) = 0 := by
    unfold capacity
    apply List.sum_eq_zero
    intro x hx
    obtain ⟨d, hd, rfl⟩ := List.mem_map.mp hx
    rcases deviceTable_mem _ _ _ d hd with h1 | h1
    · rw [h1]; exact hz
    · rw [h1]; rfl
  omega

theorem fresh_allocInv {σ : Type} (s : FsState σ) (hcur : s.cur_device = 0)
    (hlen : s.devices.length = 16) (hfresh : ∀ d ∈ s.devices, freshDevice d) :
    allocInv s ∧ remainingBlocks s = capacity s.devices := by
  constructor
  · refine ⟨by omega, hlen, ?_, ?_⟩
    · intro d hd
      obtain ⟨f1, f2, f3, f4⟩ := hfresh d hd
      refine ⟨by omega, by omega, by omega, fun h => by rw [f2]; exact f4 (by omega),
        fun _ => f2⟩
    · intro i hi
      omega
  · unfold remainingBlocks capacity
    congr 1
    apply List.map_congr_left
    intro d hd
    obtain ⟨f1, f2, f3, f4⟩ := hfresh d hd
    unfold device.remaining
    rw [f1, f2]
    simp

theorem lcseek_ok_full {σ : Type} (s : FsState σ) (fh off : Nat) (hfh : fh < s.files.length)
    (hopen : (s.fileAt fh).is_open = true) (hoff : (off : Int) ≤ (s.fileAt fh).file_size)
    (hsz : (s.fileAt fh).file_size < 2 ^ 31) :
    lcseek s (fh : Int) off =
      (s.setFile fh { s.fileAt fh with cur_pos := (off : Int) }, (off : Int)) := by
  have hguard : ¬ ((fh : Int) < 0 ∨ (fh : Int) ≥ (s.files.length : Int)) := by omega
  have hlt : ¬ toU64 (s.fileAt fh).file_size < off := by
    rw [toU64_small _ (by omega) hsz]
    omega
  unfold lcseek
  rw [if_neg hguard]
  simp only [Int.toNat_ofNat, hopen, Bool.not_true, Bool.false_eq_true, if_false, if_neg hlt,
    toI32_small off (by omega)]

/-- Claim C25 (write, then read back without closing): against the faithful block store
(devices per the probe mask, each with `sectors` x `blocks` blocks, all three within their
16-bit frame fields), for every cache capacity `maxblocks ≥ 1`, every initial content of the
store and every byte string of length `k ≥ 1` (below `2 ^ 31`) that fits the device capacity:
from program start, `lcopen` of a name returns handle 0, `lcwrite` of the `k` bytes returns
`k`, `lcseek` to 0 returns 0, and `lcread` of `k` bytes returns `k` and leaves exactly the
bytes written in the first `k` places of the buffer.  Nothing is assumed about `k` against the
cache capacity, so the string may span more blocks than the cache holds. -/
theorem write_then_read_back (mask sectors blocks : Int) (maxblocks : Nat) (st : Store)
    (name : String) (bytes out : List Nat) (fuel : Nat) (hN : 1 ≤ maxblocks)
    (hm0 : 0 ≤ mask) (hm1 : mask < 2 ^ 16) (hs0 : 0 ≤ sectors) (hs1 : sectors < 2 ^ 16)
    (hb0 : 0 ≤ blocks) (hb1 : blocks < 2 ^ 16)
    (hk1 : 1 ≤ bytes.length) (hk31 : bytes.length < 2 ^ 31)
    (hcap : bytes.length ≤ 256 * capacity (deviceTable mask sectors blocks))
    (hfuel : bytes.length + 17 ≤ fuel) :
    ∃ s1 s2 s3 : FsState Store,
      lcopen (blockStore mask sectors blocks maxblocks) fuel (FsState.start st) name =
          some (s1, 0) ∧
        lcwrite (blockStore mask sectors blocks maxblocks) fuel s1 0 bytes bytes.length =
          some (s2, (bytes.length : Int)) ∧
        (lcseek s2 0 0).2 = 0 ∧
        lcread (blockStore mask sectors blocks maxblocks) fuel (lcseek s2 0 0).1 0 out
            bytes.length =
          some (s3, (bytes.length : Int), bytes ++ out.drop bytes.length) := by
  -- open
  have hopen := store_lcopen_fresh mask sectors blocks maxblocks st name fuel hm0 hm1 hs0 hs1
    hb0 hb1 (by omega)
  generalize hs1def : (⟨1, deviceTable mask sectors blocks, 0, [⟨true, name, 0, 0, []⟩],
    lcloud_initcache maxblocks, st⟩ : FsState Store) = s1 at hopen
  have e_dev : s1.devices = deviceTable mask sectors blocks := by rw [← hs1def]
  have e_cur : s1.cur_device = 0 := by rw [← hs1def]
  have e_files : s1.files = [⟨true, name, 0, 0, []⟩] := by rw [← hs1def]
  have e_cache : s1.cache = lcloud_initcache maxblocks := by rw [← hs1def]
  have e_at : s1.fileAt 0 = ⟨true, name, 0, 0, []⟩ := by rw [← hs1def]; rfl
  have hfh1 : 0 < s1.files.length := by rw [e_files]; exact Nat.zero_lt_one
  -- the allocator
  obtain ⟨hsec, hblk⟩ := capacity_pos mask sectors blocks hs0 hb0 (by omega)
  have hfresh : ∀ d ∈ s1.devices, freshDevice d := by
    intro d hd
    rw [e_dev] at hd
    rcases deviceTable_mem _ _ _ d hd with h | h
    · rw [h]; exact ⟨rfl, rfl, hs0, fun _ => hblk⟩
    · rw [h]; decide
  obtain ⟨hinv, hrem⟩ := fresh_allocInv s1 e_cur
    (by rw [e_dev]; exact deviceTable_length _ _ _) hfresh
  rw [e_dev] at hrem
  obtain ⟨sK, final, hmany, _, _, _, hall⟩ := allocMany_inv 17 (le_refl _)
    ((bytes.length + 255) / 256) s1 hinv (by omega)
  have hK := allocMany_length 17 _ _ _ _ hmany
  have hnodup : final.Nodup :=
    (allocMany_ordered 17 _ s1 sK final hmany).1.imp (fun h => allocatedBefore_ne _ _ h)
  have hrange : ∀ b ∈ final, locatorInRange b := by
    intro b hb
    obtain ⟨r1, r2, r3, r4, r5, r6⟩ := hall b hb
    rw [e_dev] at r4 r6
    rcases deviceTable_getD mask sectors blocks b.device_id.toNat with h | h
    · rw [h] at r4 r6
      exact ⟨r1, by omega, r3, by change b.sector < sectors at r4; omega, r5,
        by change b.block < blocks at r6; omega⟩
    · rw [h] at r4
      change b.sector < 0 at r4
      omega
  -- write
  obtain ⟨s2, l2, hw, hl2, hf2, hst2, hcoh2, huniq2⟩ :=
    lcwrite_loop_store mask sectors blocks maxblocks 0 bytes.length 17 hk31 final hnodup hrange
      hK fuel s1 { n := 0, tmp := (blockStore mask sectors blocks maxblocks).tmp, buf := bytes }
      sK hfh1 (by rw [e_at]; rfl) (by rw [e_at]; rfl)
      (by rw [e_at]; show ([] : List block) = final.take ((0 + 255) / 256); simp)
      (Nat.zero_le _) (le_refl _)
      (by
        show allocMany 17 (final.length - (0 + 255) / 256) s1 =
          some (sK, final.drop ((0 + 255) / 256))
        simp only [Nat.zero_add, Nat.reduceDiv, Nat.sub_zero, List.drop_zero, hK]
        exact hmany)
      (fun j b _ hj => absurd hj (Nat.not_lt_zero _))
      (by rw [e_cache]; exact coherent_initcache _ _)
      (by rw [e_cache]; exact uniqueKeys_initcache _) (by omega)
  have hwrite := lcwrite_open (blockStore mask sectors blocks maxblocks) fuel s1 0 bytes
    bytes.length hfh1 (by rw [e_at])
  rw [hw] at hwrite
  simp only [hl2, toI32_small _ hk31, Nat.cast_zero] at hwrite
  rw [e_at] at hf2
  have hlen2 : s2.files.length = s1.files.length := by rw [hf2, List.length_set]
  have hat2 : s2.fileAt 0 = ⟨true, name, (bytes.length : Int), (bytes.length : Int), final⟩ :=
    fileAt_of_files s1 s2 0 _ hf2 hfh1
  -- seek
  have hseek := lcseek_ok_full s2 0 0 (by rw [hlen2]; exact hfh1) (by rw [hat2])
    (by rw [hat2]; exact Int.ofNat_nonneg _)
    (by rw [hat2]; show (bytes.length : Int) < 2 ^ 31; omega)
  simp only [Nat.cast_zero] at hseek
  rw [hat2] at hseek
  -- read
  generalize hs3 : s2.setFile 0 ⟨true, name, (bytes.length : Int), 0, final⟩ = t at hseek
  have hlen3 : t.files.length = s2.files.length := by rw [← hs3]; exact length_setFile _ _ _
  have hat3 : t.fileAt 0 = ⟨true, name, (bytes.length : Int), 0, final⟩ := by
    rw [← hs3]; exact fileAt_setFile _ _ _ (by rw [hlen2]; exact hfh1)
  have hctl3 : t.ctl = s2.ctl := by rw [← hs3]; rfl
  have hcache3 : t.cache = s2.cache := by rw [← hs3]; rfl
  obtain ⟨s3, l3, hr, hl3, hb3⟩ :=
    lcread_loop_store mask sectors blocks maxblocks 0 bytes.length hk31 final hrange hK bytes
      out (le_refl _) fuel t
      { n := 0, tmp := (blockStore mask sectors blocks maxblocks).tmp, buf := out }
      (by rw [hlen3, hlen2]; exact hfh1) (by rw [hat3]; rfl) (by rw [hat3])
      (Nat.zero_le _) (by simp) (by rw [hctl3]; exact hst2)
      (by rw [hctl3, hcache3]; exact hcoh2) (by rw [hcache3]; exact huniq2) (by omega)
  have hread := lcread_open (blockStore mask sectors blocks maxblocks) fuel t 0 out
    bytes.length (by rw [hlen3, hlen2]; exact hfh1) (by rw [hat3])
    (by
      rw [hat3]
      show bytes.length ≤ toU64 ((bytes.length : Int) - 0)
      rw [sub_zero, toU64_natCast _ (by omega)])
  rw [hr] at hread
  simp only [hl3, hb3, toI32_small _ hk31, Nat.cast_zero, List.take_length] at hread
  refine ⟨s1, s2, s3, hopen, hwrite, ?_, ?_⟩
  · rw [hseek]
  · rw [hseek]
    exact hread

theorem write_then_read_back_witness :
    ∃ s1 s2 s3 : FsState Store,
      lcopen (blockStore 1 4 4 2) 617 (FsState.start Store.zero) "a" = some (s1, 0) ∧
        lcwrite (blockStore 1 4 4 2) 617 s1 0 (sampleBytes 600) (sampleBytes 600).length =
          some (s2, ((sampleBytes 600).length : Int)) ∧
        (lcseek s2 0 0).2 = 0 ∧
        lcread (blockStore 1 4 4 2) 617 (lcseek s2 0 0).1 0 (List.replicate 600 0)
            (sampleBytes 600).length =
          some (s3, ((sampleBytes 600).length : Int),
            sampleBytes 600 ++ (List.replicate 600 0).drop (sampleBytes 600).length) :=
  write_then_read_back 1 4 4 2 Store.zero "a" (sampleBytes 600) (List.replicate 600 0) 617
    (by decide) (by decide) (by decide) (by decide) (by decide) (by decide) (by decide)
    (by decide!) (by decide!) (by decide!) (by decide!)

end LCloud
